import Mathlib

/-! # A verification development for `quandl.go`

A shallow embedding of the Quandl client (`src/quandl/quandl.go`) together with
the fragments of the Go standard library it calls (`fmt.Sprintf`,
`strings.Trim`, `strconv.Itoa`, `net/url`, `encoding/json`), followed by
theorems about the URLs and query strings the client builds, its transport and
its decoding of responses.

Modelling conventions

* A Go `string` is an immutable sequence of bytes: `GoString := List (Fin 256)`.
  String literals of the source are written `str "..."` (their UTF-8 bytes).
* A Go `int` is modelled by `Int`; no arithmetic is performed on the `int`
  values that reach URLs, so no wrap-around is involved there.
* A Go `map[string]string` is either `nil` or a reference to a table; a table
  is an association list with pairwise distinct keys whose list order stands
  for the (unspecified) iteration order.  A parameter of map type is therefore
  an `Option Params`, and a function that writes to it returns the new table.
* The receiver `api *API` is passed explicitly and the updated record is
  returned by the methods that assign to its fields.
* `log.Fatal` and run-time panics are the two ways a call can fail to return;
  they are the `Abort` values of an `Except`.
* A response body is decoded from the JSON value it scans to; the scanner and
  the acceptance of number literals by `strconv.ParseFloat` are parameters.
-/

namespace Quandl

/-! ## Strings -/

abbrev Byte := Fin 256

abbrev GoString := List Byte

/-- The bytes of a source string literal (UTF-8, as Go stores it). -/
def str (s : String) : GoString :=
  (s.data.flatMap String.utf8EncodeChar).map (fun b => b.val)

/-- The byte of an ASCII character literal. -/
def chr (c : Char) : Byte := Fin.ofNat c.toNat

/-! ## `fmt.Sprintf` on string arguments -/

/-- The tail `%!(EXTRA string=a, string=b)` items, comma separated. -/
def extraItems : List GoString → GoString
  | [] => []
  | [a] => str "string=" ++ a
  | a :: b :: rest => str "string=" ++ a ++ str ", " ++ extraItems (b :: rest)

/-- What `doPrintf` appends when arguments are left over after the format is
consumed. -/
def extraArgs : List GoString → GoString
  | [] => []
  | a :: rest => str "%!(EXTRA " ++ extraItems (a :: rest) ++ str ")"

/-- The function `fmt.Sprintf(format, args...)` for arguments that are all
strings, on formats whose verbs are `%s` and `%%` (every entry of `urlTemplates`
is one, see `sVerbsOnly`): `%s` prints the next argument verbatim or
`%!s(MISSING)` when none is left, a lone final `%` prints `%!(NOVERB)`, and
unused arguments are reported in a final `%!(EXTRA ...)`.  A `%` followed by
any other byte is outside the modelled fragment and is copied through. -/
def Sprintf : GoString → List GoString → GoString
  | [], args => extraArgs args
  | [c], args => if c = chr '%' then str "%!(NOVERB)" ++ extraArgs args else c :: extraArgs args
  | c :: v :: rest, args =>
    if c = chr '%' then
      if v = chr 's' then
        match args with
        | a :: more => a ++ Sprintf rest more
        | [] => str "%!s(MISSING)" ++ Sprintf rest []
      else if v = chr '%' then chr '%' :: Sprintf rest args
      else c :: Sprintf (v :: rest) args
    else c :: Sprintf (v :: rest) args

/-- Formats inside the fragment `Sprintf` models: every `%` starts `%s` or `%%`. -/
def sVerbsOnly : GoString → Bool
  | [] => true
  | [c] => c ≠ chr '%'
  | c :: v :: rest =>
    if c = chr '%' then (v = chr 's' || v = chr '%') && sVerbsOnly rest
    else sVerbsOnly (v :: rest)

/-! ## `strings.Trim` with an ASCII cutset -/

/-- `trimLeftASCII`: drop the leading bytes that belong to the cutset. -/
def trimLeft (s cutset : GoString) : GoString := s.dropWhile (fun c => decide (c ∈ cutset))

/-- `trimRightASCII`: drop the trailing bytes that belong to the cutset. -/
def trimRight (s cutset : GoString) : GoString := s.rdropWhile (fun c => decide (c ∈ cutset))

/-- The function `strings.Trim(s, cutset)` for a cutset of ASCII bytes, where Go
trims byte-wise: `trimLeftASCII(trimRightASCII(s, as), as)`. -/
def Trim (s cutset : GoString) : GoString := trimLeft (trimRight s cutset) cutset

/-! ## `strconv.Itoa` -/

/-- Decimal digits of `n`, most significant first, pushed in front of `acc`;
`fuel` bounds the number of digits. -/
def digitsAux : Nat → Nat → GoString → GoString
  | 0, _, acc => acc
  | fuel + 1, n, acc =>
    let acc1 := Fin.ofNat (48 + n % 10) :: acc
    if n / 10 = 0 then acc1 else digitsAux fuel (n / 10) acc1

/-- Decimal representation of a natural number. -/
def formatNat (n : Nat) : GoString := digitsAux (n + 1) n []

/-- The function `strconv.Itoa`: base-10 text with a leading `-` for negatives. -/
def Itoa (i : Int) : GoString :=
  if i < 0 then chr '-' :: formatNat i.natAbs else formatNat i.natAbs

/-! ## `net/url`: escaping, `Values`, `Encode`, `ParseQuery` -/

/-- The function `shouldEscape(c, encodeQueryComponent)`: only ASCII letters,
digits and `-`, `_`, `.`, `~` are left alone. -/
def shouldEscape (c : Byte) : Bool :=
  if (chr 'a' ≤ c ∧ c ≤ chr 'z') ∨ (chr 'A' ≤ c ∧ c ≤ chr 'Z') ∨ (chr '0' ≤ c ∧ c ≤ chr '9') then false
  else if c = chr '-' ∨ c = chr '_' ∨ c = chr '.' ∨ c = chr '~' then false
  else true

/-- The table `upperhex = "0123456789ABCDEF"` indexed by a nibble. -/
def upperhex (n : Nat) : Byte := (str "0123456789ABCDEF").getD n 0

/-- One byte of `escape(s, encodeQueryComponent)`. -/
def escapeByte (c : Byte) : GoString :=
  if shouldEscape c then
    if c = chr ' ' then [chr '+']
    else [chr '%', upperhex (c.val / 16), upperhex (c.val % 16)]
  else [c]

/-- The function `url.QueryEscape`.  (Go returns `s` itself when no byte
needs escaping, which is what the byte-wise translation gives as well.) -/
def QueryEscape (s : GoString) : GoString := s.flatMap escapeByte

def ishex (c : Byte) : Bool :=
  (chr '0' ≤ c ∧ c ≤ chr '9') ∨ (chr 'a' ≤ c ∧ c ≤ chr 'f') ∨ (chr 'A' ≤ c ∧ c ≤ chr 'F')

def unhex (c : Byte) : Nat :=
  if chr '0' ≤ c ∧ c ≤ chr '9' then c.val - 48
  else if chr 'a' ≤ c ∧ c ≤ chr 'f' then c.val - 97 + 10
  else if chr 'A' ≤ c ∧ c ≤ chr 'F' then c.val - 65 + 10
  else 0

/-- The function `url.QueryUnescape`: `%XY` becomes the byte `XY`, `+` becomes a
space, and a `%` not followed by two hex digits is an `EscapeError` (`none`). -/
def QueryUnescape : GoString → Option GoString
  | [] => some []
  | c :: rest =>
    if c = chr '%' then
      match rest with
      | a :: b :: rest2 =>
        if ishex a && ishex b then
          (QueryUnescape rest2).map (fun t => Fin.ofNat (unhex a * 16 + unhex b) :: t)
        else none
      | _ => none
    else if c = chr '+' then (QueryUnescape rest).map (fun t => chr ' ' :: t)
    else (QueryUnescape rest).map (fun t => c :: t)

/-- The type `url.Values = map[string][]string`, as an association list with
distinct keys. -/
abbrev Values := List (GoString × List GoString)

/-- The read `v[key]`: the nil slice when the key is absent. -/
def Values.get (v : Values) (key : GoString) : List GoString :=
  match v with
  | [] => []
  | (k, vs) :: rest => if k = key then vs else Values.get rest key

/-- The method `Values.Add`: `v[key] = append(v[key], value)`. -/
def Values.Add (v : Values) (key value : GoString) : Values :=
  match v with
  | [] => [(key, [value])]
  | (k, vs) :: rest => if k = key then (k, vs ++ [value]) :: rest else (k, vs) :: Values.Add rest key value

/-- Go's `<` on strings: lexicographic on bytes. -/
def strLt : GoString → GoString → Bool
  | [], [] => false
  | [], _ :: _ => true
  | _ :: _, [] => false
  | a :: s, b :: t => if a < b then true else if b < a then false else strLt s t

/-- Go's `<=` on strings. -/
def strLe (s t : GoString) : Bool := !strLt t s

/-- The call `slices.Sort(keys)`: the keys in ascending byte order. -/
def sortKeys (keys : List GoString) : List GoString :=
  keys.insertionSort (fun a b => strLe a b = true)

/-- The inner loop of `Encode` for one key: each value appends
`[&]key=value` to the buffer. -/
def encodeKey (buf : GoString) (k : GoString) (vs : List GoString) : GoString :=
  vs.foldl (fun buf v =>
    (if buf.length > 0 then buf ++ [chr '&'] else buf) ++ QueryEscape k ++ [chr '='] ++ QueryEscape v) buf

/-- The method `Values.Encode`: "URL encoded" form sorted by key. -/
def Values.Encode (v : Values) : GoString :=
  if v.length = 0 then []
  else (sortKeys (v.map Prod.fst)).foldl (fun buf k => encodeKey buf k (v.get k)) []

/-- One `key=value` segment handled by the loop of `parseQuery`; `err` records
whether an error was met so far. -/
def parseSegment (acc : Values × Bool) (key : GoString) : Values × Bool :=
  if chr ';' ∈ key then (acc.1, true)
  else if key = [] then acc
  else
    let k := key.takeWhile (fun c => c ≠ chr '=')
    let value := (key.dropWhile (fun c => c ≠ chr '=')).tail
    match QueryUnescape k with
    | none => (acc.1, true)
    | some k1 =>
      match QueryUnescape value with
      | none => (acc.1, true)
      | some v1 => (Values.Add acc.1 k1 v1, acc.2)

/-- The function `url.ParseQuery`: the query is cut at every `&`, each piece at
its first `=`, both halves are unescaped and appended under the key.  The
second component tells whether an error was returned. -/
def ParseQuery (query : GoString) : Values × Bool :=
  (query.splitOn (chr '&')).foldl parseSegment ([], false)

/-! ## Maps of type `map[string]string` -/

/-- A non-nil `map[string]string`; list order stands for iteration order. -/
abbrev Params := List (GoString × GoString)

/-- The read `m[key]` with the comma-ok result. -/
def Params.get (m : Params) (key : GoString) : Option GoString :=
  match m with
  | [] => none
  | (k, v) :: rest => if k = key then some v else Params.get rest key

/-- The write `m[key] = value` on a non-nil map. -/
def Params.set (m : Params) (key value : GoString) : Params :=
  match m with
  | [] => [(key, value)]
  | (k, v) :: rest => if k = key then (k, value) :: rest else (k, v) :: Params.set rest key value

/-- A well-formed table holds each key once. -/
def Params.WF (m : Params) : Prop := (m.map Prod.fst).Nodup

instance (m : Params) : Decidable (Params.WF m) := by
  unfold Params.WF; infer_instance

/-- The error `json.Unmarshal` returns: input that is not one JSON text, or the
first `UnmarshalTypeError` recorded, of which the fields `Value` (the
description of the JSON value) and `Type` (the Go type it could not be stored
in) are kept. -/
inductive JSONError where
  | malformed
  | typeError (value goType : GoString)
  deriving DecidableEq, Repr

/-- The ways a call fails to return: a run-time panic, `log.Fatal` /
`log.Fatalf` on the text formatted from their arguments, or `log.Fatal(err)`
on the error of `json.Unmarshal` (the process exits with status 1). -/
inductive Abort where
  | panic (msg : String)
  | fatal (msg : GoString)
  | fatalJSON (err : JSONError)
  deriving DecidableEq, Repr

deriving instance DecidableEq for Except

/-- The built-in `len` on a possibly nil map. -/
def mapLen (params : Option Params) : Nat :=
  match params with
  | none => 0
  | some m => m.length

/-- The statement `params[key] = value`: a panic on a nil map. -/
def mapAssign (params : Option Params) (key value : GoString) : Except Abort (Option Params) :=
  match params with
  | none => .error (.panic "assignment to entry in nil map")
  | some m => .ok (some (Params.set m key value))

/-! ## The client -/

structure API where
  apiKey : GoString
  format : GoString
  cacheHandler : GoString
  wasCached : Bool
  timeout : Int
  lastURL : GoString
  err : Option GoString
  deriving DecidableEq, Repr

def urlTemplates : List (GoString × GoString) :=
  [ (str "direct", str "https://www.quandl.com/api/v3/%s.%s?%s"),
    (str "symbol", str "https://www.quandl.com/api/v3/datasets/%s.%s?%s"),
    (str "search", str "https://www.quandl.com/api/v3/datasets.%s?%s"),
    (str "list", str "https://www.quandl.com/api/v3/datasets.%s?%s"),
    (str "meta", str "https://www.quandl.com/api/v3/datasets/%s/metadata.%s"),
    (str "dbs", str "https://www.quandl.com/api/v3/databases.%s?%s"),
    (str "bulk", str "https://www.quandl.com/api/v3/databases/%s/data?%s") ]

/-- The read `urlTemplates[k]`: the empty string for a key that is absent. -/
def urlTemplate (k : GoString) : GoString := (Params.get urlTemplates k).getD []

/-- The constructor `NewAPI`; the remaining fields take their zero values. -/
def NewAPI (k : GoString) (format : GoString) : API :=
  let format := if format = str "" then str "object" else format
  { apiKey := k, format := format, cacheHandler := [], wasCached := false,
    timeout := 0, lastURL := [], err := none }

def SetTimeout (api : API) (t : Int) : API := { api with timeout := t }

/-- The method `getURL`: returns the URL and the client with `lastURL` assigned.
(The `fmt.Println` of the untrimmed URL writes to standard output only.) -/
def getURL (api : API) (k : GoString) (args : List GoString) : GoString × API :=
  let url := urlTemplate k
  let api := { api with lastURL := Trim (Sprintf url args) (str "?&") }
  (api.lastURL, api)

def getFormat (api : API) (omitCsv : Bool) : GoString :=
  if (api.format = str "csv" ∧ omitCsv = true) ∨ api.format = str "object" then str "json"
  else api.format

/-- The function `httpBuildQuery`: every entry of the map is added to a fresh
`url.Values`, which is then encoded. -/
def httpBuildQuery (params : Option Params) : GoString :=
  let v := (params.getD []).foldl (fun v kp => Values.Add v kp.1 kp.2) ([] : Values)
  Values.Encode v

/-- The method `arrangeParams`: returns the query string together with the
caller's map after the call. -/
def arrangeParams (api : API) (params : Option Params) : Except Abort (GoString × Option Params) := do
  let params ← if api.apiKey ≠ str "" then mapAssign params (str "auth_token") api.apiKey else pure params
  if mapLen params = 0 then
    return (str "", params)
  return (httpBuildQuery params, params)

/-- The URL-building statement of `Get` (the call of `getURL` with its
arguments evaluated left to right): the URL, the client and the caller's map. -/
def GetURL (api : API) (path : GoString) (params : Option Params) :
    Except Abort (GoString × API × Option Params) := do
  let fmt := getFormat api true
  let (q, params) ← arrangeParams api params
  let (url, api) := getURL api (str "direct") [path, fmt, q]
  return (url, api, params)

/-- The URL-building statement of `GetSymbol`. -/
def GetSymbolURL (api : API) (sym : GoString) (params : Option Params) :
    Except Abort (GoString × API × Option Params) := do
  let fmt := getFormat api true
  let (q, params) ← arrangeParams api params
  let (url, api) := getURL api (str "symbol") [sym, fmt, q]
  return (url, api, params)

/-- The URL-building statement of `GetMeta`. -/
def GetMetaURL (api : API) (symbol : GoString) : GoString × API :=
  getURL api (str "meta") [symbol, getFormat api false]

/-- The parameter map `GetDatabases` builds after normalising its arguments. -/
def GetDatabasesParams (page perPage : Int) : Params :=
  let page := if page = 0 then 1 else page
  let perPage := if perPage = 0 ∨ perPage > 100 then 100 else perPage
  [ (str "per_page", Itoa perPage), (str "page", Itoa page) ]

/-- The URL-building part of `GetDatabases`. -/
def GetDatabasesURL (api : API) (page perPage : Int) : Except Abort (GoString × API) := do
  let params := GetDatabasesParams page perPage
  let fmt := getFormat api false
  let (q, _) ← arrangeParams api (some params)
  return getURL api (str "dbs") [fmt, q]

/-- The parameter map `GetSearch` builds after normalising its arguments. -/
def GetSearchParams (query : GoString) (page perPage : Int) : Params :=
  let page := if page = 0 then 1 else page
  let perPage := if perPage = 0 then 300 else perPage
  [ (str "per_page", Itoa perPage), (str "page", Itoa page), (str "query", query) ]

/-- The URL-building part of `GetSearch`. -/
def GetSearchURL (api : API) (query : GoString) (page perPage : Int) : Except Abort (GoString × API) := do
  let params := GetSearchParams query page perPage
  let fmt := getFormat api true
  let (q, _) ← arrangeParams api (some params)
  return getURL api (str "search") [fmt, q]

/-! ## Transport -/

/-- Two's-complement wrap-around of a product computed in `int64`, the type
of `time.Duration`. -/
def wrapInt64 (x : Int) : Int := (x + 9223372036854775808) % 18446744073709551616 - 9223372036854775808

/-- The outcome of `client.Get(url)`: an error, or a response with its status
code and what `ioutil.ReadAll(res.Body)` returns on it: the bytes read and the
error of the read (`none` for `nil`, when the body was read to its end). -/
inductive Reply where
  | netErr (msg : GoString)
  | response (status : Int) (body : GoString) (readErr : Option GoString)
  deriving DecidableEq, Repr

/-- The local `ts` of `download`: the number of seconds of the timeout. -/
def downloadTs (api : API) : Int :=
  if api.timeout ≠ 0 then api.timeout else 5

/-- The method `download`.  The argument `get timeout url` stands for
`client.Get(url)` on an `http.Client` whose `Timeout` is `timeout` nanoseconds
(`time.Second` is 1000000000).  On status 200 the result is what
`ioutil.ReadAll(res.Body)` returns, bytes and error; on any other status the
error of the read is discarded and `log.Fatalf` ends the process with the
status code and the bytes read; an error of `client.Get` ends it through
`log.Fatal`. -/
def download (api : API) (get : Int → GoString → Reply) (url : GoString) :
    Except Abort (GoString × Option GoString) :=
  let ts := downloadTs api
  let timeout := wrapInt64 (ts * 1000000000)
  match get timeout url with
  | .netErr err => .error (.fatal err)
  | .response status body readErr =>
    if status ≠ 200 then .error (.fatal (Itoa status ++ str " " ++ body ++ str "\n"))
    else .ok (body, readErr)

/-! ## `encoding/json` on the types of the package -/

/-- A JSON text after scanning: strings are unquoted bytes, a number is kept
as its literal. -/
inductive JSON where
  | null
  | bool (b : Bool)
  | number (lit : GoString)
  | string (s : GoString)
  | array (items : List JSON)
  | object (members : List (GoString × JSON))

/-- ASCII lower-casing of a byte. -/
def foldByte (c : Byte) : Byte :=
  if chr 'A' ≤ c ∧ c ≤ chr 'Z' then Fin.ofNat (c.val + 32) else c

/-- The case-insensitive match of a struct tag against an object key, as
`bytes.EqualFold` decides it when the tag is ASCII: letters match in either
case, and besides `s` matches U+017F (bytes C5 BF) and `k` matches U+212A
(bytes E2 84 AA). -/
def equalFold : GoString → GoString → Bool
  | [], [] => true
  | [], _ :: _ => false
  | _ :: _, [] => false
  | n :: ns, c :: cs =>
    (foldByte n = foldByte c && equalFold ns cs) ||
    (foldByte n = chr 's' &&
      (match cs with
        | c2 :: cs2 => c = 0xC5 && c2 = 0xBF && equalFold ns cs2
        | [] => false)) ||
    (foldByte n = chr 'k' &&
      (match cs with
        | c2 :: c3 :: cs3 => c = 0xE2 && c2 = 0x84 && c3 = 0xAA && equalFold ns cs3
        | _ => false))

/-- Value of a non-empty run of decimal digits. -/
def parseDigits : GoString → Option Nat
  | [] => none
  | c :: cs =>
    (c :: cs).foldl (fun acc x =>
      match acc with
      | none => none
      | some n => if chr '0' ≤ x ∧ x ≤ chr '9' then some (n * 10 + (x.val - 48)) else none)
      (some 0)

/-- The call `strconv.ParseInt(lit, 10, 64)` on a JSON number literal: `none`
when the literal has a fraction or an exponent or does not fit `int64`. -/
def parseInt64 (lit : GoString) : Option Int :=
  match lit with
  | [] => none
  | c :: cs =>
    if c = chr '-' then
      match parseDigits cs with
      | some n => if n ≤ 9223372036854775808 then some (-(n : Int)) else none
      | none => none
    else
      match parseDigits (c :: cs) with
      | some n => if n < 9223372036854775808 then some (n : Int) else none
      | none => none

/-! The decoders below return the new value of the target and the
`UnmarshalTypeError` recorded while decoding, if any; a recorded error does
not stop the decoding of the remaining input, and `json.Unmarshal` returns the
first one. -/

/-- The method `saveError`: the first error is kept. -/
def firstErr (a b : Option JSONError) : Option JSONError :=
  match a with
  | some e => some e
  | none => b

/-- The `Value` of the `UnmarshalTypeError` for a JSON value of the wrong
kind. -/
def describe : JSON → GoString
  | .null => str "null"
  | .bool _ => str "bool"
  | .number _ => str "number"
  | .string _ => str "string"
  | .array _ => str "array"
  | .object _ => str "object"

/-- Decoding into an `int` field. -/
def decodeInt (cur : Int) : JSON → Int × Option JSONError
  | .null => (cur, none)
  | .number lit =>
    match parseInt64 lit with
    | some i => (i, none)
    | none => (cur, some (.typeError (str "number " ++ lit) (str "int")))
  | v => (cur, some (.typeError (describe v) (str "int")))

/-- Decoding into a `string` field or slice element. -/
def decodeString (cur : GoString) : JSON → GoString × Option JSONError
  | .null => (cur, none)
  | .string s => (s, none)
  | v => (cur, some (.typeError (describe v) (str "string")))

/-- Decoding into a `bool` field. -/
def decodeBool (cur : Bool) : JSON → Bool × Option JSONError
  | .null => (cur, none)
  | .bool b => (b, none)
  | v => (cur, some (.typeError (describe v) (str "bool")))

/-- A non-nil slice: the elements of its backing array that have been written
since the array was allocated, and its length; the elements of the slice are
the first `len` of them.  (Elements of the backing array never written are
zero.) -/
structure GoSlice (α : Type) where
  backing : List α
  len : Nat

/-- The elements of a possibly nil slice. -/
def GoSlice.elems {α : Type} (s : Option (GoSlice α)) : List α :=
  match s with
  | none => []
  | some s => s.backing.take s.len

/-- The loop of `d.array` on a slice: the element number `i` of the JSON array
is decoded into the element number `i` of the backing array as it is (zero
where nothing was written), and what lies behind the last one stays. -/
def decodeItems {α : Type} (zero : α) (decElem : α → JSON → α × Option JSONError) :
    List α → List JSON → List α × Option JSONError
  | backing, [] => (backing, none)
  | [], item :: items =>
    ((decElem zero item).1 :: (decodeItems zero decElem [] items).1,
      firstErr (decElem zero item).2 (decodeItems zero decElem [] items).2)
  | b :: backing, item :: items =>
    ((decElem b item).1 :: (decodeItems zero decElem backing items).1,
      firstErr (decElem b item).2 (decodeItems zero decElem backing items).2)

/-- The backing array of a possibly nil slice. -/
def GoSlice.store {α : Type} (s : Option (GoSlice α)) : List α :=
  match s with
  | none => []
  | some s => s.backing

/-- Decoding into a slice whose Go type is written `goType`: `null` makes it
nil, `[]` a fresh empty slice, a longer array is decoded element by element
into the slice at hand, anything else is a type error. -/
def decodeSlice {α : Type} (zero : α) (decElem : α → JSON → α × Option JSONError)
    (goType : GoString) (cur : Option (GoSlice α)) : JSON → Option (GoSlice α) × Option JSONError
  | .null => (none, none)
  | .array [] => (some (GoSlice.mk [] 0), none)
  | .array (item :: items) =>
    (some (GoSlice.mk (decodeItems zero decElem (GoSlice.store cur) (item :: items)).1
      (item :: items).length),
      (decodeItems zero decElem (GoSlice.store cur) (item :: items)).2)
  | v => (cur, some (.typeError (describe v) goType))

/-- Decoding into the `[]string` field. -/
def decodeStrings (cur : Option (GoSlice GoString)) (v : JSON) :
    Option (GoSlice GoString) × Option JSONError :=
  decodeSlice [] decodeString (str "[]string") cur v

mutual
/-- The error recorded while a value is decoded into an `interface{}`: only a
number that `strconv.ParseFloat` rejects gives one (`floatOK` tells which
literals it accepts). -/
def anyErr (floatOK : GoString → Bool) : JSON → Option JSONError
  | .number lit =>
    if floatOK lit then none else some (.typeError (str "number " ++ lit) (str "float64"))
  | .array items => itemsErr floatOK items
  | .object ms => membersErr floatOK ms
  | _ => none
/-- Same as `anyErr` for the elements of an array, in order. -/
def itemsErr (floatOK : GoString → Bool) : List JSON → Option JSONError
  | [] => none
  | v :: vs => firstErr (anyErr floatOK v) (itemsErr floatOK vs)
/-- Same as `anyErr` for the members of an object, in order. -/
def membersErr (floatOK : GoString → Bool) : List (GoString × JSON) → Option JSONError
  | [] => none
  | (_, v) :: ms => firstErr (anyErr floatOK v) (membersErr floatOK ms)
end

/-- Decoding into an `interface{}` cell: whatever the cell held is replaced.
The cell keeps the JSON value from which the generic Go value (nil, bool,
float64, string, slice or map) is built. -/
def decodeCell (floatOK : GoString → Bool) (_cur : JSON) (v : JSON) : JSON × Option JSONError :=
  (v, anyErr floatOK v)

/-- Decoding into one `[]interface{}` row. -/
def decodeRow (floatOK : GoString → Bool) (cur : Option (GoSlice JSON)) (v : JSON) :
    Option (GoSlice JSON) × Option JSONError :=
  decodeSlice JSON.null (decodeCell floatOK) (str "[]interface {}") cur v

/-- Decoding into the `[][]interface{}` field. -/
def decodeRows (floatOK : GoString → Bool) (cur : Option (GoSlice (Option (GoSlice JSON))))
    (v : JSON) : Option (GoSlice (Option (GoSlice JSON))) × Option JSONError :=
  decodeSlice none (decodeRow floatOK) (str "[][]interface {}") cur v

/-- The struct `Dataset`; the field `Type` is written `Type_`, and a slice
field is `none` when nil. -/
structure Dataset where
  ID : Int
  DatasetCode : GoString
  DatabaseCode : GoString
  Name : GoString
  Description : GoString
  RefreshedAt : GoString
  NewestAvailable : GoString
  OldestAvailableDate : GoString
  ColumnNames : Option (GoSlice GoString)
  Frequency : GoString
  Type_ : GoString
  Premium : Bool
  Limit : GoString
  Transform : GoString
  ColumnIndex : GoString
  StartDate : GoString
  EndDate : GoString
  Data : Option (GoSlice (Option (GoSlice JSON)))
  Collapse : GoString
  Order : GoString
  DatabaseID : Int

/-- The zero value of `Dataset`. -/
def Dataset.zero : Dataset :=
  { ID := 0,
    DatasetCode := [],
    DatabaseCode := [],
    Name := [],
    Description := [],
    RefreshedAt := [],
    NewestAvailable := [],
    OldestAvailableDate := [],
    ColumnNames := none,
    Frequency := [],
    Type_ := [],
    Premium := false,
    Limit := [],
    Transform := [],
    ColumnIndex := [],
    StartDate := [],
    EndDate := [],
    Data := none,
    Collapse := [],
    Order := [],
    DatabaseID := 0 }

/-- The struct tags of `Dataset`, in field order. -/
def datasetTags : List GoString :=
  [str "id", str "dataset_code", str "database_code", str "name", str "description", str "refreshed_at", str "newest_available_date", str "oldest_available_date", str "column_names", str "frequency", str "type", str "premium", str "limit", str "transform", str "column_index", str "start_date", str "end_date", str "data", str "collapse", str "order", str "database_id"]

structure JSONData where
  Dataset : Quandl.Dataset

/-- The search of `encoding/json` for the field of an object key: the index
(counted from `i`) of the first tag that matches the key.  (No two tags of
`Dataset` match each other, so an exact match is the first match.) -/
def findTag : List GoString → GoString → Nat → Option Nat
  | [], _, _ => none
  | tag :: rest, key, i => if equalFold tag key then some i else findTag rest key (i + 1)

/-- Decoding the value `v` into the field number `i` of a `Dataset`, by the
type of the field. -/
def setFieldAt (floatOK : GoString → Bool) (d : Dataset) (i : Nat) (v : JSON) :
    Dataset × Option JSONError :=
  match i with
  | 0 => (({ d with ID := (decodeInt d.ID v).1 } : Dataset), (decodeInt d.ID v).2)
  | 1 => (({ d with DatasetCode := (decodeString d.DatasetCode v).1 } : Dataset), (decodeString d.DatasetCode v).2)
  | 2 => (({ d with DatabaseCode := (decodeString d.DatabaseCode v).1 } : Dataset), (decodeString d.DatabaseCode v).2)
  | 3 => (({ d with Name := (decodeString d.Name v).1 } : Dataset), (decodeString d.Name v).2)
  | 4 => (({ d with Description := (decodeString d.Description v).1 } : Dataset), (decodeString d.Description v).2)
  | 5 => (({ d with RefreshedAt := (decodeString d.RefreshedAt v).1 } : Dataset), (decodeString d.RefreshedAt v).2)
  | 6 => (({ d with NewestAvailable := (decodeString d.NewestAvailable v).1 } : Dataset), (decodeString d.NewestAvailable v).2)
  | 7 => (({ d with OldestAvailableDate := (decodeString d.OldestAvailableDate v).1 } : Dataset), (decodeString d.OldestAvailableDate v).2)
  | 8 => (({ d with ColumnNames := (decodeStrings d.ColumnNames v).1 } : Dataset), (decodeStrings d.ColumnNames v).2)
  | 9 => (({ d with Frequency := (decodeString d.Frequency v).1 } : Dataset), (decodeString d.Frequency v).2)
  | 10 => (({ d with Type_ := (decodeString d.Type_ v).1 } : Dataset), (decodeString d.Type_ v).2)
  | 11 => (({ d with Premium := (decodeBool d.Premium v).1 } : Dataset), (decodeBool d.Premium v).2)
  | 12 => (({ d with Limit := (decodeString d.Limit v).1 } : Dataset), (decodeString d.Limit v).2)
  | 13 => (({ d with Transform := (decodeString d.Transform v).1 } : Dataset), (decodeString d.Transform v).2)
  | 14 => (({ d with ColumnIndex := (decodeString d.ColumnIndex v).1 } : Dataset), (decodeString d.ColumnIndex v).2)
  | 15 => (({ d with StartDate := (decodeString d.StartDate v).1 } : Dataset), (decodeString d.StartDate v).2)
  | 16 => (({ d with EndDate := (decodeString d.EndDate v).1 } : Dataset), (decodeString d.EndDate v).2)
  | 17 => (({ d with Data := (decodeRows floatOK d.Data v).1 } : Dataset), (decodeRows floatOK d.Data v).2)
  | 18 => (({ d with Collapse := (decodeString d.Collapse v).1 } : Dataset), (decodeString d.Collapse v).2)
  | 19 => (({ d with Order := (decodeString d.Order v).1 } : Dataset), (decodeString d.Order v).2)
  | 20 => (({ d with DatabaseID := (decodeInt d.DatabaseID v).1 } : Dataset), (decodeInt d.DatabaseID v).2)
  | _ => (d, none)

/-- One member `key: v` of a JSON object decoded into a `Dataset`: the field
whose tag matches the key is decoded by its type, a key that matches no tag
is skipped. -/
def setField (floatOK : GoString → Bool) (d : Dataset) (key : GoString) (v : JSON) :
    Dataset × Option JSONError :=
  match findTag datasetTags key 0 with
  | some i => setFieldAt floatOK d i v
  | none => (d, none)

/-- Decoding a JSON value into a `Dataset` struct: the members of an object
are decoded one after the other into the struct at hand. -/
def decodeDataset (floatOK : GoString → Bool) (cur : Dataset) : JSON → Dataset × Option JSONError
  | .null => (cur, none)
  | .object ms =>
    ms.foldl (fun acc kv =>
      ((setField floatOK acc.1 kv.1 kv.2).1, firstErr acc.2 (setField floatOK acc.1 kv.1 kv.2).2))
      (cur, none)
  | v => (cur, some (.typeError (describe v) (str "quandl.Dataset")))

/-- One member of the top-level object decoded into a `JSONData`. -/
def setTop (floatOK : GoString → Bool) (d : JSONData) (key : GoString) (v : JSON) :
    JSONData × Option JSONError :=
  if equalFold (str "dataset") key then
    (({ Dataset := (decodeDataset floatOK d.Dataset v).1 } : JSONData),
      (decodeDataset floatOK d.Dataset v).2)
  else (d, none)

/-- The call `json.Unmarshal(res, &d)` on input that scans to the value `v`:
the new `d` and the error returned. -/
def unmarshalJSONData (floatOK : GoString → Bool) (cur : JSONData) : JSON → JSONData × Option JSONError
  | .null => (cur, none)
  | .object ms =>
    ms.foldl (fun acc kv =>
      ((setTop floatOK acc.1 kv.1 kv.2).1, firstErr acc.2 (setTop floatOK acc.1 kv.1 kv.2).2))
      (cur, none)
  | v => (cur, some (.typeError (describe v) (str "quandl.JSONData")))

/-- The decoding step of `getData` on a body that scans to the JSON value `v`:
`d := JSONData{}`, `json.Unmarshal`, `log.Fatal(err)` on an error, else
`d.Dataset`. -/
def getDataDecode (floatOK : GoString → Bool) (v : JSON) : Except Abort Dataset :=
  match (unmarshalJSONData floatOK { Dataset := Dataset.zero } v).2 with
  | some err => .error (.fatalJSON err)
  | none => .ok (unmarshalJSONData floatOK { Dataset := Dataset.zero } v).1.Dataset

/-- The method `executeDownload`: the error of `download` is dropped and the
bytes are returned. -/
def executeDownload (api : API) (get : Int → GoString → Reply) (url : GoString) :
    Except Abort GoString := do
  let r ← download api get url
  return r.1

/-- The method `getData`; `scan` stands for the scanner of `encoding/json`,
which rejects input that is not one JSON text. -/
def getData (floatOK : GoString → Bool) (scan : GoString → Option JSON) (api : API)
    (get : Int → GoString → Reply) (url : GoString) : Except Abort Dataset := do
  let res ← executeDownload api get url
  match scan res with
  | none => .error (.fatalJSON .malformed)
  | some v => getDataDecode floatOK v

/-! ### What a well-typed response is -/

/-- The kinds of Go type among the fields of `Dataset`: `int`, `string`,
`bool`, `[]string`, `[][]interface{}`. -/
inductive FieldKind where
  | int
  | string
  | bool
  | strings
  | rows

/-- The kinds of the fields of `Dataset`, in field order. -/
def datasetKinds : List FieldKind :=
  [.int, .string, .string, .string, .string, .string, .string, .string, .strings, .string, .string, .bool, .string, .string, .string, .string, .string, .rows, .string, .string, .int]

mutual
/-- Every number literal inside the value is one `strconv.ParseFloat`
accepts. -/
def floatsOK (floatOK : GoString → Bool) : JSON → Bool
  | .number lit => floatOK lit
  | .array items => itemsOK floatOK items
  | .object ms => membersOK floatOK ms
  | _ => true
/-- Same as `floatsOK` for the elements of an array. -/
def itemsOK (floatOK : GoString → Bool) : List JSON → Bool
  | [] => true
  | v :: vs => floatsOK floatOK v && itemsOK floatOK vs
/-- Same as `floatsOK` for the members of an object. -/
def membersOK (floatOK : GoString → Bool) : List (GoString × JSON) → Bool
  | [] => true
  | (_, v) :: ms => floatsOK floatOK v && membersOK floatOK ms
end

/-- A JSON string or `null`. -/
def isStringOrNull : JSON → Bool
  | .null => true
  | .string _ => true
  | _ => false

/-- A row of the table or `null`: an array all of whose numbers are
acceptable. -/
def isRowOrNull (floatOK : GoString → Bool) : JSON → Bool
  | .null => true
  | .array cells => itemsOK floatOK cells
  | _ => false

/-- The JSON value has the type a field of the given kind takes: `null` for
every kind, an integer literal that fits `int64` for `int`, a string, a
boolean, an array of strings and nulls, an array of rows and nulls. -/
def fits (floatOK : GoString → Bool) : FieldKind → JSON → Bool
  | _, .null => true
  | .int, .number lit => (parseInt64 lit).isSome
  | .string, .string _ => true
  | .bool, .bool _ => true
  | .strings, .array items => items.all isStringOrNull
  | .rows, .array rows => rows.all (isRowOrNull floatOK)
  | _, _ => false

/-- A member of the `dataset` object is well typed: for every field whose tag
its key matches, its value has the type of the field. -/
def memberFits (floatOK : GoString → Bool) (kv : GoString × JSON) : Bool :=
  (List.zip datasetTags datasetKinds).all (fun tk => !equalFold tk.1 kv.1 || fits floatOK tk.2 kv.2)

/-- The members, in order, of the objects that the top-level members matching
`dataset` carry. -/
def datasetMembers : List (GoString × JSON) → List (GoString × JSON)
  | [] => []
  | (k, .object ms) :: rest =>
    if equalFold (str "dataset") k then ms ++ datasetMembers rest else datasetMembers rest
  | _ :: rest => datasetMembers rest

/-- A top-level member that matches `dataset` is an object or `null`. -/
def topFits (kv : GoString × JSON) : Bool :=
  !equalFold (str "dataset") kv.1 ||
    (match kv.2 with
      | .null => true
      | .object _ => true
      | _ => false)

/-! ## Exhaustive checks over bytes -/

/-- Evaluates a Boolean test on each of the 256 byte values. -/
def allBytes (p : Byte → Bool) : Bool := (List.range 256).all (fun n => p (Fin.ofNat n))

/-! ## The canonical query string -/

/-- One `key=value` pair of a query string, both sides escaped. -/
def querySegment (kv : GoString × GoString) : GoString :=
  QueryEscape kv.1 ++ [chr '='] ++ QueryEscape kv.2

/-- The entries of a map listed in ascending order of their keys. -/
def sortedPairs (m : Params) : Params :=
  (sortKeys (m.map Prod.fst)).map (fun k => (k, (Params.get m k).getD []))

/-- The pairs `escape(key)=escape(value)` in ascending key order, joined by `&`. -/
def canonicalQuery (m : Params) : GoString :=
  [chr '&'].intercalate ((sortedPairs m).map querySegment)

/-- The map after `arrangeParams` wrote the API key into it. -/
def withAuth (api : API) (m : Params) : Params :=
  if api.apiKey ≠ str "" then Params.set m (str "auth_token") api.apiKey else m

/-- The leading `auth_token=<key>&` of a query string that has further pairs,
present when an API key is configured. -/
def authPrefix (api : API) : GoString :=
  if api.apiKey ≠ str "" then str "auth_token=" ++ QueryEscape api.apiKey ++ str "&" else str ""

/-- Closed form of the query string of `GetDatabases`. -/
def databasesQuery (api : API) (page perPage : Int) : GoString :=
  authPrefix api ++ str "page=" ++ Itoa (if page = 0 then 1 else page) ++
    str "&per_page=" ++ Itoa (if perPage = 0 ∨ perPage > 100 then 100 else perPage)

/-- Closed form of the query string of `GetSearch`. -/
def searchQuery (api : API) (query : GoString) (page perPage : Int) : GoString :=
  authPrefix api ++ str "page=" ++ Itoa (if page = 0 then 1 else page) ++
    str "&per_page=" ++ Itoa (if perPage = 0 then 300 else perPage) ++
    str "&query=" ++ QueryEscape query

end Quandl

namespace Quandl

/-! ## Bytes and escaping -/

theorem allBytes_spec {p : Byte → Bool} (h : allBytes p = true) (c : Byte) : p c = true := by
  unfold allBytes at h
  rw [List.all_eq_true] at h
  have := h c.val (List.mem_range.mpr c.isLt)
  have e : (Fin.ofNat c.val : Fin 256) = c := by
    apply Fin.ext; simp [Fin.ofNat, Nat.mod_eq_of_lt c.isLt]
  rwa [e] at this

theorem escapeByte_cases (c : Byte) :
    (shouldEscape c = false ∧ c ≠ chr '%' ∧ c ≠ chr '+') ∨
    (shouldEscape c = true ∧ c = chr ' ') ∨
    (shouldEscape c = true ∧ c ≠ chr ' ' ∧ ishex (upperhex (c.val / 16)) = true ∧
      ishex (upperhex (c.val % 16)) = true ∧
      Fin.ofNat (unhex (upperhex (c.val / 16)) * 16 + unhex (upperhex (c.val % 16))) = c) := by
  have h : allBytes (fun c => decide ((shouldEscape c = false ∧ c ≠ chr '%' ∧ c ≠ chr '+') ∨
    (shouldEscape c = true ∧ c = chr ' ') ∨
    (shouldEscape c = true ∧ c ≠ chr ' ' ∧ ishex (upperhex (c.val / 16)) = true ∧
      ishex (upperhex (c.val % 16)) = true ∧
      Fin.ofNat (unhex (upperhex (c.val / 16)) * 16 + unhex (upperhex (c.val % 16))) = c))) = true := by
    decide!
  exact of_decide_eq_true (allBytes_spec h c)

/-- No byte produced by escaping is one of `&`, `=`, `;`, `?`. -/
theorem escapeByte_clean (c x : Byte) (hx : x ∈ escapeByte c) :
    x ≠ chr '&' ∧ x ≠ chr '=' ∧ x ≠ chr ';' ∧ x ≠ chr '?' := by
  have h : allBytes (fun c => (escapeByte c).all (fun x =>
      decide (x ≠ chr '&' ∧ x ≠ chr '=' ∧ x ≠ chr ';' ∧ x ≠ chr '?'))) = true := by
    decide!
  have h2 := allBytes_spec h c
  rw [List.all_eq_true] at h2
  exact of_decide_eq_true (h2 x hx)

theorem QueryEscape_clean (s : GoString) (x : Byte) (hx : x ∈ QueryEscape s) :
    x ≠ chr '&' ∧ x ≠ chr '=' ∧ x ≠ chr ';' ∧ x ≠ chr '?' := by
  unfold QueryEscape at hx
  rw [List.mem_flatMap] at hx
  obtain ⟨c, _, hc⟩ := hx
  exact escapeByte_clean c x hc

theorem QueryEscape_nil : QueryEscape [] = [] := rfl

theorem QueryEscape_cons (c : Byte) (s : GoString) :
    QueryEscape (c :: s) = escapeByte c ++ QueryEscape s := by
  simp [QueryEscape]

theorem QueryUnescape_plain (c : Byte) (rest : GoString) (h2 : c ≠ chr '%') (h3 : c ≠ chr '+') :
    QueryUnescape (c :: rest) = (QueryUnescape rest).map (fun t => c :: t) := by
  rw [QueryUnescape.eq_def]
  simp only [if_neg h2, if_neg h3]

theorem QueryUnescape_plus (rest : GoString) :
    QueryUnescape (chr '+' :: rest) = (QueryUnescape rest).map (fun t => chr ' ' :: t) := by
  rw [QueryUnescape.eq_def]
  have n1 : chr '+' ≠ chr '%' := by decide
  simp only [if_neg n1, if_true]

theorem QueryUnescape_hex (a b : Byte) (rest : GoString) (ha : ishex a = true) (hb : ishex b = true) :
    QueryUnescape (chr '%' :: a :: b :: rest) =
      (QueryUnescape rest).map (fun t => Fin.ofNat (unhex a * 16 + unhex b) :: t) := by
  rw [QueryUnescape.eq_def]
  simp [ha, hb]

theorem QueryUnescape_escapeByte_append (c : Byte) (rest : GoString) :
    QueryUnescape (escapeByte c ++ rest) = (QueryUnescape rest).map (fun t => c :: t) := by
  rcases escapeByte_cases c with ⟨h1, h2, h3⟩ | ⟨h1, h2⟩ | ⟨h1, h2, h3, h4, h5⟩
  · have e : escapeByte c = [c] := by simp [escapeByte, h1]
    rw [e]
    exact QueryUnescape_plain c rest h2 h3
  · have e : escapeByte c = [chr '+'] := by
      unfold escapeByte; rw [if_pos h1, if_pos h2]
    rw [e, h2]
    exact QueryUnescape_plus rest
  · have e : escapeByte c = [chr '%', upperhex (c.val / 16), upperhex (c.val % 16)] := by
      unfold escapeByte; rw [if_pos h1, if_neg h2]
    rw [e]
    have := QueryUnescape_hex _ _ rest h3 h4
    rw [h5] at this
    exact this

/-- Unescaping undoes escaping, byte for byte. -/
theorem QueryUnescape_QueryEscape (s : GoString) : QueryUnescape (QueryEscape s) = some s := by
  induction s with
  | nil => rfl
  | cons c s ih => rw [QueryEscape_cons, QueryUnescape_escapeByte_append, ih]; rfl

/-! ## Maps -/

theorem Params.get_eq_none_iff (m : Params) (k : GoString) :
    Params.get m k = none ↔ k ∉ m.map Prod.fst := by
  induction m with
  | nil => simp [Params.get]
  | cons kv m ih =>
    obtain ⟨a, b⟩ := kv
    by_cases h : a = k
    · simp [Params.get, h]
    · have h2 : ¬ k = a := fun e => h e.symm
      simp only [Params.get, if_neg h, ih, List.map_cons, List.mem_cons, h2, false_or]

theorem Params.get_set (m : Params) (a x k : GoString) :
    Params.get (Params.set m a x) k = if k = a then some x else Params.get m k := by
  induction m with
  | nil =>
    by_cases h : a = k
    · simp [Params.set, Params.get, h]
    · have h2 : ¬ k = a := fun e => h e.symm
      simp [Params.set, Params.get, h, h2]
  | cons kv m ih =>
    obtain ⟨c, d⟩ := kv
    by_cases hc : c = a
    · by_cases hk : k = a
      · simp [Params.set, Params.get, hc, hk]
      · have hk2 : ¬ a = k := fun e => hk e.symm
        simp [Params.set, Params.get, hc, hk, hk2]
    · by_cases hk : c = k
      · have hka : ¬ k = a := fun e => hc (hk.trans e)
        simp [Params.set, Params.get, hc, hk, hka]
      · simp only [Params.set, if_neg hc, Params.get, if_neg hk, ih]

theorem Params.keys_set (m : Params) (a x : GoString) :
    (Params.set m a x).map Prod.fst =
      if a ∈ m.map Prod.fst then m.map Prod.fst else m.map Prod.fst ++ [a] := by
  induction m with
  | nil => simp [Params.set]
  | cons kv m ih =>
    obtain ⟨c, d⟩ := kv
    by_cases hc : c = a
    · simp [Params.set, hc]
    · have hc2 : ¬ a = c := fun e => hc e.symm
      simp only [Params.set, if_neg hc, List.map_cons, ih, List.mem_cons, hc2, false_or]
      split <;> simp

theorem Params.WF_set (m : Params) (a x : GoString) (h : Params.WF m) :
    Params.WF (Params.set m a x) := by
  unfold Params.WF at *
  rw [Params.keys_set]
  split
  · exact h
  · rename_i hn
    rw [List.nodup_append]
    refine ⟨h, List.nodup_singleton a, ?_⟩
    intro y hy hy2
    rw [List.mem_singleton] at hy2
    exact hn (hy2 ▸ hy)

theorem Params.set_ne_nil (m : Params) (a x : GoString) : Params.set m a x ≠ [] := by
  cases m with
  | nil => simp [Params.set]
  | cons kv m =>
    obtain ⟨c, d⟩ := kv
    simp only [Params.set]
    split <;> simp

theorem Params.get_map_of (ks : List GoString) (f : GoString → GoString) (k : GoString) :
    Params.get (ks.map (fun k => (k, f k))) k = if k ∈ ks then some (f k) else none := by
  induction ks with
  | nil => simp [Params.get]
  | cons a ks ih =>
    by_cases h : a = k
    · simp [Params.get, h]
    · have h2 : ¬ k = a := fun e => h e.symm
      simp only [List.map_cons, Params.get, if_neg h, ih, List.mem_cons, h2, false_or]

/-! ## `Values` -/

theorem Values.Add_of_not_mem (v : Values) (k x : GoString) (h : k ∉ v.map Prod.fst) :
    Values.Add v k x = v ++ [(k, [x])] := by
  induction v with
  | nil => rfl
  | cons e v ih =>
    obtain ⟨a, vs⟩ := e
    simp only [List.map_cons, List.mem_cons, not_or] at h
    have h1 : ¬ a = k := fun e => h.1 e.symm
    simp only [Values.Add, if_neg h1, ih h.2, List.cons_append]

theorem Values.foldl_Add (m : Params) (acc : Values)
    (hm : (acc.map Prod.fst ++ m.map Prod.fst).Nodup) :
    m.foldl (fun v kp => Values.Add v kp.1 kp.2) acc = acc ++ m.map (fun kp => (kp.1, [kp.2])) := by
  induction m generalizing acc with
  | nil => simp
  | cons kv m ih =>
    have hk : kv.1 ∉ acc.map Prod.fst := by
      intro hx
      rw [List.nodup_append] at hm
      exact hm.2.2 hx (by simp)
    rw [List.foldl_cons, Values.Add_of_not_mem _ _ _ hk, ih]
    · simp
    · simpa using hm

theorem Values.get_map (m : Params) (k : GoString) :
    Values.get (m.map (fun kp => (kp.1, [kp.2]))) k =
      match Params.get m k with
      | some x => [x]
      | none => [] := by
  induction m with
  | nil => rfl
  | cons kv m ih =>
    obtain ⟨a, b⟩ := kv
    by_cases h : a = k
    · simp [Values.get, Params.get, h]
    · simp only [List.map_cons, Values.get, if_neg h, ih, Params.get]

/-! ## `Encode` in closed form -/

theorem mem_sortKeys (ks : List GoString) (k : GoString) : k ∈ sortKeys ks ↔ k ∈ ks :=
  (List.perm_insertionSort _ ks).mem_iff

theorem nodup_sortKeys (ks : List GoString) (h : ks.Nodup) : (sortKeys ks).Nodup :=
  (List.perm_insertionSort _ ks).nodup_iff.mpr h

theorem sortKeys_ne_nil (ks : List GoString) (h : ks ≠ []) : sortKeys ks ≠ [] := by
  intro e
  have := (List.perm_insertionSort (fun a b => strLe a b = true) ks).length_eq
  unfold sortKeys at e
  rw [e] at this
  exact h (List.length_eq_zero.mp this.symm)

theorem querySegment_ne_nil (kv : GoString × GoString) : querySegment kv ≠ [] := by
  simp [querySegment]

/-- Appending segments to a non-empty buffer, each preceded by `&`, is joining
with `&`. -/
theorem foldl_join (segs : List GoString) (buf : GoString) (hb : buf ≠ []) :
    segs.foldl (fun buf seg => (if buf.length > 0 then buf ++ [chr '&'] else buf) ++ seg) buf =
      [chr '&'].intercalate (buf :: segs) := by
  induction segs generalizing buf with
  | nil => simp [List.intercalate]
  | cons s segs ih =>
    have hl : buf.length > 0 := List.length_pos.mpr hb
    rw [List.foldl_cons, if_pos hl, ih _ (by simp)]
    cases segs <;> simp [List.intercalate, List.intersperse]

theorem foldl_join_nil (segs : List GoString) (h : ∀ s ∈ segs, s ≠ []) :
    segs.foldl (fun buf seg => (if buf.length > 0 then buf ++ [chr '&'] else buf) ++ seg) [] =
      [chr '&'].intercalate segs := by
  cases segs with
  | nil => rfl
  | cons s segs =>
    have hs : s ≠ [] := h s (by simp)
    rw [List.foldl_cons]
    simp only [List.length_nil, gt_iff_lt, lt_self_iff_false, if_false, List.nil_append]
    exact foldl_join segs s hs

theorem encodeKey_single (buf k x : GoString) :
    encodeKey buf k [x] =
      (if buf.length > 0 then buf ++ [chr '&'] else buf) ++ querySegment (k, x) := by
  simp [encodeKey, querySegment]

theorem foldl_encodeKey (m : Params) (ks : List GoString) (hks : ∀ k ∈ ks, k ∈ m.map Prod.fst)
    (buf : GoString) :
    ks.foldl (fun buf k => encodeKey buf k (Values.get (m.map (fun kp => (kp.1, [kp.2]))) k)) buf =
      (ks.map (fun k => querySegment (k, (Params.get m k).getD []))).foldl
        (fun buf seg => (if buf.length > 0 then buf ++ [chr '&'] else buf) ++ seg) buf := by
  induction ks generalizing buf with
  | nil => rfl
  | cons k ks ih =>
    have hk : k ∈ m.map Prod.fst := hks k (by simp)
    have hsome : ∃ x, Params.get m k = some x := by
      cases hg : Params.get m k with
      | none => exact absurd hk ((Params.get_eq_none_iff m k).mp hg)
      | some x => exact ⟨x, rfl⟩
    obtain ⟨x, hx⟩ := hsome
    rw [List.foldl_cons, List.map_cons, List.foldl_cons, Values.get_map, hx]
    simp only [Option.getD_some]
    rw [encodeKey_single]
    exact ih (fun k2 h2 => hks k2 (by simp [h2])) _

/-- The encoding of the `Values` built from a map is its canonical query. -/
theorem Encode_map (m : Params) :
    Values.Encode (m.map (fun kp => (kp.1, [kp.2]))) = canonicalQuery m := by
  unfold Values.Encode canonicalQuery sortedPairs
  by_cases h : m = []
  · subst h; rfl
  · have hl : ¬ (m.map (fun kp => (kp.1, [kp.2]))).length = 0 := by
      simpa using h
    rw [if_neg hl]
    have e : (m.map (fun kp => (kp.1, [kp.2]))).map Prod.fst = m.map Prod.fst := by
      simp [List.map_map, Function.comp_def]
    rw [e, foldl_encodeKey m _ (fun k hk => (mem_sortKeys _ k).mp hk), List.map_map]
    apply foldl_join_nil
    intro s hs
    rw [List.mem_map] at hs
    obtain ⟨k, _, rfl⟩ := hs
    exact querySegment_ne_nil _

/-- The function `httpBuildQuery` on a well-formed map, in closed form. -/
theorem httpBuildQuery_eq (m : Params) (h : Params.WF m) :
    httpBuildQuery (some m) = canonicalQuery m := by
  unfold httpBuildQuery
  simp only [Option.getD_some]
  rw [Values.foldl_Add m [] (by simpa using h)]
  exact Encode_map m

theorem arrangeParams_some (api : API) (m : Params) (h : Params.WF m)
    (hne : api.apiKey ≠ str "" ∨ m ≠ []) :
    arrangeParams api (some m) = .ok (canonicalQuery (withAuth api m), some (withAuth api m)) := by
  unfold arrangeParams withAuth
  by_cases hk : api.apiKey ≠ str ""
  · have hl : ¬ mapLen (some (Params.set m (str "auth_token") api.apiKey)) = 0 := by
      simp only [mapLen]
      exact fun e => Params.set_ne_nil _ _ _ (List.length_eq_zero.mp e)
    simp only [if_pos hk, mapAssign, bind, Except.bind, if_neg hl, pure, Except.pure]
    rw [httpBuildQuery_eq _ (Params.WF_set _ _ _ h)]
  · have hm : m ≠ [] := hne.resolve_left hk
    have hl : ¬ mapLen (some m) = 0 := by
      simp only [mapLen]
      exact fun e => hm (List.length_eq_zero.mp e)
    simp only [if_neg hk, bind, Except.bind, if_neg hl, pure, Except.pure]
    rw [httpBuildQuery_eq _ h]

/-! ## Parsing a canonical query back -/

theorem takeWhile_ne_append (e : Byte) (l rest : GoString) (h : ∀ x ∈ l, x ≠ e) :
    (l ++ e :: rest).takeWhile (fun c => c ≠ e) = l ∧
    (l ++ e :: rest).dropWhile (fun c => c ≠ e) = e :: rest := by
  induction l with
  | nil => simp [List.takeWhile, List.dropWhile]
  | cons a l ih =>
    have ha : a ≠ e := h a (by simp)
    have ih2 := ih (fun x hx => h x (by simp [hx]))
    constructor
    · rw [List.cons_append, List.takeWhile_cons_of_pos (by simpa using ha), ih2.1]
    · rw [List.cons_append, List.dropWhile_cons_of_pos (by simpa using ha), ih2.2]

theorem querySegment_clean (kv : GoString × GoString) (x : Byte) (hx : x ∈ querySegment kv) :
    x ≠ chr '&' ∧ x ≠ chr ';' ∧ x ≠ chr '?' := by
  unfold querySegment at hx
  simp only [List.mem_append, List.mem_singleton] at hx
  rcases hx with (h | h) | h
  · have := QueryEscape_clean _ _ h; exact ⟨this.1, this.2.2.1, this.2.2.2⟩
  · subst h; decide
  · have := QueryEscape_clean _ _ h; exact ⟨this.1, this.2.2.1, this.2.2.2⟩

theorem parseSegment_querySegment (acc : Values × Bool) (k x : GoString) :
    parseSegment acc (querySegment (k, x)) = (Values.Add acc.1 k x, acc.2) := by
  have h1 : chr ';' ∉ querySegment (k, x) := fun hm => (querySegment_clean _ _ hm).2.1 rfl
  have h2 : querySegment (k, x) ≠ [] := querySegment_ne_nil _
  have h3 := takeWhile_ne_append (chr '=') (QueryEscape k) (QueryEscape x)
    (fun y hy => (QueryEscape_clean _ _ hy).2.1)
  have e : querySegment (k, x) = QueryEscape k ++ chr '=' :: QueryEscape x := by
    simp [querySegment]
  unfold parseSegment
  rw [if_neg h1, if_neg h2]
  simp only [e, h3.1, h3.2, List.tail_cons, QueryUnescape_QueryEscape]

theorem foldl_parseSegment (pairs : Params) (acc : Values × Bool) :
    (pairs.map querySegment).foldl parseSegment acc =
      (pairs.foldl (fun v kp => Values.Add v kp.1 kp.2) acc.1, acc.2) := by
  induction pairs generalizing acc with
  | nil => rfl
  | cons kv pairs ih =>
    obtain ⟨k, x⟩ := kv
    rw [List.map_cons, List.foldl_cons, parseSegment_querySegment, ih, List.foldl_cons]

/-- Parsing the `&`-joined segments of a non-empty list of pairs adds the pairs
one by one and reports no error. -/
theorem ParseQuery_join (pairs : Params) (hne : pairs ≠ []) :
    ParseQuery ([chr '&'].intercalate (pairs.map querySegment)) =
      (pairs.foldl (fun v kp => Values.Add v kp.1 kp.2) [], false) := by
  unfold ParseQuery
  rw [List.splitOn_intercalate, foldl_parseSegment]
  · intro l hl
    rw [List.mem_map] at hl
    obtain ⟨kv, _, rfl⟩ := hl
    exact fun hm => (querySegment_clean _ _ hm).1 rfl
  · simpa using hne

theorem sortedPairs_keys (m : Params) : (sortedPairs m).map Prod.fst = sortKeys (m.map Prod.fst) := by
  simp [sortedPairs, List.map_map, Function.comp_def]

theorem get_sortedPairs (m : Params) (k : GoString) :
    Params.get (sortedPairs m) k = Params.get m k := by
  unfold sortedPairs
  rw [Params.get_map_of]
  by_cases hk : k ∈ m.map Prod.fst
  · rw [if_pos ((mem_sortKeys _ k).mpr hk)]
    cases hg : Params.get m k with
    | none => exact absurd hk ((Params.get_eq_none_iff m k).mp hg)
    | some x => rfl
  · rw [if_neg (fun hx => hk ((mem_sortKeys _ k).mp hx)), (Params.get_eq_none_iff m k).mpr hk]

/-- Round trip: the canonical query of a well-formed non-empty map parses,
without error, to the map itself with every value in a one-element list. -/
theorem ParseQuery_canonicalQuery (m : Params) (h : Params.WF m) (hne : m ≠ []) :
    ParseQuery (canonicalQuery m) = ((sortedPairs m).map (fun kp => (kp.1, [kp.2])), false) := by
  have hne2 : sortedPairs m ≠ [] := by
    intro e
    have := congrArg (List.map Prod.fst) e
    rw [sortedPairs_keys] at this
    exact sortKeys_ne_nil _ (by simpa using hne) this
  unfold canonicalQuery
  rw [ParseQuery_join _ hne2, Values.foldl_Add]
  · simp
  · rw [List.map_nil, List.nil_append, sortedPairs_keys]
    exact nodup_sortKeys _ h

/-! ## `Sprintf` on the templates -/

theorem Sprintf_lit_append (p rest : GoString) (args : List GoString) (hp : chr '%' ∉ p) :
    Sprintf (p ++ rest) args = p ++ Sprintf rest args := by
  induction p with
  | nil => rfl
  | cons c p ih =>
    have hc : c ≠ chr '%' := fun e => hp (by simp [e])
    have hp2 : chr '%' ∉ p := fun h => hp (by simp [h])
    rw [List.cons_append, List.cons_append, ← ih hp2]
    cases hq : p ++ rest with
    | nil => simp [Sprintf, hc]
    | cons v tl => simp [Sprintf, hc]

theorem Sprintf_verb_s (rest a : GoString) (more : List GoString) :
    Sprintf (chr '%' :: chr 's' :: rest) (a :: more) = a ++ Sprintf rest more := by
  simp [Sprintf]

theorem template_direct : urlTemplate (str "direct") =
    str "https://www.quandl.com/api/v3/" ++ chr '%' :: chr 's' :: (str "." ++
      chr '%' :: chr 's' :: (str "?" ++ chr '%' :: chr 's' :: [])) := by decide

theorem template_symbol : urlTemplate (str "symbol") =
    str "https://www.quandl.com/api/v3/datasets/" ++ chr '%' :: chr 's' :: (str "." ++
      chr '%' :: chr 's' :: (str "?" ++ chr '%' :: chr 's' :: [])) := by decide

theorem template_search : urlTemplate (str "search") =
    str "https://www.quandl.com/api/v3/datasets." ++
      chr '%' :: chr 's' :: (str "?" ++ chr '%' :: chr 's' :: []) := by decide

theorem template_meta : urlTemplate (str "meta") =
    str "https://www.quandl.com/api/v3/datasets/" ++ chr '%' :: chr 's' :: (str "/metadata." ++
      chr '%' :: chr 's' :: []) := by decide

theorem template_dbs : urlTemplate (str "dbs") =
    str "https://www.quandl.com/api/v3/databases." ++
      chr '%' :: chr 's' :: (str "?" ++ chr '%' :: chr 's' :: []) := by decide

theorem Sprintf_direct (a b c : GoString) : Sprintf (urlTemplate (str "direct")) [a, b, c] =
    str "https://www.quandl.com/api/v3/" ++ a ++ str "." ++ b ++ str "?" ++ c := by
  rw [template_direct, Sprintf_lit_append _ _ _ (by decide), Sprintf_verb_s,
    Sprintf_lit_append _ _ _ (by decide), Sprintf_verb_s,
    Sprintf_lit_append _ _ _ (by decide), Sprintf_verb_s]
  simp [Sprintf, extraArgs]

theorem Sprintf_symbol (a b c : GoString) : Sprintf (urlTemplate (str "symbol")) [a, b, c] =
    str "https://www.quandl.com/api/v3/datasets/" ++ a ++ str "." ++ b ++ str "?" ++ c := by
  rw [template_symbol, Sprintf_lit_append _ _ _ (by decide), Sprintf_verb_s,
    Sprintf_lit_append _ _ _ (by decide), Sprintf_verb_s,
    Sprintf_lit_append _ _ _ (by decide), Sprintf_verb_s]
  simp [Sprintf, extraArgs]

theorem Sprintf_search (b c : GoString) : Sprintf (urlTemplate (str "search")) [b, c] =
    str "https://www.quandl.com/api/v3/datasets." ++ b ++ str "?" ++ c := by
  rw [template_search, Sprintf_lit_append _ _ _ (by decide), Sprintf_verb_s,
    Sprintf_lit_append _ _ _ (by decide), Sprintf_verb_s]
  simp [Sprintf, extraArgs]

theorem Sprintf_meta (a b : GoString) : Sprintf (urlTemplate (str "meta")) [a, b] =
    str "https://www.quandl.com/api/v3/datasets/" ++ a ++ str "/metadata." ++ b := by
  rw [template_meta, Sprintf_lit_append _ _ _ (by decide), Sprintf_verb_s,
    Sprintf_lit_append _ _ _ (by decide), Sprintf_verb_s]
  simp [Sprintf, extraArgs]

theorem Sprintf_dbs (b c : GoString) : Sprintf (urlTemplate (str "dbs")) [b, c] =
    str "https://www.quandl.com/api/v3/databases." ++ b ++ str "?" ++ c := by
  rw [template_dbs, Sprintf_lit_append _ _ _ (by decide), Sprintf_verb_s,
    Sprintf_lit_append _ _ _ (by decide), Sprintf_verb_s]
  simp [Sprintf, extraArgs]

/-- Every template lies in the fragment of formats that `Sprintf` models. -/
theorem templates_sVerbsOnly : ∀ kt ∈ urlTemplates, sVerbsOnly kt.2 = true := by decide

/-! ## `Trim` -/

theorem cutset_mem (c : Byte) : c ∈ str "?&" ↔ c = chr '?' ∨ c = chr '&' := by
  have e : str "?&" = [chr '?', chr '&'] := by decide
  rw [e]; simp

theorem trimRight_eq_self (s cutset : GoString)
    (h : ∀ c, s.getLast? = some c → c ∉ cutset) : trimRight s cutset = s := by
  unfold trimRight
  rcases List.eq_nil_or_concat s with rfl | ⟨l, x, rfl⟩
  · rfl
  · rw [List.concat_eq_append] at h ⊢
    apply List.rdropWhile_concat_neg
    have := h x (by simp)
    simpa using this

theorem trimLeft_eq_self (s cutset : GoString)
    (h : ∀ c, s.head? = some c → c ∉ cutset) : trimLeft s cutset = s := by
  unfold trimLeft
  cases s with
  | nil => rfl
  | cons x l =>
    apply List.dropWhile_cons_of_neg
    have := h x rfl
    simpa using this

theorem Trim_eq_self (s cutset : GoString) (hh : ∀ c, s.head? = some c → c ∉ cutset)
    (hl : ∀ c, s.getLast? = some c → c ∉ cutset) : Trim s cutset = s := by
  unfold Trim
  rw [trimRight_eq_self s cutset hl, trimLeft_eq_self s cutset hh]

/-- The last byte of a trimmed string is never in the cutset. -/
theorem Trim_getLast (s cutset : GoString) (c : Byte) (hc : c ∈ cutset) :
    (Trim s cutset).getLast? ≠ some c := by
  intro h
  unfold Trim trimLeft at h
  have hsuf : (List.dropWhile (fun c => decide (c ∈ cutset)) (trimRight s cutset)) <:+
      trimRight s cutset := List.dropWhile_suffix _
  obtain ⟨pre, hpre⟩ := hsuf
  have hne : List.dropWhile (fun c => decide (c ∈ cutset)) (trimRight s cutset) ≠ [] := by
    intro e; rw [e] at h; exact Option.noConfusion h
  have hlast : (trimRight s cutset).getLast? = some c := by
    rw [← hpre, List.getLast?_append_of_ne_nil _ hne, h]
  have hne2 : trimRight s cutset ≠ [] := by
    intro e; rw [e] at hlast; exact Option.noConfusion hlast
  have hnot := List.rdropWhile_last_not (fun c => decide (c ∈ cutset)) s hne2
  rw [List.getLast?_eq_getLast _ hne2] at hlast
  have e : (trimRight s cutset).getLast hne2 = c := Option.some.inj hlast
  unfold trimRight at e
  rw [e] at hnot
  simp [hc] at hnot

theorem intercalate_getLast (sep : GoString) (segs : List GoString) (hne : segs ≠ [])
    (h : ∀ s ∈ segs, s ≠ []) :
    ∃ s ∈ segs, (sep.intercalate segs).getLast? = s.getLast? := by
  induction segs with
  | nil => exact absurd rfl hne
  | cons s segs ih =>
    cases segs with
    | nil => exact ⟨s, by simp, by simp [List.intercalate, List.intersperse]⟩
    | cons u r =>
      obtain ⟨w, hw, hlast⟩ := ih (by simp) (fun x hx => h x (by simp [hx]))
      refine ⟨w, by simp [hw], ?_⟩
      have hwne : w ≠ [] := h w (by simp [hw])
      have hne2 : sep.intercalate (u :: r) ≠ [] := by
        intro e
        rw [e, List.getLast?_eq_getLast _ hwne] at hlast
        exact Option.noConfusion hlast
      have e : sep.intercalate (s :: u :: r) = (s ++ sep) ++ sep.intercalate (u :: r) := by
        simp [List.intercalate, List.intersperse]
      rw [e, List.getLast?_append_of_ne_nil _ hne2, hlast]

theorem sortedPairs_ne_nil (m : Params) (hne : m ≠ []) : sortedPairs m ≠ [] := by
  intro e
  have := congrArg (List.map Prod.fst) e
  rw [sortedPairs_keys] at this
  exact sortKeys_ne_nil _ (by simpa using hne) this

/-- A non-empty map has a non-empty canonical query whose last byte is neither
`?` nor `&`. -/
theorem canonicalQuery_getLast (m : Params) (hne : m ≠ []) :
    ∃ c, (canonicalQuery m).getLast? = some c ∧ c ≠ chr '?' ∧ c ≠ chr '&' := by
  unfold canonicalQuery
  obtain ⟨s, hs, hlast⟩ := intercalate_getLast [chr '&'] ((sortedPairs m).map querySegment)
    (by simpa using sortedPairs_ne_nil m hne)
    (fun s hs => by
      rw [List.mem_map] at hs
      obtain ⟨kv, _, rfl⟩ := hs
      exact querySegment_ne_nil kv)
  rw [List.mem_map] at hs
  obtain ⟨kv, _, rfl⟩ := hs
  have hne2 := querySegment_ne_nil kv
  refine ⟨(querySegment kv).getLast hne2, ?_, ?_⟩
  · rw [hlast, List.getLast?_eq_getLast _ hne2]
  · have := querySegment_clean kv _ (List.getLast_mem hne2)
    exact ⟨this.2.2, this.1⟩

/-- A URL that starts with a byte outside the cutset and ends with a query
whose last byte is outside the cutset is left alone by `Trim`. -/
theorem Trim_url (pre q : GoString) (a c : Byte) (ha : pre.head? = some a)
    (ha2 : a ≠ chr '?' ∧ a ≠ chr '&') (hc : q.getLast? = some c)
    (hc2 : c ≠ chr '?' ∧ c ≠ chr '&') : Trim (pre ++ q) (str "?&") = pre ++ q := by
  have hq : q ≠ [] := by intro e; rw [e] at hc; exact Option.noConfusion hc
  apply Trim_eq_self
  · intro x hx
    cases pre with
    | nil => exact Option.noConfusion ha
    | cons b pre =>
      simp only [List.cons_append, List.head?_cons, Option.some.injEq] at hx ha
      rw [cutset_mem]
      subst hx; subst ha
      exact fun h => h.elim ha2.1 ha2.2
  · intro x hx
    rw [List.getLast?_append_of_ne_nil _ hq, hc] at hx
    rw [cutset_mem]
    cases hx
    exact fun h => h.elim hc2.1 hc2.2

/-! ## `Itoa` needs no escaping -/

theorem QueryEscape_of_plain (s : GoString) (h : ∀ c ∈ s, shouldEscape c = false) :
    QueryEscape s = s := by
  induction s with
  | nil => rfl
  | cons c s ih =>
    have hc : escapeByte c = [c] := by simp [escapeByte, h c (by simp)]
    rw [QueryEscape_cons, hc, ih (fun x hx => h x (by simp [hx]))]
    rfl

theorem digit_plain (n : Nat) : shouldEscape (Fin.ofNat (48 + n % 10)) = false := by
  have h : ∀ r, r < 10 → shouldEscape (Fin.ofNat (48 + r)) = false := by decide
  exact h _ (Nat.mod_lt _ (by decide))

theorem digitsAux_plain (fuel n : Nat) (acc : GoString) (h : ∀ c ∈ acc, shouldEscape c = false) :
    ∀ c ∈ digitsAux fuel n acc, shouldEscape c = false := by
  induction fuel generalizing n acc with
  | zero => exact h
  | succ fuel ih =>
    have h2 : ∀ c ∈ (Fin.ofNat (48 + n % 10) : Byte) :: acc, shouldEscape c = false := by
      intro c hc
      rcases List.mem_cons.mp hc with rfl | hc
      · exact digit_plain n
      · exact h c hc
    unfold digitsAux
    simp only
    split
    · exact h2
    · exact ih _ _ h2

theorem Itoa_plain (i : Int) : ∀ c ∈ Itoa i, shouldEscape c = false := by
  unfold Itoa formatNat
  split
  · intro c hc
    rcases List.mem_cons.mp hc with rfl | hc
    · decide
    · exact digitsAux_plain _ _ [] (by simp) c hc
  · exact digitsAux_plain _ _ [] (by simp)

theorem QueryEscape_Itoa (i : Int) : QueryEscape (Itoa i) = Itoa i :=
  QueryEscape_of_plain _ (Itoa_plain i)

/-! ## Closed forms of the query strings of `GetDatabases` and `GetSearch` -/

theorem canonicalQuery_of_sorted (m pairs : Params)
    (hk : sortKeys (m.map Prod.fst) = pairs.map Prod.fst)
    (hv : ∀ kv ∈ pairs, Params.get m kv.1 = some kv.2) :
    canonicalQuery m = [chr '&'].intercalate (pairs.map querySegment) := by
  unfold canonicalQuery sortedPairs
  rw [hk, List.map_map, List.map_map]
  congr 1
  apply List.map_congr_left
  intro kv hkv
  simp [hv kv hkv]

/-- What `arrangeParams` returns and how it parses, for any well-formed map that
is not empty. -/
theorem arrangeParams_parse (api : API) (m : Params) (hwf : Params.WF m) (hne : m ≠ []) :
    arrangeParams api (some m) = .ok (canonicalQuery (withAuth api m), some (withAuth api m)) ∧
    (ParseQuery (canonicalQuery (withAuth api m))).2 = false ∧
    ((ParseQuery (canonicalQuery (withAuth api m))).1.map Prod.fst).Nodup ∧
    ∀ k, Values.get (ParseQuery (canonicalQuery (withAuth api m))).1 k =
      if api.apiKey ≠ str "" ∧ k = str "auth_token" then [api.apiKey]
      else match Params.get m k with
        | some x => [x]
        | none => [] := by
  have hwf2 : Params.WF (withAuth api m) := by
    unfold withAuth; split
    · exact Params.WF_set _ _ _ hwf
    · exact hwf
  have hne2 : withAuth api m ≠ [] := by
    unfold withAuth; split
    · exact Params.set_ne_nil _ _ _
    · exact hne
  refine ⟨arrangeParams_some api m hwf (Or.inr hne), ?_⟩
  rw [ParseQuery_canonicalQuery _ hwf2 hne2]
  refine ⟨rfl, ?_, ?_⟩
  · have e : ((sortedPairs (withAuth api m)).map (fun kp => (kp.1, [kp.2]))).map Prod.fst =
        (sortedPairs (withAuth api m)).map Prod.fst := by
      simp [List.map_map, Function.comp_def]
    show (((sortedPairs (withAuth api m)).map (fun kp => (kp.1, [kp.2]))).map Prod.fst).Nodup
    rw [e, sortedPairs_keys]
    exact nodup_sortKeys _ hwf2
  · intro k
    show Values.get ((sortedPairs (withAuth api m)).map (fun kp => (kp.1, [kp.2]))) k = _
    rw [Values.get_map, get_sortedPairs]
    unfold withAuth
    by_cases hk : api.apiKey ≠ str ""
    · rw [if_pos hk, Params.get_set]
      by_cases hka : k = str "auth_token"
      · rw [if_pos hka, if_pos ⟨hk, hka⟩]
      · rw [if_neg hka, if_neg (fun h => hka h.2)]
    · rw [if_neg hk, if_neg (fun h => hk h.1)]

theorem lit_auth : str "auth_token=" = str "auth_token" ++ [chr '='] := by decide
theorem lit_amp : str "&" = [chr '&'] := by decide
theorem lit_page : str "page=" = str "page" ++ [chr '='] := by decide
theorem lit_per_page : str "&per_page=" = chr '&' :: (str "per_page" ++ [chr '=']) := by decide
theorem lit_query : str "&query=" = chr '&' :: (str "query" ++ [chr '=']) := by decide
theorem esc_auth : QueryEscape (str "auth_token") = str "auth_token" := by decide
theorem esc_page : QueryEscape (str "page") = str "page" := by decide
theorem esc_per_page : QueryEscape (str "per_page") = str "per_page" := by decide
theorem esc_query : QueryEscape (str "query") = str "query" := by decide

theorem key_ne_1 : str "per_page" ≠ str "page" := by decide
theorem key_ne_2 : str "per_page" ≠ str "auth_token" := by decide
theorem key_ne_3 : str "page" ≠ str "auth_token" := by decide
theorem key_ne_4 : str "query" ≠ str "auth_token" := by decide
theorem key_ne_5 : str "per_page" ≠ str "query" := by decide
theorem key_ne_6 : str "page" ≠ str "query" := by decide
theorem key_ne_7 : str "page" ≠ str "per_page" := by decide

theorem sort_dbs : sortKeys [str "per_page", str "page"] = [str "page", str "per_page"] := by
  decide

theorem sort_dbs_auth : sortKeys [str "per_page", str "page", str "auth_token"] =
    [str "auth_token", str "page", str "per_page"] := by decide

theorem sort_search : sortKeys [str "per_page", str "page", str "query"] =
    [str "page", str "per_page", str "query"] := by decide

theorem sort_search_auth : sortKeys [str "per_page", str "page", str "query", str "auth_token"] =
    [str "auth_token", str "page", str "per_page", str "query"] := by decide

theorem canonicalQuery_dbs (api : API) (a b : Int) :
    canonicalQuery (withAuth api [(str "per_page", Itoa b), (str "page", Itoa a)]) =
      authPrefix api ++ str "page=" ++ Itoa a ++ str "&per_page=" ++ Itoa b := by
  unfold withAuth authPrefix
  by_cases hk : api.apiKey ≠ str ""
  · rw [if_pos hk, if_pos hk]
    rw [canonicalQuery_of_sorted _
      [(str "auth_token", api.apiKey), (str "page", Itoa a), (str "per_page", Itoa b)]]
    · simp [List.intercalate, List.intersperse, querySegment, esc_auth, esc_page, esc_per_page,
        QueryEscape_Itoa, lit_auth, lit_amp, lit_page, lit_per_page]
    · rw [Params.keys_set]
      exact sort_dbs_auth
    · intro kv hkv
      simp only [List.mem_cons, List.mem_singleton, List.not_mem_nil, or_false] at hkv
      rcases hkv with rfl | rfl | rfl <;> rw [Params.get_set] <;>
        simp [Params.get, key_ne_1, key_ne_2, key_ne_3]
  · rw [if_neg hk, if_neg hk]
    rw [canonicalQuery_of_sorted _ [(str "page", Itoa a), (str "per_page", Itoa b)]]
    · simp [List.intercalate, List.intersperse, querySegment, esc_page, esc_per_page,
        QueryEscape_Itoa, lit_page, lit_per_page]
      rfl
    · exact sort_dbs
    · intro kv hkv
      simp only [List.mem_cons, List.mem_singleton, List.not_mem_nil, or_false] at hkv
      rcases hkv with rfl | rfl <;> simp [Params.get, key_ne_1]

theorem canonicalQuery_search (api : API) (query : GoString) (a b : Int) :
    canonicalQuery (withAuth api
        [(str "per_page", Itoa b), (str "page", Itoa a), (str "query", query)]) =
      authPrefix api ++ str "page=" ++ Itoa a ++ str "&per_page=" ++ Itoa b ++
        str "&query=" ++ QueryEscape query := by
  unfold withAuth authPrefix
  by_cases hk : api.apiKey ≠ str ""
  · rw [if_pos hk, if_pos hk]
    rw [canonicalQuery_of_sorted _
      [(str "auth_token", api.apiKey), (str "page", Itoa a), (str "per_page", Itoa b),
        (str "query", query)]]
    · simp [List.intercalate, List.intersperse, querySegment, esc_auth, esc_page, esc_per_page,
        esc_query, QueryEscape_Itoa, lit_auth, lit_amp, lit_page, lit_per_page, lit_query]
    · rw [Params.keys_set]
      exact sort_search_auth
    · intro kv hkv
      simp only [List.mem_cons, List.mem_singleton, List.not_mem_nil, or_false] at hkv
      rcases hkv with rfl | rfl | rfl | rfl <;> rw [Params.get_set] <;>
        simp [Params.get, key_ne_1, key_ne_2, key_ne_3, key_ne_4, key_ne_5, key_ne_6]
  · rw [if_neg hk, if_neg hk]
    rw [canonicalQuery_of_sorted _
      [(str "page", Itoa a), (str "per_page", Itoa b), (str "query", query)]]
    · simp [List.intercalate, List.intersperse, querySegment, esc_page, esc_per_page, esc_query,
        QueryEscape_Itoa, lit_page, lit_per_page, lit_query]
      rfl
    · exact sort_search
    · intro kv hkv
      simp only [List.mem_cons, List.mem_singleton, List.not_mem_nil, or_false] at hkv
      rcases hkv with rfl | rfl | rfl <;> simp [Params.get, key_ne_1, key_ne_5, key_ne_6]

/-! ## The URLs built by the operations -/

theorem withAuth_ne_nil (api : API) (m : Params) (hne : m ≠ []) : withAuth api m ≠ [] := by
  unfold withAuth; split
  · exact Params.set_ne_nil _ _ _
  · exact hne

/-- On a template of the shape `https...<format>?<query>` with a non-empty
canonical query, `getURL` returns the filled template unchanged. -/
theorem getURL_query (api : API) (k pre fmt : GoString) (m : Params) (hne : m ≠ [])
    (hs : Sprintf (urlTemplate k) [fmt, canonicalQuery m] = pre ++ fmt ++ str "?" ++ canonicalQuery m)
    (hpre : pre.head? = some (chr 'h')) :
    getURL api k [fmt, canonicalQuery m] =
      (pre ++ fmt ++ str "?" ++ canonicalQuery m,
        { api with lastURL := pre ++ fmt ++ str "?" ++ canonicalQuery m }) := by
  obtain ⟨c, hc, hc2⟩ := canonicalQuery_getLast m hne
  have hh : (pre ++ fmt ++ str "?").head? = some (chr 'h') := by
    cases pre with
    | nil => exact Option.noConfusion hpre
    | cons a pre => simpa using hpre
  have ht := Trim_url (pre ++ fmt ++ str "?") (canonicalQuery m) (chr 'h') c hh (by decide) hc hc2
  unfold getURL
  simp only [hs, ht]

theorem GetDatabasesURL_eq (api : API) (page perPage : Int) :
    GetDatabasesURL api page perPage =
      .ok (str "https://www.quandl.com/api/v3/databases." ++ getFormat api false ++ str "?" ++
          databasesQuery api page perPage,
        { api with lastURL := str "https://www.quandl.com/api/v3/databases." ++
            getFormat api false ++ str "?" ++ databasesQuery api page perPage }) := by
  unfold GetDatabasesURL GetDatabasesParams databasesQuery
  simp only []
  rw [arrangeParams_some api _ (by simp [Params.WF, key_ne_1]) (Or.inr (by simp))]
  simp only [bind, Except.bind, pure, Except.pure]
  rw [getURL_query api _ _ _ _ (withAuth_ne_nil api _ (by simp)) (Sprintf_dbs _ _) (by decide),
    canonicalQuery_dbs]

theorem GetSearchURL_eq (api : API) (query : GoString) (page perPage : Int) :
    GetSearchURL api query page perPage =
      .ok (str "https://www.quandl.com/api/v3/datasets." ++ getFormat api true ++ str "?" ++
          searchQuery api query page perPage,
        { api with lastURL := str "https://www.quandl.com/api/v3/datasets." ++
            getFormat api true ++ str "?" ++ searchQuery api query page perPage }) := by
  unfold GetSearchURL GetSearchParams searchQuery
  simp only []
  rw [arrangeParams_some api _ (by simp [Params.WF, key_ne_1, key_ne_5, key_ne_6])
    (Or.inr (by simp))]
  simp only [bind, Except.bind, pure, Except.pure]
  rw [getURL_query api _ _ _ _ (withAuth_ne_nil api _ (by simp)) (Sprintf_search _ _) (by decide),
    canonicalQuery_search]

/-! ## The claims -/

/-- C1: the client `NewAPI("abc123", "")` called as
`GetSymbol("WIKI/AAPL", {"start_date": "2020-01-01"})` builds, returns from
`getURL` and stores in `lastURL` exactly the URL
`https://www.quandl.com/api/v3/datasets/WIKI/AAPL.json?auth_token=abc123&start_date=2020-01-01`,
and the query string of that URL parses to the two pairs `auth_token=abc123`
and `start_date=2020-01-01` and nothing else. -/
theorem C1_GetSymbol_end_to_end :
    GetSymbolURL (NewAPI (str "abc123") (str "")) (str "WIKI/AAPL")
        (some [(str "start_date", str "2020-01-01")]) =
      .ok (str "https://www.quandl.com/api/v3/datasets/WIKI/AAPL.json?auth_token=abc123&start_date=2020-01-01",
        { NewAPI (str "abc123") (str "") with
          lastURL := str "https://www.quandl.com/api/v3/datasets/WIKI/AAPL.json?auth_token=abc123&start_date=2020-01-01" },
        some [(str "start_date", str "2020-01-01"), (str "auth_token", str "abc123")]) ∧
    ParseQuery (str "auth_token=abc123&start_date=2020-01-01") =
      ([(str "auth_token", [str "abc123"]), (str "start_date", [str "2020-01-01"])], false) := by
  constructor
  · rfl
  · decide

/-- C2: for every client and every non-empty parameter map `m`, `arrangeParams`
returns a query string that `url.ParseQuery` parses without error into a
mapping with distinct keys in which `auth_token` carries exactly the API key
when the key is non-empty, and every other key carries exactly the one value
`m` gives it (and no value when `m` has none). -/
theorem C2_arrangeParams_round_trip (api : API) (m : Params) (hwf : Params.WF m) (hne : m ≠ []) :
    ∃ q m2, arrangeParams api (some m) = .ok (q, some m2) ∧
      (ParseQuery q).2 = false ∧
      ((ParseQuery q).1.map Prod.fst).Nodup ∧
      ∀ k, Values.get (ParseQuery q).1 k =
        if api.apiKey ≠ str "" ∧ k = str "auth_token" then [api.apiKey]
        else match Params.get m k with
          | some x => [x]
          | none => [] :=
  ⟨_, _, arrangeParams_parse api m hwf hne⟩

/-- Witness for C2: a client with a key and a map that already holds an
`auth_token` entry. -/
theorem C2_arrangeParams_round_trip_witness :
    ∃ q m2, arrangeParams (NewAPI (str "k") (str "json"))
        (some [(str "auth_token", str "mine"), (str "a b", str "x&y=z")]) = .ok (q, some m2) ∧
      (ParseQuery q).2 = false ∧
      ((ParseQuery q).1.map Prod.fst).Nodup ∧
      ∀ k, Values.get (ParseQuery q).1 k =
        if (NewAPI (str "k") (str "json")).apiKey ≠ str "" ∧ k = str "auth_token"
        then [(NewAPI (str "k") (str "json")).apiKey]
        else match Params.get [(str "auth_token", str "mine"), (str "a b", str "x&y=z")] k with
          | some x => [x]
          | none => [] :=
  C2_arrangeParams_round_trip (NewAPI (str "k") (str "json"))
    [(str "auth_token", str "mine"), (str "a b", str "x&y=z")] (by decide) (by decide)

/-- C3 fails as stated: with the API key `abc123` configured, the empty map
yields the query string `auth_token=abc123`, not the empty string. -/
theorem C3_counterexample :
    arrangeParams (NewAPI (str "abc123") (str "")) (some []) =
      .ok (str "auth_token=abc123", some [(str "auth_token", str "abc123")]) ∧
    str "auth_token=abc123" ≠ str "" := by
  constructor <;> decide

/-- C3 (amended): for every client whose API key is empty, `arrangeParams`
applied to an empty parameter mapping (an empty map, or the nil map) returns
the empty string and leaves the mapping as it was; for a client with a
non-empty API key the empty map yields `auth_token=` followed by the escaped
key. -/
theorem C3_arrangeParams_empty (api : API) :
    (api.apiKey = str "" →
      arrangeParams api (some []) = .ok (str "", some []) ∧
      arrangeParams api none = .ok (str "", none)) ∧
    (api.apiKey ≠ str "" →
      arrangeParams api (some []) =
        .ok (str "auth_token=" ++ QueryEscape api.apiKey, some [(str "auth_token", api.apiKey)])) := by
  constructor
  · intro h
    constructor <;> simp [arrangeParams, h, mapLen, bind, Except.bind, pure, Except.pure]
  · intro h
    rw [arrangeParams_some api [] (by decide) (Or.inl h)]
    have e1 : withAuth api [] = [(str "auth_token", api.apiKey)] := by
      unfold withAuth; rw [if_pos h]; rfl
    have e2 : sortKeys [str "auth_token"] = [str "auth_token"] := rfl
    have e3 : QueryEscape (str "auth_token") = str "auth_token" := by decide
    have e4 : str "auth_token=" = str "auth_token" ++ [chr '='] := by decide
    rw [e1]
    simp [canonicalQuery, sortedPairs, e2, Params.get, querySegment, e3, e4, List.intercalate,
      List.intersperse]

/-- Witness for C3 (amended), at the clients `NewAPI("", "json")` and
`NewAPI("s3cr3t", "json")`. -/
theorem C3_arrangeParams_empty_witness :
    (arrangeParams (NewAPI (str "") (str "json")) (some []) = .ok (str "", some []) ∧
      arrangeParams (NewAPI (str "") (str "json")) none = .ok (str "", none)) ∧
    arrangeParams (NewAPI (str "s3cr3t") (str "json")) (some []) =
      .ok (str "auth_token=" ++ QueryEscape (NewAPI (str "s3cr3t") (str "json")).apiKey,
        some [(str "auth_token", (NewAPI (str "s3cr3t") (str "json")).apiKey)]) :=
  ⟨(C3_arrangeParams_empty (NewAPI (str "") (str "json"))).1 (by decide),
    (C3_arrangeParams_empty (NewAPI (str "s3cr3t") (str "json"))).2 (by decide)⟩

/-- C4: for every operation kind (the seven keys of `urlTemplates`, and any
other string as well) and every list of string arguments, the string returned
by `getURL` ends neither with `?` nor with `&`. -/
theorem C4_getURL_no_trailing (api : API) (k : GoString) (args : List GoString) :
    (getURL api k args).1.getLast? ≠ some (chr '?') ∧
    (getURL api k args).1.getLast? ≠ some (chr '&') := by
  unfold getURL
  exact ⟨Trim_getLast _ _ _ ((cutset_mem _).mpr (Or.inl rfl)),
    Trim_getLast _ _ _ ((cutset_mem _).mpr (Or.inr rfl))⟩

/-- C5: for every `page` and `perPage`, the query string `GetDatabases` builds
is `[auth_token=<key>&]page=<p>&per_page=<pp>` where `p` is 1 when `page` is 0
and `page` otherwise, and `pp` is 100 when `perPage` is 0 or above 100 and
`perPage` otherwise; it parses to exactly those values under `page` and
`per_page`; `pp` never exceeds 100; `GetDatabases(0, 0)` sends `page=1` and
`per_page=100`, and `GetDatabases(page, 250)` sends `per_page=100`. -/
theorem C5_GetDatabases_normalisation (api : API) (page perPage : Int) :
    ∃ q url : GoString,
      q = authPrefix api ++ str "page=" ++ Itoa (if page = 0 then 1 else page) ++
        str "&per_page=" ++ Itoa (if perPage = 0 ∨ perPage > 100 then 100 else perPage) ∧
      url = str "https://www.quandl.com/api/v3/databases." ++ getFormat api false ++ str "?" ++ q ∧
      GetDatabasesURL api page perPage = .ok (url, { api with lastURL := url }) ∧
      (ParseQuery q).2 = false ∧
      Values.get (ParseQuery q).1 (str "page") = [Itoa (if page = 0 then 1 else page)] ∧
      Values.get (ParseQuery q).1 (str "per_page") =
        [Itoa (if perPage = 0 ∨ perPage > 100 then 100 else perPage)] ∧
      (if perPage = 0 ∨ perPage > 100 then 100 else perPage) ≤ 100 ∧
      GetDatabasesParams 0 0 = [(str "per_page", str "100"), (str "page", str "1")] ∧
      GetDatabasesParams page 250 =
        [(str "per_page", str "100"), (str "page", Itoa (if page = 0 then 1 else page))] := by
  have hp := arrangeParams_parse api
    [(str "per_page", Itoa (if perPage = 0 ∨ perPage > 100 then 100 else perPage)),
      (str "page", Itoa (if page = 0 then 1 else page))]
    (by simp [Params.WF, key_ne_1]) (by simp)
  rw [canonicalQuery_dbs] at hp
  refine ⟨_, _, rfl, rfl, GetDatabasesURL_eq api page perPage, hp.2.1, ?_, ?_, ?_, by decide, ?_⟩
  · rw [hp.2.2.2, if_neg (fun h => key_ne_3 h.2)]
    simp [Params.get, key_ne_1]
  · rw [hp.2.2.2, if_neg (fun h => key_ne_2 h.2)]
    simp [Params.get]
  · split
    · decide
    · rename_i h; push_neg at h; exact h.2
  · have e : Itoa 100 = str "100" := by decide
    simp [GetDatabasesParams, e]

/-- C6: for every query `q`, `page` and `perPage`, the query string `GetSearch`
builds is `[auth_token=<key>&]page=<p>&per_page=<pp>&query=<escaped q>` where
`p` is 1 when `page` is 0 and `page` otherwise, and `pp` is 300 when `perPage`
is 0 and `perPage` itself otherwise, whatever its size; it parses to exactly
those values and `q`; in particular `GetSearch(q, 0, 0)` sends `page=1`,
`per_page=300` and `query=q`. -/
theorem C6_GetSearch_normalisation (api : API) (query : GoString) (page perPage : Int) :
    ∃ q url : GoString,
      q = authPrefix api ++ str "page=" ++ Itoa (if page = 0 then 1 else page) ++
        str "&per_page=" ++ Itoa (if perPage = 0 then 300 else perPage) ++
        str "&query=" ++ QueryEscape query ∧
      url = str "https://www.quandl.com/api/v3/datasets." ++ getFormat api true ++ str "?" ++ q ∧
      GetSearchURL api query page perPage = .ok (url, { api with lastURL := url }) ∧
      (ParseQuery q).2 = false ∧
      Values.get (ParseQuery q).1 (str "page") = [Itoa (if page = 0 then 1 else page)] ∧
      Values.get (ParseQuery q).1 (str "per_page") = [Itoa (if perPage = 0 then 300 else perPage)] ∧
      Values.get (ParseQuery q).1 (str "query") = [query] ∧
      GetSearchParams query 0 0 =
        [(str "per_page", str "300"), (str "page", str "1"), (str "query", query)] := by
  have hp := arrangeParams_parse api
    [(str "per_page", Itoa (if perPage = 0 then 300 else perPage)),
      (str "page", Itoa (if page = 0 then 1 else page)), (str "query", query)]
    (by simp [Params.WF, key_ne_1, key_ne_5, key_ne_6]) (by simp)
  rw [canonicalQuery_search] at hp
  refine ⟨_, _, rfl, rfl, GetSearchURL_eq api query page perPage, hp.2.1, ?_, ?_, ?_, ?_⟩
  · rw [hp.2.2.2, if_neg (fun h => key_ne_3 h.2)]
    simp [Params.get, key_ne_1]
  · rw [hp.2.2.2, if_neg (fun h => key_ne_2 h.2)]
    simp [Params.get]
  · rw [hp.2.2.2, if_neg (fun h => key_ne_4 h.2)]
    simp [Params.get, key_ne_5, key_ne_6]
  · have e1 : Itoa 300 = str "300" := by decide
    have e2 : Itoa 1 = str "1" := by decide
    simp [GetSearchParams, e1, e2]

/-- C7: for every client whose format is `csv` or `object`, the URL `GetSearch`
builds starts with `https://www.quandl.com/api/v3/datasets.json`; and for every
client, `getFormat(true)` returns neither `csv` nor `object`. -/
theorem C7_GetSearch_csv_fallback (api api2 : API) (query : GoString) (page perPage : Int)
    (hf : api.format = str "csv" ∨ api.format = str "object") :
    (∃ url api1, GetSearchURL api query page perPage = .ok (url, api1) ∧
      str "https://www.quandl.com/api/v3/datasets.json" <+: url) ∧
    getFormat api2 true ≠ str "csv" ∧ getFormat api2 true ≠ str "object" := by
  constructor
  · refine ⟨_, _, GetSearchURL_eq api query page perPage, ?_⟩
    have hj : getFormat api true = str "json" := by
      unfold getFormat
      rw [if_pos (hf.elim (fun h => Or.inl ⟨h, rfl⟩) Or.inr)]
    have e : str "https://www.quandl.com/api/v3/datasets.json" =
        str "https://www.quandl.com/api/v3/datasets." ++ str "json" := by decide
    rw [hj, e, List.append_assoc, List.append_assoc]
    exact List.prefix_append _ _
  · unfold getFormat
    by_cases h : (api2.format = str "csv" ∧ true = true) ∨ api2.format = str "object"
    · rw [if_pos h]; constructor <;> decide
    · rw [if_neg h]
      exact ⟨fun e => h (Or.inl ⟨e, rfl⟩), fun e => h (Or.inr e)⟩

/-- Witness for C7: a `csv` client searching for `oil`. -/
theorem C7_GetSearch_csv_fallback_witness :
    (∃ url api1, GetSearchURL (NewAPI (str "") (str "csv")) (str "oil") 2 50 = .ok (url, api1) ∧
      str "https://www.quandl.com/api/v3/datasets.json" <+: url) ∧
    getFormat (NewAPI (str "") (str "object")) true ≠ str "csv" ∧
    getFormat (NewAPI (str "") (str "object")) true ≠ str "object" :=
  C7_GetSearch_csv_fallback (NewAPI (str "") (str "csv")) (NewAPI (str "") (str "object"))
    (str "oil") 2 50 (by decide)

/-- C8: for every client whose format is `json`, `csv` or `object` and every
symbol, the URL `GetMeta` builds (and stores in `lastURL`) is exactly
`https://www.quandl.com/api/v3/datasets/<symbol>/metadata.<getFormat(false)>`,
nothing is appended to it, and it is the same whatever the API key is. -/
theorem C8_GetMeta_no_query (api : API) (symbol : GoString)
    (hf : api.format = str "json" ∨ api.format = str "csv" ∨ api.format = str "object") :
    ∃ url : GoString,
      url = str "https://www.quandl.com/api/v3/datasets/" ++ symbol ++ str "/metadata." ++
        getFormat api false ∧
      GetMetaURL api symbol = (url, { api with lastURL := url }) ∧
      ∀ key, (GetMetaURL { api with apiKey := key } symbol).1 = url := by
  have hfmt : ∀ a : API, a.format = api.format →
      ∃ c, (getFormat a false).getLast? = some c ∧ c ≠ chr '?' ∧ c ≠ chr '&' := by
    intro a ha
    unfold getFormat
    rw [ha]
    rcases hf with h | h | h
    · rw [h]; exact ⟨chr 'n', by decide, by decide, by decide⟩
    · rw [h]; exact ⟨chr 'v', by decide, by decide, by decide⟩
    · rw [h]; exact ⟨chr 'n', by decide, by decide, by decide⟩
  have hurl : ∀ a : API, a.format = api.format →
      Trim (Sprintf (urlTemplate (str "meta")) [symbol, getFormat a false]) (str "?&") =
        str "https://www.quandl.com/api/v3/datasets/" ++ symbol ++ str "/metadata." ++
          getFormat a false := by
    intro a ha
    obtain ⟨c, hc, hc2⟩ := hfmt a ha
    rw [Sprintf_meta]
    exact Trim_url _ _ (chr 'h') c (by
      have e : (str "https://www.quandl.com/api/v3/datasets/").head? = some (chr 'h') := by decide
      rw [List.append_assoc, List.head?_append, e]; rfl) (by decide) hc hc2
  refine ⟨_, rfl, ?_, ?_⟩
  · unfold GetMetaURL getURL
    simp only [hurl api rfl]
  · intro key
    unfold GetMetaURL getURL
    simp only [hurl { api with apiKey := key } rfl]
    rfl

/-- Witness for C8: a `csv` client with an API key. -/
theorem C8_GetMeta_no_query_witness :
    ∃ url : GoString,
      url = str "https://www.quandl.com/api/v3/datasets/" ++ str "WIKI/AAPL" ++ str "/metadata." ++
        getFormat (NewAPI (str "abc123") (str "csv")) false ∧
      GetMetaURL (NewAPI (str "abc123") (str "csv")) (str "WIKI/AAPL") =
        (url, { NewAPI (str "abc123") (str "csv") with lastURL := url }) ∧
      ∀ key, (GetMetaURL { NewAPI (str "abc123") (str "csv") with apiKey := key }
        (str "WIKI/AAPL")).1 = url :=
  C8_GetMeta_no_query (NewAPI (str "abc123") (str "csv")) (str "WIKI/AAPL") (by decide)

/-- C9 fails as stated at `t = 0`: after `SetTimeout(0)` the timeout used by
`download` is 5 seconds, not 0. -/
theorem C9_counterexample :
    downloadTs (SetTimeout (NewAPI (str "abc123") (str "")) 0) = 5 ∧
    downloadTs (SetTimeout (NewAPI (str "abc123") (str "")) 0) ≠ 0 := by
  constructor <;> decide

/-- C9 (amended): a client fresh from `NewAPI` downloads with `ts = 5`; for
every integer `t` other than 0, after `SetTimeout(t)` the value `ts` computed
in `download` is `t`, it is still `t` after the client has built a URL, and
`download` consults the transport only with the `Timeout`
`time.Duration(t) * time.Second`; after `SetTimeout(0)` the timeout is the
default of 5 seconds again. -/
theorem C9_timeout (api : API) (key format : GoString) (t : Int) (ht : t ≠ 0)
    (kind url : GoString) (args : List GoString) (get : Int → GoString → Reply) :
    downloadTs (NewAPI key format) = 5 ∧
    downloadTs (SetTimeout api t) = t ∧
    downloadTs (getURL (SetTimeout api t) kind args).2 = t ∧
    download (SetTimeout api t) get url =
      download (SetTimeout api t) (fun _ => get (wrapInt64 (t * 1000000000))) url ∧
    downloadTs (SetTimeout api 0) = 5 := by
  have e : downloadTs (SetTimeout api t) = t := by
    simp [downloadTs, SetTimeout, ht]
  refine ⟨by simp [downloadTs, NewAPI], e, ?_, ?_, by simp [downloadTs, SetTimeout]⟩
  · simp [downloadTs, SetTimeout, getURL, ht]
  · unfold download
    simp only [e]

/-- Witness for C9 (amended): a timeout of 30 seconds. -/
theorem C9_timeout_witness :
    downloadTs (NewAPI (str "abc123") (str "")) = 5 ∧
    downloadTs (SetTimeout (NewAPI (str "abc123") (str "")) 30) = 30 ∧
    downloadTs (getURL (SetTimeout (NewAPI (str "abc123") (str "")) 30) (str "meta")
      [str "WIKI/AAPL", str "json"]).2 = 30 ∧
    download (SetTimeout (NewAPI (str "abc123") (str "")) 30)
        (fun _ _ => Reply.response 200 (str "ok") none) (str "https://www.quandl.com") =
      download (SetTimeout (NewAPI (str "abc123") (str "")) 30)
        (fun _ => (fun _ _ => Reply.response 200 (str "ok") none) (wrapInt64 (30 * 1000000000)))
        (str "https://www.quandl.com") ∧
    downloadTs (SetTimeout (NewAPI (str "abc123") (str "")) 0) = 5 :=
  C9_timeout (NewAPI (str "abc123") (str "")) (str "abc123") (str "") 30 (by decide)
    (str "meta") (str "https://www.quandl.com") [str "WIKI/AAPL", str "json"]
    (fun _ _ => Reply.response 200 (str "ok") none)

/-- C10 fails as stated: a reply with the 2xx status 201 makes `download`
end the process through `log.Fatalf` instead of returning the body. -/
theorem C10_counterexample :
    (200 : Int) ≤ 201 ∧ (201 : Int) < 300 ∧
    download (NewAPI (str "abc123") (str "")) (fun _ _ => Reply.response 201 (str "created") none)
        (str "https://www.quandl.com/api/v3/datasets/WIKI/AAPL.json") =
      .error (.fatal (str "201 created\n")) := by
  refine ⟨by decide, by decide, by decide⟩

/-- C10 (amended): when the transport answers with a status code and a body,
`download` ends the process fatally exactly when the status code is not 200
(`http.StatusOK`), logging the code and the bytes read, and for every reply
with status 200 it returns what `ioutil.ReadAll` returned on the body: the
bytes read, unmodified, and the error of the read, hence the whole body with
no error when the read completes. -/
theorem C10_download_status (api : API) (get : Int → GoString → Reply) (url : GoString)
    (status : Int) (body : GoString) (readErr : Option GoString)
    (hget : get (wrapInt64 (downloadTs api * 1000000000)) url = .response status body readErr) :
    (status = 200 → download api get url = .ok (body, readErr)) ∧
    (status = 200 → readErr = none → download api get url = .ok (body, none)) ∧
    (status ≠ 200 →
      download api get url = .error (.fatal (Itoa status ++ str " " ++ body ++ str "\n"))) ∧
    ((∃ msg, download api get url = .error (.fatal msg)) ↔ status ≠ 200) := by
  have hd : download api get url =
      if status ≠ 200 then .error (.fatal (Itoa status ++ str " " ++ body ++ str "\n"))
      else .ok (body, readErr) := by
    unfold download
    simp only [hget]
  refine ⟨fun h => by rw [hd, if_neg (not_not.mpr h)],
    fun h hr => by rw [hd, if_neg (not_not.mpr h), hr], fun h => by rw [hd, if_pos h], ?_⟩
  constructor
  · rintro ⟨msg, hm⟩ h
    rw [hd, if_neg (not_not.mpr h)] at hm
    exact Except.noConfusion hm
  · intro h
    exact ⟨_, by rw [hd, if_pos h]⟩

/-- Witness for C10 (amended): a 200 reply whose body is read to its end, and
a 200 reply whose read fails after ten bytes. -/
theorem C10_download_status_witness :
    download (NewAPI (str "abc123") (str ""))
        (fun _ _ => Reply.response 200 (str "body bytes") none) (str "u") =
      .ok (str "body bytes", none) ∧
    download (NewAPI (str "abc123") (str ""))
        (fun _ _ => Reply.response 200 (str "0123456789") (some (str "unexpected EOF")))
        (str "u") =
      .ok (str "0123456789", some (str "unexpected EOF")) :=
  ⟨(C10_download_status (NewAPI (str "abc123") (str ""))
      (fun _ _ => Reply.response 200 (str "body bytes") none) (str "u") 200
      (str "body bytes") none rfl).2.1 rfl rfl,
    (C10_download_status (NewAPI (str "abc123") (str ""))
      (fun _ _ => Reply.response 200 (str "0123456789") (some (str "unexpected EOF")))
      (str "u") 200 (str "0123456789") (some (str "unexpected EOF")) rfl).1 rfl⟩

/-! ## `arrangeParams` and the operations on arbitrary maps -/

theorem arrangeParams_some_ok (api : API) (m : Params) :
    ∃ q, arrangeParams api (some m) = .ok (q, some (withAuth api m)) := by
  unfold arrangeParams withAuth
  by_cases hk : api.apiKey ≠ str ""
  · simp only [if_pos hk, mapAssign, bind, Except.bind, pure, Except.pure]
    split
    · exact ⟨_, rfl⟩
    · exact ⟨_, rfl⟩
  · simp only [if_neg hk, bind, Except.bind, pure, Except.pure]
    split
    · exact ⟨_, rfl⟩
    · exact ⟨_, rfl⟩

theorem arrangeParams_nil_key (api : API) (hk : api.apiKey ≠ str "") :
    arrangeParams api none = .error (.panic "assignment to entry in nil map") := by
  unfold arrangeParams
  simp only [if_pos hk, mapAssign, bind, Except.bind]

theorem arrangeParams_nil_nokey (api : API) (hk : api.apiKey = str "") :
    arrangeParams api none = .ok (str "", none) := by
  unfold arrangeParams
  simp [hk, mapLen, bind, Except.bind, pure, Except.pure]

theorem GetURL_of_ok (api : API) (path q : GoString) (params p : Option Params)
    (h : arrangeParams api params = .ok (q, p)) :
    GetURL api path params =
      .ok ((getURL api (str "direct") [path, getFormat api true, q]).1,
        (getURL api (str "direct") [path, getFormat api true, q]).2, p) := by
  unfold GetURL
  simp only [h, bind, Except.bind, pure, Except.pure]

theorem GetURL_of_error (api : API) (path : GoString) (params : Option Params) (e : Abort)
    (h : arrangeParams api params = .error e) : GetURL api path params = .error e := by
  unfold GetURL
  simp only [h, bind, Except.bind]

theorem GetSymbolURL_of_ok (api : API) (sym q : GoString) (params p : Option Params)
    (h : arrangeParams api params = .ok (q, p)) :
    GetSymbolURL api sym params =
      .ok ((getURL api (str "symbol") [sym, getFormat api true, q]).1,
        (getURL api (str "symbol") [sym, getFormat api true, q]).2, p) := by
  unfold GetSymbolURL
  simp only [h, bind, Except.bind, pure, Except.pure]

theorem GetSymbolURL_of_error (api : API) (sym : GoString) (params : Option Params) (e : Abort)
    (h : arrangeParams api params = .error e) : GetSymbolURL api sym params = .error e := by
  unfold GetSymbolURL
  simp only [h, bind, Except.bind]

theorem canonicalQuery_ne_nil (m : Params) (hne : m ≠ []) : canonicalQuery m ≠ [] := by
  obtain ⟨c, hc, _⟩ := canonicalQuery_getLast m hne
  intro e
  rw [e] at hc
  exact Option.noConfusion hc

/-- The strip of a dangling `?`: a string that starts with `h` and whose last
byte is outside the cutset loses exactly the `?` appended to it. -/
theorem Trim_dangling (s : GoString) (c : Byte) (hs : s.head? = some (chr 'h'))
    (hc : s.getLast? = some c) (hc2 : c ≠ chr '?' ∧ c ≠ chr '&') :
    Trim (s ++ str "?") (str "?&") = s := by
  have hne : s ≠ [] := by intro e; rw [e] at hc; exact Option.noConfusion hc
  have e1 : trimRight (s ++ str "?") (str "?&") = s := by
    have eq : str "?" = [chr '?'] := by decide
    unfold trimRight
    rw [eq, List.rdropWhile_concat_pos _ _ _ (by
      simp only [decide_eq_true_eq]; exact (cutset_mem _).mpr (Or.inl rfl))]
    exact trimRight_eq_self s (str "?&") (fun x hx => by
      rw [hc] at hx; cases hx
      rw [cutset_mem]; exact fun h => h.elim hc2.1 hc2.2)
  unfold Trim
  rw [e1]
  exact trimLeft_eq_self s (str "?&") (fun x hx => by
    rw [hs] at hx; cases hx
    rw [cutset_mem]; exact fun h => h.elim (by decide) (by decide))

theorem arrangeParams_empty_nokey (api : API) (hk : api.apiKey = str "") :
    arrangeParams api (some []) = .ok (str "", some []) := by
  unfold arrangeParams
  simp [hk, mapLen, bind, Except.bind, pure, Except.pure]

/-- A query string returned by `arrangeParams` is empty or the canonical query of
a non-empty map. -/
theorem arrangeParams_cases (api : API) (params p2 : Option Params) (q : GoString)
    (hwf : ∀ m, params = some m → Params.WF m)
    (h : arrangeParams api params = .ok (q, p2)) :
    q = [] ∨ ∃ m, m ≠ [] ∧ q = canonicalQuery m := by
  cases params with
  | none =>
    by_cases hk : api.apiKey ≠ str ""
    · rw [arrangeParams_nil_key api hk] at h
      exact Except.noConfusion h
    · rw [arrangeParams_nil_nokey api (not_not.mp hk)] at h
      injection h with h
      injection h with h1 h2
      exact Or.inl h1.symm
  | some m =>
    by_cases hne : api.apiKey ≠ str "" ∨ m ≠ []
    · rw [arrangeParams_some api m (hwf m rfl) hne] at h
      injection h with h
      injection h with h1 h2
      refine Or.inr ⟨withAuth api m, ?_, h1.symm⟩
      unfold withAuth
      split
      · exact Params.set_ne_nil _ _ _
      · rename_i hk
        exact hne.resolve_left hk
    · push_neg at hne
      rw [hne.2, arrangeParams_empty_nokey api hne.1] at h
      injection h with h
      injection h with h1 h2
      exact Or.inl h1.symm

theorem intercalate_head (sep s : GoString) (rest : List GoString) (hs : s ≠ []) :
    (sep.intercalate (s :: rest)).head? = s.head? := by
  cases s with
  | nil => exact absurd rfl hs
  | cons a s => cases rest <;> simp [List.intercalate, List.intersperse]

/-- The first byte of the canonical query of a non-empty map is neither `?` nor
`&`. -/
theorem canonicalQuery_head (m : Params) (hne : m ≠ []) :
    ∃ c, (canonicalQuery m).head? = some c ∧ c ≠ chr '?' ∧ c ≠ chr '&' := by
  unfold canonicalQuery
  cases hsp : sortedPairs m with
  | nil => exact absurd hsp (sortedPairs_ne_nil m hne)
  | cons kv rest =>
    rw [List.map_cons, intercalate_head _ _ _ (querySegment_ne_nil kv)]
    cases hq : querySegment kv with
    | nil => exact absurd hq (querySegment_ne_nil kv)
    | cons a s =>
      have := querySegment_clean kv a (by rw [hq]; simp)
      exact ⟨a, rfl, this.2.2, this.1⟩

/-- The two outcomes of `getURL` on a filled template `pre?q`: with an empty
query the dangling `?` goes, with a query that ends outside the cutset nothing
changes. -/
theorem getURL_filled (api : API) (k : GoString) (args : List GoString) (pre q : GoString)
    (c : Byte) (hs : Sprintf (urlTemplate k) args = pre ++ str "?" ++ q)
    (hpre : pre.head? = some (chr 'h')) (hc : pre.getLast? = some c)
    (hc2 : c ≠ chr '?' ∧ c ≠ chr '&') :
    (q = [] → getURL api k args = (pre, { api with lastURL := pre })) ∧
    (∀ x, q.getLast? = some x → x ≠ chr '?' ∧ x ≠ chr '&' →
      getURL api k args = (pre ++ str "?" ++ q, { api with lastURL := pre ++ str "?" ++ q })) := by
  constructor
  · intro hq
    subst hq
    rw [List.append_nil] at hs
    unfold getURL
    simp only [hs, Trim_dangling pre c hpre hc hc2]
  · intro x hx hx2
    have hh : (pre ++ str "?").head? = some (chr 'h') := by
      cases pre with
      | nil => exact Option.noConfusion hpre
      | cons a pre => simpa using hpre
    have ht := Trim_url (pre ++ str "?") q (chr 'h') x hh (by decide) hx hx2
    unfold getURL
    simp only [hs, ht]

theorem format_last (fmt : GoString) (hf : fmt = str "json" ∨ fmt = str "csv") (pre : GoString) :
    ∃ c, (pre ++ fmt).getLast? = some c ∧ c ≠ chr '?' ∧ c ≠ chr '&' := by
  rcases hf with h | h
  · refine ⟨chr 'n', ?_, by decide, by decide⟩
    rw [h, List.getLast?_append_of_ne_nil _ (by decide)]; decide
  · refine ⟨chr 'v', ?_, by decide, by decide⟩
    rw [h, List.getLast?_append_of_ne_nil _ (by decide)]; decide

theorem head_append_lit (lit rest : GoString) (h : lit.head? = some (chr 'h')) :
    (lit ++ rest).head? = some (chr 'h') := by
  cases lit with
  | nil => exact Option.noConfusion h
  | cons a l => simpa using h

theorem getFormat_default (k : GoString) (omitCsv : Bool) :
    getFormat (NewAPI k (str "")) omitCsv = str "json" := by
  unfold getFormat
  rw [if_pos (Or.inr (by simp [NewAPI]))]

theorem GetMetaURL_eq (api : API) (symbol : GoString)
    (hf : getFormat api false = str "json" ∨ getFormat api false = str "csv") :
    (GetMetaURL api symbol).1 =
      str "https://www.quandl.com/api/v3/datasets/" ++ symbol ++ str "/metadata." ++
        getFormat api false := by
  obtain ⟨c, hc, hc2⟩ := format_last _ hf []
  rw [List.nil_append] at hc
  have ht := Trim_url (str "https://www.quandl.com/api/v3/datasets/" ++ symbol ++ str "/metadata.")
    (getFormat api false) (chr 'h') c
    (by rw [List.append_assoc]; exact head_append_lit _ _ (by decide)) (by decide) hc hc2
  unfold GetMetaURL getURL
  simp only [Sprintf_meta, ht]

/-- C12: after `getURL(kind, args...)` the field `lastURL` equals the string
`getURL` returned, whatever it held before, and every other field of the client
is unchanged; hence whenever `Get`, `GetSymbol`, `GetMeta`, `GetDatabases` or
`GetSearch` builds its URL, `lastURL` is that URL and `apiKey`, `format` and
`timeout` are as before.  `Get` and `GetSymbol` do build a URL on every non-nil
map, `GetMeta`, `GetDatabases` and `GetSearch` always. -/
theorem C12_lastURL (api : API) (kind path sym query : GoString) (args : List GoString)
    (params : Option Params) (m : Params) (page perPage : Int) :
    ((getURL api kind args).2.lastURL = (getURL api kind args).1 ∧
      (getURL api kind args).2 = { api with lastURL := (getURL api kind args).1 } ∧
      (getURL api kind args).2.apiKey = api.apiKey ∧
      (getURL api kind args).2.format = api.format ∧
      (getURL api kind args).2.timeout = api.timeout) ∧
    (∀ u a p, GetURL api path params = .ok (u, a, p) → a = { api with lastURL := u }) ∧
    (∀ u a p, GetSymbolURL api sym params = .ok (u, a, p) → a = { api with lastURL := u }) ∧
    (∃ u p, GetURL api path (some m) = .ok (u, { api with lastURL := u }, p)) ∧
    (∃ u p, GetSymbolURL api sym (some m) = .ok (u, { api with lastURL := u }, p)) ∧
    (GetMetaURL api sym).2 = { api with lastURL := (GetMetaURL api sym).1 } ∧
    (∃ u, GetDatabasesURL api page perPage = .ok (u, { api with lastURL := u })) ∧
    (∃ u, GetSearchURL api query page perPage = .ok (u, { api with lastURL := u })) := by
  refine ⟨⟨rfl, rfl, rfl, rfl, rfl⟩, ?_, ?_, ?_, ?_, rfl, ⟨_, GetDatabasesURL_eq api page perPage⟩,
    ⟨_, GetSearchURL_eq api query page perPage⟩⟩
  · intro u a p h
    cases hq : arrangeParams api params with
    | error e => rw [GetURL_of_error api path params e hq] at h; exact Except.noConfusion h
    | ok r =>
      obtain ⟨q, p2⟩ := r
      rw [GetURL_of_ok api path q params p2 hq] at h
      injection h with h
      injection h with h1 h2
      injection h2 with h2 h3
      rw [← h1, ← h2]; rfl
  · intro u a p h
    cases hq : arrangeParams api params with
    | error e => rw [GetSymbolURL_of_error api sym params e hq] at h; exact Except.noConfusion h
    | ok r =>
      obtain ⟨q, p2⟩ := r
      rw [GetSymbolURL_of_ok api sym q params p2 hq] at h
      injection h with h
      injection h with h1 h2
      injection h2 with h2 h3
      rw [← h1, ← h2]; rfl
  · obtain ⟨q, hq⟩ := arrangeParams_some_ok api m
    exact ⟨_, _, GetURL_of_ok api path q _ _ hq⟩
  · obtain ⟨q, hq⟩ := arrangeParams_some_ok api m
    exact ⟨_, _, GetSymbolURL_of_ok api sym q _ _ hq⟩

/-- Witness for C12: the client `NewAPI("abc123", "")` fetching `WIKI/AAPL`
with an empty map. -/
theorem C12_lastURL_witness :
    (NewAPI (str "abc123") (str "")).lastURL = str "" ∧
    ({ NewAPI (str "abc123") (str "") with
        lastURL := str "https://www.quandl.com/api/v3/datasets/WIKI/AAPL.json?auth_token=abc123" }
      : API) =
      { NewAPI (str "abc123") (str "") with
        lastURL := str "https://www.quandl.com/api/v3/datasets/WIKI/AAPL.json?auth_token=abc123" } :=
  ⟨rfl, (C12_lastURL (NewAPI (str "abc123") (str "")) (str "symbol") (str "WIKI/AAPL")
    (str "WIKI/AAPL") (str "oil") [] (some []) [] 0 0).2.2.1
    (str "https://www.quandl.com/api/v3/datasets/WIKI/AAPL.json?auth_token=abc123")
    { NewAPI (str "abc123") (str "") with
      lastURL := str "https://www.quandl.com/api/v3/datasets/WIKI/AAPL.json?auth_token=abc123" }
    (some [(str "auth_token", str "abc123")]) rfl⟩

/-- The two outcomes of `getURL` on the three-verb templates `direct` and
`symbol`, for a format `json` or `csv`. -/
theorem getURL_three (api : API) (k base path fmt q : GoString)
    (hs : ∀ a b c, Sprintf (urlTemplate k) [a, b, c] = base ++ a ++ str "." ++ b ++ str "?" ++ c)
    (hbase : base.head? = some (chr 'h')) (hf : fmt = str "json" ∨ fmt = str "csv") :
    (q = [] → getURL api k [path, fmt, q] =
      (base ++ path ++ str "." ++ fmt, { api with lastURL := base ++ path ++ str "." ++ fmt })) ∧
    (∀ x, q.getLast? = some x → x ≠ chr '?' ∧ x ≠ chr '&' →
      getURL api k [path, fmt, q] =
        (base ++ path ++ str "." ++ fmt ++ str "?" ++ q,
          { api with lastURL := base ++ path ++ str "." ++ fmt ++ str "?" ++ q })) := by
  obtain ⟨c, hc, hc2⟩ := format_last fmt hf (base ++ path ++ str ".")
  exact getURL_filled api k [path, fmt, q] (base ++ path ++ str "." ++ fmt) q c (hs _ _ _)
    (by rw [List.append_assoc, List.append_assoc]; exact head_append_lit _ _ hbase) hc hc2

/-- The two outcomes of `getURL` on the two-verb templates `search` and `dbs`. -/
theorem getURL_two (api : API) (k base fmt q : GoString)
    (hs : ∀ b c, Sprintf (urlTemplate k) [b, c] = base ++ b ++ str "?" ++ c)
    (hbase : base.head? = some (chr 'h')) (hf : fmt = str "json" ∨ fmt = str "csv") :
    (q = [] → getURL api k [fmt, q] = (base ++ fmt, { api with lastURL := base ++ fmt })) ∧
    (∀ x, q.getLast? = some x → x ≠ chr '?' ∧ x ≠ chr '&' →
      getURL api k [fmt, q] =
        (base ++ fmt ++ str "?" ++ q, { api with lastURL := base ++ fmt ++ str "?" ++ q })) := by
  obtain ⟨c, hc, hc2⟩ := format_last fmt hf base
  exact getURL_filled api k [fmt, q] (base ++ fmt) q c (hs _ _)
    (head_append_lit _ _ hbase) hc hc2

theorem getFormat_json (api : API) (omitCsv : Bool) (h : api.format = str "json") :
    getFormat api omitCsv = str "json" := by
  unfold getFormat
  rw [h]
  split <;> rfl

/-- The URL `Get` (kind `direct`) or `GetSymbol` (kind `symbol`) builds from a
query string that `arrangeParams` returned, for a format `json` or `csv`. -/
theorem getURL_three_query (api api0 : API) (k base path fmt q : GoString)
    (params p : Option Params)
    (hs : ∀ a b c, Sprintf (urlTemplate k) [a, b, c] = base ++ a ++ str "." ++ b ++ str "?" ++ c)
    (hbase : base.head? = some (chr 'h')) (hf : fmt = str "json" ∨ fmt = str "csv")
    (hwf : ∀ m, params = some m → Params.WF m)
    (hq : arrangeParams api0 params = .ok (q, p)) :
    (getURL api k [path, fmt, q]).1 =
      base ++ path ++ str "." ++ fmt ++ (if q = [] then [] else str "?" ++ q) := by
  have h3 := getURL_three api k base path fmt q hs hbase hf
  rcases arrangeParams_cases api0 params p q hwf hq with h | ⟨m, hm, rfl⟩
  · rw [h3.1 h, if_pos h, List.append_nil]
  · obtain ⟨x, hx, hx2⟩ := canonicalQuery_getLast m hm
    rw [h3.2 x hx hx2, if_neg (canonicalQuery_ne_nil m hm), List.append_assoc _ (str "?")]

theorem GetURL_built (api : API) (path u : GoString) (params p : Option Params) (a : API)
    (hf : getFormat api true = str "json" ∨ getFormat api true = str "csv")
    (hwf : ∀ m, params = some m → Params.WF m)
    (h : GetURL api path params = .ok (u, a, p)) :
    ∃ q, arrangeParams api params = .ok (q, p) ∧
      u = str "https://www.quandl.com/api/v3/" ++ path ++ str "." ++ getFormat api true ++
        (if q = [] then [] else str "?" ++ q) := by
  cases hq : arrangeParams api params with
  | error e => rw [GetURL_of_error api path params e hq] at h; exact Except.noConfusion h
  | ok r =>
    obtain ⟨q, p2⟩ := r
    rw [GetURL_of_ok api path q params p2 hq] at h
    injection h with h
    injection h with h1 h2
    injection h2 with h2 h3
    subst h3
    refine ⟨q, rfl, ?_⟩
    rw [← h1]
    exact getURL_three_query api api (str "direct") _ path _ q params p2 Sprintf_direct
      (by decide) hf hwf hq

theorem GetSymbolURL_built (api : API) (sym u : GoString) (params p : Option Params) (a : API)
    (hf : getFormat api true = str "json" ∨ getFormat api true = str "csv")
    (hwf : ∀ m, params = some m → Params.WF m)
    (h : GetSymbolURL api sym params = .ok (u, a, p)) :
    ∃ q, arrangeParams api params = .ok (q, p) ∧
      u = str "https://www.quandl.com/api/v3/datasets/" ++ sym ++ str "." ++ getFormat api true ++
        (if q = [] then [] else str "?" ++ q) := by
  cases hq : arrangeParams api params with
  | error e => rw [GetSymbolURL_of_error api sym params e hq] at h; exact Except.noConfusion h
  | ok r =>
    obtain ⟨q, p2⟩ := r
    rw [GetSymbolURL_of_ok api sym q params p2 hq] at h
    injection h with h
    injection h with h1 h2
    injection h2 with h2 h3
    subst h3
    refine ⟨q, rfl, ?_⟩
    rw [← h1]
    exact getURL_three_query api api (str "symbol") _ sym _ q params p2 Sprintf_symbol
      (by decide) hf hwf hq

/-- C11: for every API key `k`, `NewAPI(k, "")` has format `object` and API key
`k`, and `getFormat` gives it the segment `json` for both values of `omitCsv`,
so that every URL this client builds carries `.json`: the URLs of `GetMeta`,
`GetDatabases` and `GetSearch`, and the URL of `Get` and of `GetSymbol` on every
(well-formed or nil) map on which they build one, which they do on every
non-nil map; for every non-empty format `f`, `NewAPI(k, f)` keeps
`format = f`. -/
theorem C11_default_format (k f symbol query : GoString) (page perPage : Int) (hf : f ≠ str "") :
    (NewAPI k (str "")).format = str "object" ∧
    (NewAPI k (str "")).apiKey = k ∧
    getFormat (NewAPI k (str "")) true = str "json" ∧
    getFormat (NewAPI k (str "")) false = str "json" ∧
    (GetMetaURL (NewAPI k (str "")) symbol).1 =
      str "https://www.quandl.com/api/v3/datasets/" ++ symbol ++ str "/metadata." ++ str "json" ∧
    (∃ a, GetDatabasesURL (NewAPI k (str "")) page perPage =
      .ok (str "https://www.quandl.com/api/v3/databases." ++ str "json" ++ str "?" ++
        databasesQuery (NewAPI k (str "")) page perPage, a)) ∧
    (∃ a, GetSearchURL (NewAPI k (str "")) query page perPage =
      .ok (str "https://www.quandl.com/api/v3/datasets." ++ str "json" ++ str "?" ++
        searchQuery (NewAPI k (str "")) query page perPage, a)) ∧
    (NewAPI k f).format = f ∧
    (NewAPI k f).apiKey = k ∧
    (∀ (path u : GoString) (params p : Option Params) (a : API),
      (∀ m, params = some m → Params.WF m) →
      GetURL (NewAPI k (str "")) path params = .ok (u, a, p) →
      ∃ q, arrangeParams (NewAPI k (str "")) params = .ok (q, p) ∧
        u = str "https://www.quandl.com/api/v3/" ++ path ++ str "." ++ str "json" ++
          (if q = [] then [] else str "?" ++ q)) ∧
    (∀ (sym u : GoString) (params p : Option Params) (a : API),
      (∀ m, params = some m → Params.WF m) →
      GetSymbolURL (NewAPI k (str "")) sym params = .ok (u, a, p) →
      ∃ q, arrangeParams (NewAPI k (str "")) params = .ok (q, p) ∧
        u = str "https://www.quandl.com/api/v3/datasets/" ++ sym ++ str "." ++ str "json" ++
          (if q = [] then [] else str "?" ++ q)) ∧
    (∀ (path : GoString) (m : Params),
      ∃ u a p, GetURL (NewAPI k (str "")) path (some m) = .ok (u, a, p)) ∧
    (∀ (sym : GoString) (m : Params),
      ∃ u a p, GetSymbolURL (NewAPI k (str "")) sym (some m) = .ok (u, a, p)) := by
  refine ⟨by simp [NewAPI], rfl, getFormat_default k true, getFormat_default k false, ?_, ?_, ?_,
    by simp [NewAPI, hf], rfl, ?_, ?_, ?_, ?_⟩
  · rw [GetMetaURL_eq _ _ (Or.inl (getFormat_default k false)), getFormat_default]
  · have h := GetDatabasesURL_eq (NewAPI k (str "")) page perPage
    rw [getFormat_default] at h
    exact ⟨_, h⟩
  · have h := GetSearchURL_eq (NewAPI k (str "")) query page perPage
    rw [getFormat_default] at h
    exact ⟨_, h⟩
  · intro path u params p a hwf h
    have hb := GetURL_built (NewAPI k (str "")) path u params p a
      (Or.inl (getFormat_default k true)) hwf h
    rw [getFormat_default] at hb
    exact hb
  · intro sym u params p a hwf h
    have hb := GetSymbolURL_built (NewAPI k (str "")) sym u params p a
      (Or.inl (getFormat_default k true)) hwf h
    rw [getFormat_default] at hb
    exact hb
  · intro path m
    obtain ⟨q, hq⟩ := arrangeParams_some_ok (NewAPI k (str "")) m
    exact ⟨_, _, _, GetURL_of_ok _ path q _ _ hq⟩
  · intro sym m
    obtain ⟨q, hq⟩ := arrangeParams_some_ok (NewAPI k (str "")) m
    exact ⟨_, _, _, GetSymbolURL_of_ok _ sym q _ _ hq⟩

/-- Witness for C11: the key `abc123` and the format `csv`; and the URL that
`GetSymbol("WIKI/AAPL", {})` builds on the client `NewAPI("abc123", "")`. -/
theorem C11_default_format_witness :
    ((NewAPI (str "abc123") (str "")).format = str "object" ∧
      getFormat (NewAPI (str "abc123") (str "")) true = str "json" ∧
      getFormat (NewAPI (str "abc123") (str "")) false = str "json" ∧
      (NewAPI (str "abc123") (str "csv")).format = str "csv") ∧
    ∃ q, arrangeParams (NewAPI (str "abc123") (str "")) (some []) =
        .ok (q, some [(str "auth_token", str "abc123")]) ∧
      str "https://www.quandl.com/api/v3/datasets/WIKI/AAPL.json?auth_token=abc123" =
        str "https://www.quandl.com/api/v3/datasets/" ++ str "WIKI/AAPL" ++ str "." ++ str "json" ++
          (if q = [] then [] else str "?" ++ q) :=
  have h := C11_default_format (str "abc123") (str "csv") (str "WIKI/AAPL") (str "oil") 2 50
    (by decide)
  ⟨⟨h.1, h.2.2.1, h.2.2.2.1, h.2.2.2.2.2.2.2.1⟩,
    h.2.2.2.2.2.2.2.2.2.2.1 (str "WIKI/AAPL")
      (str "https://www.quandl.com/api/v3/datasets/WIKI/AAPL.json?auth_token=abc123")
      (some []) (some [(str "auth_token", str "abc123")])
      { NewAPI (str "abc123") (str "") with
        lastURL := str "https://www.quandl.com/api/v3/datasets/WIKI/AAPL.json?auth_token=abc123" }
      (fun m hm => by cases hm; decide) rfl⟩

/-- C13: for every client and every (non-nil, well-formed) map `m`,
`arrangeParams(m)` is the empty string if and only if the API key is empty and
`m` has no entries; and for an empty API key, format `json` and an empty map,
`Get(path, m)` builds exactly `https://www.quandl.com/api/v3/<path>.json` and
`GetSymbol(path, m)` exactly `https://www.quandl.com/api/v3/datasets/<path>.json`,
with no dangling `?`. -/
theorem C13_empty_query_iff (api : API) (m : Params) (path : GoString) (hwf : Params.WF m) :
    (∃ q m2, arrangeParams api (some m) = .ok (q, some m2) ∧
      (q = str "" ↔ api.apiKey = str "" ∧ m = [])) ∧
    (api.apiKey = str "" → api.format = str "json" →
      (∃ a, GetURL api path (some []) =
        .ok (str "https://www.quandl.com/api/v3/" ++ path ++ str ".json", a, some [])) ∧
      (∃ a, GetSymbolURL api path (some []) =
        .ok (str "https://www.quandl.com/api/v3/datasets/" ++ path ++ str ".json", a, some []))) := by
  constructor
  · by_cases hne : api.apiKey ≠ str "" ∨ m ≠ []
    · refine ⟨_, _, arrangeParams_some api m hwf hne, ?_⟩
      have hw : withAuth api m ≠ [] := by
        unfold withAuth; split
        · exact Params.set_ne_nil _ _ _
        · rename_i hk; exact hne.resolve_left hk
      constructor
      · intro h; exact absurd h (canonicalQuery_ne_nil _ hw)
      · rintro ⟨h1, h2⟩
        exact absurd h2 (hne.resolve_left (not_not.mpr h1))
    · push_neg at hne
      refine ⟨_, _, by rw [hne.2]; exact arrangeParams_empty_nokey api hne.1, ?_⟩
      exact ⟨fun _ => hne, fun _ => rfl⟩
  · intro hk hf
    have hq := arrangeParams_empty_nokey api hk
    have hj := getFormat_json api true hf
    have e : str ".json" = str "." ++ str "json" := by decide
    rw [e, ← List.append_assoc, ← List.append_assoc]
    constructor
    · have h := GetURL_of_ok api path _ _ _ hq
      rw [hj, (getURL_three api (str "direct") _ path (str "json") (str "") Sprintf_direct
        (by decide) (Or.inl rfl)).1 rfl] at h
      exact ⟨_, h⟩
    · have h := GetSymbolURL_of_ok api path _ _ _ hq
      rw [hj, (getURL_three api (str "symbol") _ path (str "json") (str "") Sprintf_symbol
        (by decide) (Or.inl rfl)).1 rfl] at h
      exact ⟨_, h⟩

/-- Witness for C13: a client without key, format `json`, and a one-entry
map. -/
theorem C13_empty_query_iff_witness :
    (∃ q m2, arrangeParams (NewAPI (str "") (str "json")) (some [(str "limit", str "5")]) =
        .ok (q, some m2) ∧
      (q = str "" ↔ (NewAPI (str "") (str "json")).apiKey = str "" ∧
        [(str "limit", str "5")] = ([] : Params))) ∧
    ((NewAPI (str "") (str "json")).apiKey = str "" →
      (NewAPI (str "") (str "json")).format = str "json" →
      (∃ a, GetURL (NewAPI (str "") (str "json")) (str "datasets/WIKI/AAPL") (some []) =
        .ok (str "https://www.quandl.com/api/v3/" ++ str "datasets/WIKI/AAPL" ++ str ".json", a,
          some [])) ∧
      (∃ a, GetSymbolURL (NewAPI (str "") (str "json")) (str "datasets/WIKI/AAPL") (some []) =
        .ok (str "https://www.quandl.com/api/v3/datasets/" ++ str "datasets/WIKI/AAPL" ++
          str ".json", a, some []))) :=
  C13_empty_query_iff (NewAPI (str "") (str "json")) [(str "limit", str "5")]
    (str "datasets/WIKI/AAPL") (by decide)

/-- C15: for every client with a non-empty API key, `arrangeParams`, and with it
`Get` and `GetSymbol`, called with a nil map panics on the write
`params["auth_token"]` and builds no URL; for a client with an empty API key
the same call of `arrangeParams` returns the empty query string; and on every
non-nil map `arrangeParams` returns. -/
theorem C15_nil_map (api : API) (path sym : GoString) (m : Params) :
    (api.apiKey ≠ str "" →
      arrangeParams api none = .error (.panic "assignment to entry in nil map") ∧
      GetURL api path none = .error (.panic "assignment to entry in nil map") ∧
      GetSymbolURL api sym none = .error (.panic "assignment to entry in nil map")) ∧
    (api.apiKey = str "" → arrangeParams api none = .ok (str "", none)) ∧
    (∃ r, arrangeParams api (some m) = .ok r) := by
  refine ⟨fun hk => ?_, arrangeParams_nil_nokey api, ?_⟩
  · have h := arrangeParams_nil_key api hk
    exact ⟨h, GetURL_of_error api path none _ h, GetSymbolURL_of_error api sym none _ h⟩
  · obtain ⟨q, hq⟩ := arrangeParams_some_ok api m
    exact ⟨_, hq⟩

/-- Witness for C15: the clients `NewAPI("abc123", "")` and `NewAPI("", "")`. -/
theorem C15_nil_map_witness :
    (arrangeParams (NewAPI (str "abc123") (str "")) none =
        .error (.panic "assignment to entry in nil map") ∧
      GetURL (NewAPI (str "abc123") (str "")) (str "datasets/WIKI/AAPL") none =
        .error (.panic "assignment to entry in nil map") ∧
      GetSymbolURL (NewAPI (str "abc123") (str "")) (str "WIKI/AAPL") none =
        .error (.panic "assignment to entry in nil map")) ∧
    arrangeParams (NewAPI (str "") (str "")) none = .ok (str "", none) :=
  ⟨(C15_nil_map (NewAPI (str "abc123") (str "")) (str "datasets/WIKI/AAPL") (str "WIKI/AAPL")
      []).1 (by decide),
    (C15_nil_map (NewAPI (str "") (str "")) (str "datasets/WIKI/AAPL") (str "WIKI/AAPL")
      []).2.1 (by decide)⟩

/-- C17: for every client and every non-nil map `m`, `arrangeParams(m)`, and
with it `Get` and `GetSymbol`, leaves the caller's map in a state `m2` such
that, when the API key is non-empty, `m2` maps `auth_token` to the API key and
every other key to what `m` mapped it to, and, when the API key is empty, `m2`
is `m` unchanged. -/
theorem C17_map_modified_in_place (api : API) (m : Params) (path sym : GoString) :
    ∃ q m2, arrangeParams api (some m) = .ok (q, some m2) ∧
      (∃ u a, GetURL api path (some m) = .ok (u, a, some m2)) ∧
      (∃ u a, GetSymbolURL api sym (some m) = .ok (u, a, some m2)) ∧
      (api.apiKey ≠ str "" →
        ∀ k, Params.get m2 k = if k = str "auth_token" then some api.apiKey else Params.get m k) ∧
      (api.apiKey = str "" → m2 = m) := by
  obtain ⟨q, hq⟩ := arrangeParams_some_ok api m
  refine ⟨q, withAuth api m, hq, ⟨_, _, GetURL_of_ok api path q _ _ hq⟩,
    ⟨_, _, GetSymbolURL_of_ok api sym q _ _ hq⟩, ?_, ?_⟩
  · intro hk k
    unfold withAuth
    rw [if_pos hk, Params.get_set]
  · intro hk
    unfold withAuth
    rw [if_neg (not_not.mpr hk)]

/-- Witness for C17: a client with the key `abc123` and a map that already holds
an `auth_token`. -/
theorem C17_map_modified_in_place_witness :
    ∃ q m2, arrangeParams (NewAPI (str "abc123") (str ""))
        (some [(str "auth_token", str "mine"), (str "limit", str "5")]) = .ok (q, some m2) ∧
      (∃ u a, GetURL (NewAPI (str "abc123") (str "")) (str "datasets/WIKI/AAPL")
        (some [(str "auth_token", str "mine"), (str "limit", str "5")]) = .ok (u, a, some m2)) ∧
      (∃ u a, GetSymbolURL (NewAPI (str "abc123") (str "")) (str "WIKI/AAPL")
        (some [(str "auth_token", str "mine"), (str "limit", str "5")]) = .ok (u, a, some m2)) ∧
      ((NewAPI (str "abc123") (str "")).apiKey ≠ str "" →
        ∀ k, Params.get m2 k =
          if k = str "auth_token" then some (NewAPI (str "abc123") (str "")).apiKey
          else Params.get [(str "auth_token", str "mine"), (str "limit", str "5")] k) ∧
      ((NewAPI (str "abc123") (str "")).apiKey = str "" →
        m2 = [(str "auth_token", str "mine"), (str "limit", str "5")]) :=
  C17_map_modified_in_place (NewAPI (str "abc123") (str ""))
    [(str "auth_token", str "mine"), (str "limit", str "5")] (str "datasets/WIKI/AAPL")
    (str "WIKI/AAPL")

/-- C18: for the kinds `direct`, `symbol`, `search` and `dbs`, every format
`json` or `csv`, every path or symbol and every query string `q` returned by
`arrangeParams` (on a well-formed map): when `q` is non-empty it neither begins
nor ends with `?` or `&` and `getURL` returns the filled template unchanged;
when `q` is empty the filled template ends in `?` and `getURL` returns it with
exactly that one `?` removed. -/
theorem C18_trim_only_dangling (api api0 : API) (params p2 : Option Params) (q path fmt : GoString)
    (hwf : ∀ m, params = some m → Params.WF m)
    (hq : arrangeParams api0 params = .ok (q, p2))
    (hf : fmt = str "json" ∨ fmt = str "csv") :
    (q ≠ [] →
      (∃ c x, q.head? = some c ∧ q.getLast? = some x ∧ c ≠ chr '?' ∧ c ≠ chr '&' ∧
        x ≠ chr '?' ∧ x ≠ chr '&') ∧
      (getURL api (str "direct") [path, fmt, q]).1 =
        Sprintf (urlTemplate (str "direct")) [path, fmt, q] ∧
      (getURL api (str "symbol") [path, fmt, q]).1 =
        Sprintf (urlTemplate (str "symbol")) [path, fmt, q] ∧
      (getURL api (str "search") [fmt, q]).1 = Sprintf (urlTemplate (str "search")) [fmt, q] ∧
      (getURL api (str "dbs") [fmt, q]).1 = Sprintf (urlTemplate (str "dbs")) [fmt, q]) ∧
    (q = [] →
      (getURL api (str "direct") [path, fmt, q]).1 ++ str "?" =
        Sprintf (urlTemplate (str "direct")) [path, fmt, q] ∧
      (getURL api (str "symbol") [path, fmt, q]).1 ++ str "?" =
        Sprintf (urlTemplate (str "symbol")) [path, fmt, q] ∧
      (getURL api (str "search") [fmt, q]).1 ++ str "?" =
        Sprintf (urlTemplate (str "search")) [fmt, q] ∧
      (getURL api (str "dbs") [fmt, q]).1 ++ str "?" = Sprintf (urlTemplate (str "dbs")) [fmt, q] ∧
      (getURL api (str "direct") [path, fmt, q]).1 =
        str "https://www.quandl.com/api/v3/" ++ path ++ str "." ++ fmt ∧
      (getURL api (str "symbol") [path, fmt, q]).1 =
        str "https://www.quandl.com/api/v3/datasets/" ++ path ++ str "." ++ fmt ∧
      (getURL api (str "search") [fmt, q]).1 = str "https://www.quandl.com/api/v3/datasets." ++ fmt ∧
      (getURL api (str "dbs") [fmt, q]).1 = str "https://www.quandl.com/api/v3/databases." ++ fmt) := by
  have h1 := getURL_three api (str "direct") _ path fmt q Sprintf_direct (by decide) hf
  have h2 := getURL_three api (str "symbol") _ path fmt q Sprintf_symbol (by decide) hf
  have h3 := getURL_two api (str "search") _ fmt q Sprintf_search (by decide) hf
  have h4 := getURL_two api (str "dbs") _ fmt q Sprintf_dbs (by decide) hf
  constructor
  · intro hne
    rcases arrangeParams_cases api0 params p2 q hwf hq with h | ⟨m, hm, rfl⟩
    · exact absurd h hne
    · obtain ⟨c, hc, hc2⟩ := canonicalQuery_head m hm
      obtain ⟨x, hx, hx2⟩ := canonicalQuery_getLast m hm
      refine ⟨⟨c, x, hc, hx, hc2.1, hc2.2, hx2.1, hx2.2⟩, ?_, ?_, ?_, ?_⟩
      · rw [h1.2 x hx hx2, Sprintf_direct]
      · rw [h2.2 x hx hx2, Sprintf_symbol]
      · rw [h3.2 x hx hx2, Sprintf_search]
      · rw [h4.2 x hx hx2, Sprintf_dbs]
  · intro he
    rw [h1.1 he, h2.1 he, h3.1 he, h4.1 he, Sprintf_direct, Sprintf_symbol, Sprintf_search,
      Sprintf_dbs, he]
    simp

/-- Witness for C18: the query of a keyless client on a one-entry map, format
`csv`. -/
theorem C18_trim_only_dangling_witness :
    (getURL (NewAPI (str "") (str "csv")) (str "direct")
        [str "datasets/WIKI/AAPL", str "csv", str "limit=5"]).1 =
      Sprintf (urlTemplate (str "direct")) [str "datasets/WIKI/AAPL", str "csv", str "limit=5"] :=
  ((C18_trim_only_dangling (NewAPI (str "") (str "csv")) (NewAPI (str "") (str "csv"))
    (some [(str "limit", str "5")]) (some [(str "limit", str "5")]) (str "limit=5")
    (str "datasets/WIKI/AAPL") (str "csv")
    (fun m hm => by cases hm; decide) (by decide) (Or.inr rfl)).1 (by decide)).2.1

/-! ## The byte order on strings and the uniqueness of the sorted key list -/

theorem strLt_irrefl (a : GoString) : strLt a a = false := by
  induction a with
  | nil => rfl
  | cons x a ih => simp [strLt, ih]

theorem strLt_asymm (a b : GoString) (h : strLt a b = true) : strLt b a = false := by
  induction a generalizing b with
  | nil => cases b <;> simp [strLt] at h ⊢
  | cons x a ih =>
    cases b with
    | nil => simp [strLt] at h
    | cons y b =>
      simp only [strLt] at h ⊢
      by_cases hxy : x < y
      · have : ¬ y < x := lt_asymm hxy
        simp [this, hxy]
      · by_cases hyx : y < x
        · simp [hxy, hyx] at h
        · simp only [hxy, hyx, if_false] at h ⊢
          exact ih b h

theorem strLt_trans (a b c : GoString) (h1 : strLt a b = true) (h2 : strLt b c = true) :
    strLt a c = true := by
  induction a generalizing b c with
  | nil =>
    cases b with
    | nil => simp [strLt] at h1
    | cons y b =>
      cases c with
      | nil => simp [strLt] at h2
      | cons z c => rfl
  | cons x a ih =>
    cases b with
    | nil => simp [strLt] at h1
    | cons y b =>
      cases c with
      | nil => simp [strLt] at h2
      | cons z c =>
        simp only [strLt] at h1 h2 ⊢
        by_cases hxy : x < y
        · by_cases hyz : y < z
          · simp [lt_trans hxy hyz]
          · by_cases hzy : z < y
            · simp [hyz, hzy] at h2
            · have e : y = z := le_antisymm (not_lt.mp hzy) (not_lt.mp hyz)
              subst e
              simp [hxy]
        · by_cases hyx : y < x
          · simp [hxy, hyx] at h1
          · have e : x = y := le_antisymm (not_lt.mp hyx) (not_lt.mp hxy)
            subst e
            simp only [hxy, if_false] at h1
            by_cases hxz : x < z
            · simp [hxz]
            · by_cases hzx : z < x
              · simp [hxz, hzx] at h2
              · simp only [hxz, hzx, if_false] at h2 ⊢
                exact ih b c h1 h2

theorem strLt_connex (a b : GoString) (h1 : strLt a b = false) (h2 : strLt b a = false) :
    a = b := by
  induction a generalizing b with
  | nil =>
    cases b with
    | nil => rfl
    | cons y b => simp [strLt] at h1
  | cons x a ih =>
    cases b with
    | nil => simp [strLt] at h2
    | cons y b =>
      simp only [strLt] at h1 h2
      by_cases hxy : x < y
      · simp [hxy] at h1
      · by_cases hyx : y < x
        · simp [hyx] at h2
        · have e : x = y := le_antisymm (not_lt.mp hyx) (not_lt.mp hxy)
          subst e
          simp only [hxy, if_false] at h1 h2
          rw [ih b h1 h2]

instance strLe_total : IsTotal GoString (fun a b => strLe a b = true) where
  total a b := by
    unfold strLe
    cases h : strLt b a with
    | false => exact Or.inl rfl
    | true => exact Or.inr (by rw [strLt_asymm b a h]; rfl)

instance strLe_trans : IsTrans GoString (fun a b => strLe a b = true) where
  trans a b c h1 h2 := by
    unfold strLe at *
    cases h : strLt c a with
    | false => rfl
    | true =>
      exfalso
      cases hbc : strLt b c with
      | true =>
        have := strLt_trans b c a hbc h
        rw [this] at h1
        exact Bool.noConfusion h1
      | false =>
        have hcb : strLt c b = false := by
          cases hx : strLt c b with
          | false => rfl
          | true => rw [hx] at h2; exact Bool.noConfusion h2
        have e := strLt_connex b c hbc hcb
        subst e
        rw [h] at h1
        exact Bool.noConfusion h1

instance strLe_antisymm : IsAntisymm GoString (fun a b => strLe a b = true) where
  antisymm a b h1 h2 := by
    unfold strLe at *
    have hba : strLt b a = false := by
      cases hx : strLt b a with
      | false => rfl
      | true => rw [hx] at h1; exact Bool.noConfusion h1
    have hab : strLt a b = false := by
      cases hx : strLt a b with
      | false => rfl
      | true => rw [hx] at h2; exact Bool.noConfusion h2
    exact strLt_connex a b hab hba

theorem sorted_sortKeys (ks : List GoString) :
    List.Sorted (fun a b => strLe a b = true) (sortKeys ks) :=
  List.sorted_insertionSort _ ks

/-- The sorted key list does not depend on the order the keys arrive in. -/
theorem sortKeys_perm (ks ks2 : List GoString) (h : ks.Perm ks2) : sortKeys ks = sortKeys ks2 :=
  List.eq_of_perm_of_sorted
    (((List.perm_insertionSort _ ks).trans h).trans (List.perm_insertionSort _ ks2).symm)
    (sorted_sortKeys ks) (sorted_sortKeys ks2)

/-- With distinct keys the sorted list is strictly ascending in byte order. -/
theorem sortKeys_strict (ks : List GoString) (h : ks.Nodup) :
    List.Sorted (fun a b => strLt a b = true) (sortKeys ks) := by
  have hs := sorted_sortKeys ks
  have hn := nodup_sortKeys ks h
  unfold List.Sorted at *
  rw [List.Nodup] at hn
  refine (hs.and hn).imp ?_
  intro a b hab
  obtain ⟨h1, h2⟩ := hab
  unfold strLe at h1
  cases hx : strLt a b with
  | true => rfl
  | false =>
    exfalso
    have hba : strLt b a = false := by
      cases hy : strLt b a with
      | false => rfl
      | true => rw [hy] at h1; exact Bool.noConfusion h1
    exact h2 (strLt_connex a b hx hba)

theorem Params.mem_iff_get (m : Params) (h : Params.WF m) (k x : GoString) :
    (k, x) ∈ m ↔ Params.get m k = some x := by
  induction m with
  | nil => simp [Params.get]
  | cons kv m ih =>
    obtain ⟨a, b⟩ := kv
    unfold Params.WF at h
    rw [List.map_cons, List.nodup_cons] at h
    by_cases hak : a = k
    · subst hak
      have hnot : (a, x) ∉ m := fun hm => h.1 (List.mem_map.mpr ⟨(a, x), hm, rfl⟩)
      simp only [List.mem_cons, Prod.mk.injEq, true_and, Params.get, if_true, Option.some.injEq,
        hnot, or_false]
      exact eq_comm
    · have hka : ¬ k = a := fun e => hak e.symm
      simp only [List.mem_cons, Prod.mk.injEq, hka, false_and, false_or, Params.get, if_neg hak]
      exact ih h.2

theorem Params.get_perm (m m2 : Params) (h : Params.WF m) (h2 : Params.WF m2) (hp : m.Perm m2)
    (k : GoString) : Params.get m k = Params.get m2 k := by
  cases hg : Params.get m k with
  | some x =>
    have := (Params.mem_iff_get m2 h2 k x).mp (hp.mem_iff.mp ((Params.mem_iff_get m h k x).mpr hg))
    rw [this]
  | none =>
    cases hg2 : Params.get m2 k with
    | none => rfl
    | some x =>
      have := (Params.mem_iff_get m h k x).mp (hp.mem_iff.mpr ((Params.mem_iff_get m2 h2 k x).mpr hg2))
      rw [this] at hg
      exact Option.noConfusion hg

/-- The canonical query depends only on the key set and the lookup function. -/
theorem canonicalQuery_congr (m m2 : Params) (hk : (m.map Prod.fst).Perm (m2.map Prod.fst))
    (hg : ∀ k, Params.get m k = Params.get m2 k) : canonicalQuery m = canonicalQuery m2 := by
  unfold canonicalQuery sortedPairs
  rw [sortKeys_perm _ _ hk]
  simp only [hg]

theorem withAuth_keys_perm (api : API) (m m2 : Params)
    (hk : (m.map Prod.fst).Perm (m2.map Prod.fst)) :
    ((withAuth api m).map Prod.fst).Perm ((withAuth api m2).map Prod.fst) := by
  unfold withAuth
  split
  · rw [Params.keys_set, Params.keys_set]
    by_cases ha : str "auth_token" ∈ m.map Prod.fst
    · rw [if_pos ha, if_pos (hk.mem_iff.mp ha)]
      exact hk
    · rw [if_neg ha, if_neg (fun h => ha (hk.mem_iff.mpr h))]
      exact hk.append_right _
  · exact hk

theorem withAuth_get (api : API) (m m2 : Params) (hg : ∀ k, Params.get m k = Params.get m2 k)
    (k : GoString) : Params.get (withAuth api m) k = Params.get (withAuth api m2) k := by
  unfold withAuth
  split
  · rw [Params.get_set, Params.get_set, hg]
  · exact hg k

theorem sortedPairs_nodup (m : Params) (h : Params.WF m) : (sortedPairs m).Nodup := by
  have hk : ((sortedPairs m).map Prod.fst).Nodup := by
    rw [sortedPairs_keys]; exact nodup_sortKeys _ h
  exact List.Nodup.of_map _ hk

/-- The sorted pairs are the entries of the map, each exactly once. -/
theorem sortedPairs_perm (m : Params) (h : Params.WF m) : (sortedPairs m).Perm m := by
  have hn : m.Nodup := List.Nodup.of_map _ h
  rw [List.perm_ext_iff_of_nodup (sortedPairs_nodup m h) hn]
  intro kv
  obtain ⟨k, x⟩ := kv
  rw [Params.mem_iff_get m h, ← get_sortedPairs,
    Params.mem_iff_get _ (by unfold Params.WF; rw [sortedPairs_keys]; exact nodup_sortKeys _ h)]

/-- C16: for every (well-formed) map, `httpBuildQuery` returns the pairs
`escape(key)=escape(value)` joined by `&`, taken from a list that holds the
entries of the map each exactly once and whose keys ascend strictly in byte
order; consequently two maps with the same entries in different iteration
orders give the same result of `httpBuildQuery` and the same query string of
`arrangeParams`. -/
theorem C16_sorted_deterministic (api : API) (m m2 : Params) (hwf : Params.WF m)
    (hwf2 : Params.WF m2) (hp : m.Perm m2) :
    (∃ pairs : Params, pairs.Perm m ∧
      List.Sorted (fun a b => strLt a b = true) (pairs.map Prod.fst) ∧
      httpBuildQuery (some m) = [chr '&'].intercalate
        (pairs.map (fun kv => QueryEscape kv.1 ++ [chr '='] ++ QueryEscape kv.2))) ∧
    httpBuildQuery (some m) = httpBuildQuery (some m2) ∧
    (∃ q p p2, arrangeParams api (some m) = .ok (q, p) ∧
      arrangeParams api (some m2) = .ok (q, p2)) := by
  have hk : (m.map Prod.fst).Perm (m2.map Prod.fst) := hp.map _
  have hg : ∀ k, Params.get m k = Params.get m2 k := Params.get_perm m m2 hwf hwf2 hp
  refine ⟨⟨sortedPairs m, sortedPairs_perm m hwf, ?_, httpBuildQuery_eq m hwf⟩, ?_, ?_⟩
  · rw [sortedPairs_keys]
    exact sortKeys_strict _ hwf
  · rw [httpBuildQuery_eq m hwf, httpBuildQuery_eq m2 hwf2]
    exact canonicalQuery_congr m m2 hk hg
  · by_cases hne : api.apiKey ≠ str "" ∨ m ≠ []
    · have hne2 : api.apiKey ≠ str "" ∨ m2 ≠ [] :=
        hne.imp_right (fun h e => h (by rw [e] at hp; exact List.perm_nil.mp hp))
      have h2 := arrangeParams_some api m2 hwf2 hne2
      rw [← canonicalQuery_congr _ _ (withAuth_keys_perm api m m2 hk) (withAuth_get api m m2 hg)]
        at h2
      exact ⟨_, _, _, arrangeParams_some api m hwf hne, h2⟩
    · push_neg at hne
      have e2 : m2 = [] := by
        have := hp
        rw [hne.2] at this
        exact List.nil_perm.mp this
      rw [hne.2, e2]
      exact ⟨_, _, _, arrangeParams_empty_nokey api hne.1, arrangeParams_empty_nokey api hne.1⟩

/-- Witness for C16: the same three entries in two iteration orders. -/
theorem C16_sorted_deterministic_witness :
    (∃ pairs : Params,
      pairs.Perm [(str "start_date", str "2020-01-01"), (str "limit", str "5"),
        (str "order", str "asc")] ∧
      List.Sorted (fun a b => strLt a b = true) (pairs.map Prod.fst) ∧
      httpBuildQuery (some [(str "start_date", str "2020-01-01"), (str "limit", str "5"),
          (str "order", str "asc")]) =
        [chr '&'].intercalate
          (pairs.map (fun kv => QueryEscape kv.1 ++ [chr '='] ++ QueryEscape kv.2))) ∧
    httpBuildQuery (some [(str "start_date", str "2020-01-01"), (str "limit", str "5"),
        (str "order", str "asc")]) =
      httpBuildQuery (some [(str "order", str "asc"), (str "start_date", str "2020-01-01"),
        (str "limit", str "5")]) ∧
    (∃ q p p2, arrangeParams (NewAPI (str "abc123") (str ""))
        (some [(str "start_date", str "2020-01-01"), (str "limit", str "5"),
          (str "order", str "asc")]) = .ok (q, p) ∧
      arrangeParams (NewAPI (str "abc123") (str ""))
        (some [(str "order", str "asc"), (str "start_date", str "2020-01-01"),
          (str "limit", str "5")]) = .ok (q, p2)) :=
  C16_sorted_deterministic (NewAPI (str "abc123") (str ""))
    [(str "start_date", str "2020-01-01"), (str "limit", str "5"), (str "order", str "asc")]
    [(str "order", str "asc"), (str "start_date", str "2020-01-01"), (str "limit", str "5")]
    (by decide) (by decide) (by decide)

/-! ## Decoding the response -/

theorem setFieldAt_frame_ID (floatOK : GoString → Bool) (d : Dataset) (i : Nat) (v : JSON)
    (h : i ≠ 0) : (setFieldAt floatOK d i v).1.ID = d.ID := by
  unfold setFieldAt
  split <;> first | rfl | exact absurd rfl h

theorem setFieldAt_frame_DatasetCode (floatOK : GoString → Bool) (d : Dataset) (i : Nat) (v : JSON)
    (h : i ≠ 1) : (setFieldAt floatOK d i v).1.DatasetCode = d.DatasetCode := by
  unfold setFieldAt
  split <;> first | rfl | exact absurd rfl h

theorem setFieldAt_frame_DatabaseCode (floatOK : GoString → Bool) (d : Dataset) (i : Nat) (v : JSON)
    (h : i ≠ 2) : (setFieldAt floatOK d i v).1.DatabaseCode = d.DatabaseCode := by
  unfold setFieldAt
  split <;> first | rfl | exact absurd rfl h

theorem setFieldAt_frame_Name (floatOK : GoString → Bool) (d : Dataset) (i : Nat) (v : JSON)
    (h : i ≠ 3) : (setFieldAt floatOK d i v).1.Name = d.Name := by
  unfold setFieldAt
  split <;> first | rfl | exact absurd rfl h

theorem setFieldAt_frame_Description (floatOK : GoString → Bool) (d : Dataset) (i : Nat) (v : JSON)
    (h : i ≠ 4) : (setFieldAt floatOK d i v).1.Description = d.Description := by
  unfold setFieldAt
  split <;> first | rfl | exact absurd rfl h

theorem setFieldAt_frame_RefreshedAt (floatOK : GoString → Bool) (d : Dataset) (i : Nat) (v : JSON)
    (h : i ≠ 5) : (setFieldAt floatOK d i v).1.RefreshedAt = d.RefreshedAt := by
  unfold setFieldAt
  split <;> first | rfl | exact absurd rfl h

theorem setFieldAt_frame_NewestAvailable (floatOK : GoString → Bool) (d : Dataset) (i : Nat) (v : JSON)
    (h : i ≠ 6) : (setFieldAt floatOK d i v).1.NewestAvailable = d.NewestAvailable := by
  unfold setFieldAt
  split <;> first | rfl | exact absurd rfl h

theorem setFieldAt_frame_OldestAvailableDate (floatOK : GoString → Bool) (d : Dataset) (i : Nat) (v : JSON)
    (h : i ≠ 7) : (setFieldAt floatOK d i v).1.OldestAvailableDate = d.OldestAvailableDate := by
  unfold setFieldAt
  split <;> first | rfl | exact absurd rfl h

theorem setFieldAt_frame_ColumnNames (floatOK : GoString → Bool) (d : Dataset) (i : Nat) (v : JSON)
    (h : i ≠ 8) : (setFieldAt floatOK d i v).1.ColumnNames = d.ColumnNames := by
  unfold setFieldAt
  split <;> first | rfl | exact absurd rfl h

theorem setFieldAt_frame_Frequency (floatOK : GoString → Bool) (d : Dataset) (i : Nat) (v : JSON)
    (h : i ≠ 9) : (setFieldAt floatOK d i v).1.Frequency = d.Frequency := by
  unfold setFieldAt
  split <;> first | rfl | exact absurd rfl h

theorem setFieldAt_frame_Type_ (floatOK : GoString → Bool) (d : Dataset) (i : Nat) (v : JSON)
    (h : i ≠ 10) : (setFieldAt floatOK d i v).1.Type_ = d.Type_ := by
  unfold setFieldAt
  split <;> first | rfl | exact absurd rfl h

theorem setFieldAt_frame_Premium (floatOK : GoString → Bool) (d : Dataset) (i : Nat) (v : JSON)
    (h : i ≠ 11) : (setFieldAt floatOK d i v).1.Premium = d.Premium := by
  unfold setFieldAt
  split <;> first | rfl | exact absurd rfl h

theorem setFieldAt_frame_Limit (floatOK : GoString → Bool) (d : Dataset) (i : Nat) (v : JSON)
    (h : i ≠ 12) : (setFieldAt floatOK d i v).1.Limit = d.Limit := by
  unfold setFieldAt
  split <;> first | rfl | exact absurd rfl h

theorem setFieldAt_frame_Transform (floatOK : GoString → Bool) (d : Dataset) (i : Nat) (v : JSON)
    (h : i ≠ 13) : (setFieldAt floatOK d i v).1.Transform = d.Transform := by
  unfold setFieldAt
  split <;> first | rfl | exact absurd rfl h

theorem setFieldAt_frame_ColumnIndex (floatOK : GoString → Bool) (d : Dataset) (i : Nat) (v : JSON)
    (h : i ≠ 14) : (setFieldAt floatOK d i v).1.ColumnIndex = d.ColumnIndex := by
  unfold setFieldAt
  split <;> first | rfl | exact absurd rfl h

theorem setFieldAt_frame_StartDate (floatOK : GoString → Bool) (d : Dataset) (i : Nat) (v : JSON)
    (h : i ≠ 15) : (setFieldAt floatOK d i v).1.StartDate = d.StartDate := by
  unfold setFieldAt
  split <;> first | rfl | exact absurd rfl h

theorem setFieldAt_frame_EndDate (floatOK : GoString → Bool) (d : Dataset) (i : Nat) (v : JSON)
    (h : i ≠ 16) : (setFieldAt floatOK d i v).1.EndDate = d.EndDate := by
  unfold setFieldAt
  split <;> first | rfl | exact absurd rfl h

theorem setFieldAt_frame_Data (floatOK : GoString → Bool) (d : Dataset) (i : Nat) (v : JSON)
    (h : i ≠ 17) : (setFieldAt floatOK d i v).1.Data = d.Data := by
  unfold setFieldAt
  split <;> first | rfl | exact absurd rfl h

theorem setFieldAt_frame_Collapse (floatOK : GoString → Bool) (d : Dataset) (i : Nat) (v : JSON)
    (h : i ≠ 18) : (setFieldAt floatOK d i v).1.Collapse = d.Collapse := by
  unfold setFieldAt
  split <;> first | rfl | exact absurd rfl h

theorem setFieldAt_frame_Order (floatOK : GoString → Bool) (d : Dataset) (i : Nat) (v : JSON)
    (h : i ≠ 19) : (setFieldAt floatOK d i v).1.Order = d.Order := by
  unfold setFieldAt
  split <;> first | rfl | exact absurd rfl h

theorem setFieldAt_frame_DatabaseID (floatOK : GoString → Bool) (d : Dataset) (i : Nat) (v : JSON)
    (h : i ≠ 20) : (setFieldAt floatOK d i v).1.DatabaseID = d.DatabaseID := by
  unfold setFieldAt
  split <;> first | rfl | exact absurd rfl h

theorem findTag_some (tags : List GoString) (key : GoString) (i j : Nat)
    (h : findTag tags key i = some j) :
    i ≤ j ∧ ∃ tag, tags[j - i]? = some tag ∧ equalFold tag key = true := by
  induction tags generalizing i with
  | nil => exact Option.noConfusion h
  | cons tag rest ih =>
    unfold findTag at h
    by_cases hm : equalFold tag key = true
    · rw [if_pos hm] at h
      cases h
      exact ⟨le_refl _, tag, by simp, hm⟩
    · rw [if_neg hm] at h
      obtain ⟨hle, tag2, h2, h3⟩ := ih (i + 1) h
      refine ⟨by omega, tag2, ?_, h3⟩
      have e : j - i = (j - (i + 1)) + 1 := by omega
      rw [e, List.getElem?_cons_succ]
      exact h2

/-- A member whose key does not match the tag of a field leaves that field as
it was. -/
theorem setField_frame {α : Type} (floatOK : GoString → Bool) (proj : Dataset → α) (j : Nat)
    (tag : GoString) (htag : datasetTags[j]? = some tag)
    (hproj : ∀ d i v, i ≠ j → proj (setFieldAt floatOK d i v).1 = proj d)
    (d : Dataset) (key : GoString) (v : JSON) (h : equalFold tag key = false) :
    proj (setField floatOK d key v).1 = proj d := by
  unfold setField
  cases hf : findTag datasetTags key 0 with
  | none => rfl
  | some i =>
    by_cases hij : i = j
    · exfalso
      obtain ⟨_, tag2, h2, h3⟩ := findTag_some _ _ _ _ hf
      rw [Nat.sub_zero, hij, htag] at h2
      cases h2
      rw [h] at h3
      exact Bool.noConfusion h3
    · exact hproj d i v hij

theorem fold_frame {α : Type} (floatOK : GoString → Bool) (proj : Dataset → α) (j : Nat)
    (tag : GoString) (htag : datasetTags[j]? = some tag)
    (hproj : ∀ d i v, i ≠ j → proj (setFieldAt floatOK d i v).1 = proj d)
    (ms : List (GoString × JSON)) (hms : ∀ kv ∈ ms, equalFold tag kv.1 = false)
    (acc : Dataset × Option JSONError) :
    proj (ms.foldl (fun acc kv =>
        ((setField floatOK acc.1 kv.1 kv.2).1,
          firstErr acc.2 (setField floatOK acc.1 kv.1 kv.2).2)) acc).1 = proj acc.1 := by
  induction ms generalizing acc with
  | nil => rfl
  | cons kv ms ih =>
    rw [List.foldl_cons, ih (fun x hx => hms x (by simp [hx]))]
    exact setField_frame floatOK proj j tag htag hproj _ _ _ (hms kv (by simp))

/-! ### A well-typed member records no error -/

theorem firstErr_none : firstErr none none = none := rfl

theorem firstErr_eq_none (a b : Option JSONError) (ha : a = none) (hb : b = none) :
    firstErr a b = none := by
  rw [ha, hb]; rfl

mutual
theorem anyErr_of_floatsOK (floatOK : GoString → Bool) :
    ∀ v : JSON, floatsOK floatOK v = true → anyErr floatOK v = none
  | .null, _ => by simp [anyErr]
  | .bool _, _ => by simp [anyErr]
  | .string _, _ => by simp [anyErr]
  | .number lit, h => by
    simp only [floatsOK] at h
    simp [anyErr, h]
  | .array items, h => by
    simp only [floatsOK] at h
    simp only [anyErr]
    exact itemsErr_of_itemsOK floatOK items h
  | .object ms, h => by
    simp only [floatsOK] at h
    simp only [anyErr]
    exact membersErr_of_membersOK floatOK ms h
theorem itemsErr_of_itemsOK (floatOK : GoString → Bool) :
    ∀ vs : List JSON, itemsOK floatOK vs = true → itemsErr floatOK vs = none
  | [], _ => by simp [itemsErr]
  | v :: vs, h => by
    simp only [itemsOK, Bool.and_eq_true] at h
    simp only [itemsErr]
    exact firstErr_eq_none _ _ (anyErr_of_floatsOK floatOK v h.1)
      (itemsErr_of_itemsOK floatOK vs h.2)
theorem membersErr_of_membersOK (floatOK : GoString → Bool) :
    ∀ ms : List (GoString × JSON), membersOK floatOK ms = true → membersErr floatOK ms = none
  | [], _ => by simp [membersErr]
  | (_, v) :: ms, h => by
    simp only [membersOK, Bool.and_eq_true] at h
    simp only [membersErr]
    exact firstErr_eq_none _ _ (anyErr_of_floatsOK floatOK v h.1)
      (membersErr_of_membersOK floatOK ms h.2)
end

theorem itemsOK_mem (floatOK : GoString → Bool) (vs : List JSON) (h : itemsOK floatOK vs = true)
    (v : JSON) (hv : v ∈ vs) : floatsOK floatOK v = true := by
  induction vs with
  | nil => simp at hv
  | cons a vs ih =>
    simp only [itemsOK, Bool.and_eq_true] at h
    rcases List.mem_cons.mp hv with rfl | hv
    · exact h.1
    · exact ih h.2 hv

theorem decodeItems_ok {α : Type} (zero : α) (decElem : α → JSON → α × Option JSONError)
    (items : List JSON) (h : ∀ item ∈ items, ∀ b, (decElem b item).2 = none) (backing : List α) :
    (decodeItems zero decElem backing items).2 = none := by
  induction items generalizing backing with
  | nil => cases backing <;> rfl
  | cons item items ih =>
    have h2 : ∀ x ∈ items, ∀ b, (decElem b x).2 = none := fun x hx => h x (by simp [hx])
    cases backing with
    | nil =>
      simp only [decodeItems]
      exact firstErr_eq_none _ _ (h item (by simp) zero) (ih h2 [])
    | cons b backing =>
      simp only [decodeItems]
      exact firstErr_eq_none _ _ (h item (by simp) b) (ih h2 backing)

theorem decodeSlice_array_ok {α : Type} (zero : α) (decElem : α → JSON → α × Option JSONError)
    (goType : GoString) (cur : Option (GoSlice α)) (items : List JSON)
    (h : ∀ item ∈ items, ∀ b, (decElem b item).2 = none) :
    (decodeSlice zero decElem goType cur (.array items)).2 = none := by
  cases items with
  | nil => rfl
  | cons item items =>
    simp only [decodeSlice]
    exact decodeItems_ok zero decElem (item :: items) h _

theorem decodeString_ok (cur : GoString) (v : JSON) (h : isStringOrNull v = true) :
    (decodeString cur v).2 = none := by
  cases v <;> first | rfl | exact Bool.noConfusion h

theorem decodeRow_ok (floatOK : GoString → Bool) (cur : Option (GoSlice JSON)) (v : JSON)
    (h : isRowOrNull floatOK v = true) : (decodeRow floatOK cur v).2 = none := by
  cases v with
  | null => rfl
  | array cells =>
    simp only [isRowOrNull] at h
    unfold decodeRow
    apply decodeSlice_array_ok
    intro item hitem b
    simp only [decodeCell]
    exact anyErr_of_floatsOK floatOK item (itemsOK_mem floatOK cells h item hitem)
  | bool _ => exact Bool.noConfusion h
  | number _ => exact Bool.noConfusion h
  | string _ => exact Bool.noConfusion h
  | object _ => exact Bool.noConfusion h

theorem decodeInt_fits (floatOK : GoString → Bool) (cur : Int) (v : JSON)
    (h : fits floatOK .int v = true) : (decodeInt cur v).2 = none := by
  cases v with
  | null => rfl
  | number lit =>
    simp only [fits] at h
    simp only [decodeInt]
    cases hp : parseInt64 lit with
    | none => rw [hp] at h; exact Bool.noConfusion h
    | some i => rfl
  | bool _ => exact Bool.noConfusion h
  | string _ => exact Bool.noConfusion h
  | array _ => exact Bool.noConfusion h
  | object _ => exact Bool.noConfusion h

theorem decodeString_fits (floatOK : GoString → Bool) (cur : GoString) (v : JSON)
    (h : fits floatOK .string v = true) : (decodeString cur v).2 = none := by
  cases v <;> first | rfl | exact Bool.noConfusion h

theorem decodeBool_fits (floatOK : GoString → Bool) (cur : Bool) (v : JSON)
    (h : fits floatOK .bool v = true) : (decodeBool cur v).2 = none := by
  cases v <;> first | rfl | exact Bool.noConfusion h

theorem decodeStrings_fits (floatOK : GoString → Bool) (cur : Option (GoSlice GoString)) (v : JSON)
    (h : fits floatOK .strings v = true) : (decodeStrings cur v).2 = none := by
  cases v with
  | null => rfl
  | array items =>
    simp only [fits, List.all_eq_true] at h
    unfold decodeStrings
    apply decodeSlice_array_ok
    intro item hitem b
    exact decodeString_ok b item (h item hitem)
  | bool _ => exact Bool.noConfusion h
  | number _ => exact Bool.noConfusion h
  | string _ => exact Bool.noConfusion h
  | object _ => exact Bool.noConfusion h

theorem decodeRows_fits (floatOK : GoString → Bool)
    (cur : Option (GoSlice (Option (GoSlice JSON)))) (v : JSON)
    (h : fits floatOK .rows v = true) : (decodeRows floatOK cur v).2 = none := by
  cases v with
  | null => rfl
  | array rows =>
    simp only [fits, List.all_eq_true] at h
    unfold decodeRows
    apply decodeSlice_array_ok
    intro item hitem b
    exact decodeRow_ok floatOK b item (h item hitem)
  | bool _ => exact Bool.noConfusion h
  | number _ => exact Bool.noConfusion h
  | string _ => exact Bool.noConfusion h
  | object _ => exact Bool.noConfusion h

/-- Decoding `[null, "c"]` into a slice that holds `["a", "b"]` keeps the `a`:
a `null` element leaves the element of the slice at hand as it is. -/
theorem decodeStrings_reuse :
    GoSlice.elems (decodeStrings
      (decodeStrings none (.array [.string (str "a"), .string (str "b")])).1
      (.array [.null, .string (str "c")])).1 = [str "a", str "c"] := rfl

/-- A value that has the type of the field number `j` is decoded into that
field without an error. -/
theorem setFieldAt_ok (floatOK : GoString → Bool) (d : Dataset) (j : Nat) (v : JSON)
    (kind : FieldKind) (hk : datasetKinds[j]? = some kind) (hfit : fits floatOK kind v = true) :
    (setFieldAt floatOK d j v).2 = none := by
  unfold setFieldAt
  split <;> first
    | (obtain rfl : FieldKind.int = kind := Option.some.inj hk
       exact decodeInt_fits floatOK _ v hfit)
    | (obtain rfl : FieldKind.string = kind := Option.some.inj hk
       exact decodeString_fits floatOK _ v hfit)
    | (obtain rfl : FieldKind.bool = kind := Option.some.inj hk
       exact decodeBool_fits floatOK _ v hfit)
    | (obtain rfl : FieldKind.strings = kind := Option.some.inj hk
       exact decodeStrings_fits floatOK _ v hfit)
    | (obtain rfl : FieldKind.rows = kind := Option.some.inj hk
       exact decodeRows_fits floatOK _ v hfit)
    | rfl

theorem tags_kinds_length : datasetTags.length = datasetKinds.length := by decide

/-- A well-typed member is decoded without an error. -/
theorem setField_ok (floatOK : GoString → Bool) (d : Dataset) (kv : GoString × JSON)
    (h : memberFits floatOK kv = true) : (setField floatOK d kv.1 kv.2).2 = none := by
  unfold setField
  cases hf : findTag datasetTags kv.1 0 with
  | none => rfl
  | some j =>
    obtain ⟨_, tag, htag, hm⟩ := findTag_some _ _ _ _ hf
    rw [Nat.sub_zero] at htag
    obtain ⟨hj, _⟩ := List.getElem?_eq_some.mp htag
    have hj2 : j < datasetKinds.length := by rw [← tags_kinds_length]; exact hj
    have hkind : datasetKinds[j]? = some (datasetKinds[j]) := List.getElem?_eq_getElem hj2
    have hz : (List.zip datasetTags datasetKinds)[j]? = some (tag, datasetKinds[j]) :=
      List.getElem?_zip_eq_some.mpr ⟨htag, hkind⟩
    unfold memberFits at h
    rw [List.all_eq_true] at h
    have h2 := h _ (List.getElem?_mem hz)
    simp only [hm, Bool.not_true, Bool.false_or] at h2
    exact setFieldAt_ok floatOK d j kv.2 _ hkind h2

theorem fold_noerr (floatOK : GoString → Bool) (ms : List (GoString × JSON))
    (hok : ∀ kv ∈ ms, memberFits floatOK kv = true) (acc : Dataset × Option JSONError) :
    (ms.foldl (fun acc kv =>
        ((setField floatOK acc.1 kv.1 kv.2).1,
          firstErr acc.2 (setField floatOK acc.1 kv.1 kv.2).2)) acc).2 = acc.2 := by
  induction ms generalizing acc with
  | nil => rfl
  | cons kv ms ih =>
    rw [List.foldl_cons, ih (fun x hx => hok x (by simp [hx]))]
    simp only [setField_ok floatOK acc.1 kv (hok kv (by simp))]
    cases acc.2 <;> rfl

theorem decodeDataset_object (floatOK : GoString → Bool) (cur : Dataset)
    (ms : List (GoString × JSON)) :
    decodeDataset floatOK cur (.object ms) =
      ms.foldl (fun acc kv =>
        ((setField floatOK acc.1 kv.1 kv.2).1,
          firstErr acc.2 (setField floatOK acc.1 kv.1 kv.2).2)) (cur, none) := rfl

theorem datasetMembers_skip (k : GoString) (v : JSON) (rest : List (GoString × JSON))
    (h : equalFold (str "dataset") k = false) :
    datasetMembers ((k, v) :: rest) = datasetMembers rest := by
  cases v <;> simp [datasetMembers, h]

/-- On a well-typed body, `json.Unmarshal` returns no error and leaves in
`d.Dataset` what decoding the members of the `dataset` objects one after the
other leaves. -/
theorem unmarshal_flat (floatOK : GoString → Bool) (tops : List (GoString × JSON))
    (htop : ∀ kv ∈ tops, topFits kv = true)
    (hfit : ∀ kv ∈ datasetMembers tops, memberFits floatOK kv = true) (d : Dataset) :
    tops.foldl (fun acc kv =>
        ((setTop floatOK acc.1 kv.1 kv.2).1, firstErr acc.2 (setTop floatOK acc.1 kv.1 kv.2).2))
        (({ Dataset := d } : JSONData), none) =
      (({ Dataset := ((datasetMembers tops).foldl (fun acc kv =>
          ((setField floatOK acc.1 kv.1 kv.2).1,
            firstErr acc.2 (setField floatOK acc.1 kv.1 kv.2).2)) (d, none)).1 } : JSONData),
        none) := by
  induction tops generalizing d with
  | nil => rfl
  | cons kv tops ih =>
    obtain ⟨k, v⟩ := kv
    have htop2 : ∀ x ∈ tops, topFits x = true := fun x hx => htop x (by simp [hx])
    rw [List.foldl_cons]
    cases hk : equalFold (str "dataset") k with
    | false =>
      rw [datasetMembers_skip k v tops hk] at hfit ⊢
      have e : setTop floatOK ({ Dataset := d } : JSONData) k v = ({ Dataset := d }, none) := by
        simp [setTop, hk]
      simp only [e, firstErr_none]
      exact ih htop2 hfit d
    | true =>
      have ht := htop (k, v) (by simp)
      simp only [topFits, hk, Bool.not_true, Bool.false_or] at ht
      cases v with
      | null =>
        have e : setTop floatOK ({ Dataset := d } : JSONData) k .null = ({ Dataset := d }, none) := by
          simp [setTop, hk, decodeDataset]
        have e2 : datasetMembers ((k, JSON.null) :: tops) = datasetMembers tops := rfl
        rw [e2] at hfit ⊢
        simp only [e, firstErr_none]
        exact ih htop2 hfit d
      | object ms =>
        have e2 : datasetMembers ((k, JSON.object ms) :: tops) = ms ++ datasetMembers tops := by
          simp [datasetMembers, hk]
        rw [e2] at hfit ⊢
        have hms : ∀ x ∈ ms, memberFits floatOK x = true := fun x hx => hfit x (by simp [hx])
        have hrest : ∀ x ∈ datasetMembers tops, memberFits floatOK x = true :=
          fun x hx => hfit x (by simp [hx])
        have herr := fold_noerr floatOK ms hms (d, none)
        have e : setTop floatOK ({ Dataset := d } : JSONData) k (.object ms) =
            (({ Dataset := (decodeDataset floatOK d (.object ms)).1 } : JSONData), none) := by
          simp only [setTop, hk, if_true, decodeDataset_object, herr]
        simp only [e, firstErr_none]
        rw [ih htop2 hrest, List.foldl_append, decodeDataset_object]
        have e3 : List.foldl (fun acc kv =>
            ((setField floatOK acc.1 kv.1 kv.2).1,
              firstErr acc.2 (setField floatOK acc.1 kv.1 kv.2).2)) (d, none) ms =
            ((List.foldl (fun acc kv =>
              ((setField floatOK acc.1 kv.1 kv.2).1,
                firstErr acc.2 (setField floatOK acc.1 kv.1 kv.2).2)) (d, none) ms).1, none) := by
          exact Prod.ext rfl herr
        rw [← e3]
      | bool _ => exact Bool.noConfusion ht
      | number _ => exact Bool.noConfusion ht
      | string _ => exact Bool.noConfusion ht
      | array _ => exact Bool.noConfusion ht

theorem getDataDecode_flat (floatOK : GoString → Bool) (tops : List (GoString × JSON))
    (htop : ∀ kv ∈ tops, topFits kv = true)
    (hfit : ∀ kv ∈ datasetMembers tops, memberFits floatOK kv = true) :
    getDataDecode floatOK (.object tops) =
      .ok ((datasetMembers tops).foldl (fun acc kv =>
        ((setField floatOK acc.1 kv.1 kv.2).1,
          firstErr acc.2 (setField floatOK acc.1 kv.1 kv.2).2)) (Dataset.zero, none)).1 := by
  have e : unmarshalJSONData floatOK { Dataset := Dataset.zero } (.object tops) = _ :=
    unmarshal_flat floatOK tops htop hfit Dataset.zero
  unfold getDataDecode
  simp only [e]

/-- The last member that matches a tag decides the field. -/
theorem fold_last {α : Type} (floatOK : GoString → Bool) (proj : Dataset → α) (j : Nat)
    (tag : GoString) (htag : datasetTags[j]? = some tag)
    (hproj : ∀ d i v, i ≠ j → proj (setFieldAt floatOK d i v).1 = proj d) (x : α)
    (a b : List (GoString × JSON)) (k : GoString) (v : JSON)
    (hset : ∀ d, proj (setField floatOK d k v).1 = x)
    (hb : ∀ kv ∈ b, equalFold tag kv.1 = false) (acc : Dataset × Option JSONError) :
    proj ((a ++ (k, v) :: b).foldl (fun acc kv =>
        ((setField floatOK acc.1 kv.1 kv.2).1,
          firstErr acc.2 (setField floatOK acc.1 kv.1 kv.2).2)) acc).1 = x := by
  rw [List.foldl_append, List.foldl_cons, fold_frame floatOK proj j tag htag hproj b hb]
  exact hset _

theorem tag_id : datasetTags[0]? = some (str "id") := rfl

theorem tag_dataset_code : datasetTags[1]? = some (str "dataset_code") := rfl

theorem setField_id (floatOK : GoString → Bool) (d : Dataset) (key : GoString) (lit : GoString)
    (i : Int) (h : equalFold (str "id") key = true) (hi : parseInt64 lit = some i) :
    (setField floatOK d key (.number lit)).1.ID = i := by
  have hf : findTag datasetTags key 0 = some 0 := by
    unfold datasetTags
    rw [findTag, if_pos h]
  unfold setField
  rw [hf]
  simp only [setFieldAt, decodeInt, hi]

theorem equalFold_head (n c : Byte) (ns cs : GoString) (h : equalFold (n :: ns) (c :: cs) = true) :
    foldByte n = foldByte c ∨ foldByte n = chr 's' ∨ foldByte n = chr 'k' := by
  unfold equalFold at h
  simp only [Bool.or_eq_true, Bool.and_eq_true, decide_eq_true_eq] at h
  rcases h with (h | h) | h
  · exact Or.inl h.1
  · exact Or.inr (Or.inl h.1)
  · exact Or.inr (Or.inr h.1)

/-- A key that matches the tag `dataset_code` does not match the tag `id`. -/
theorem not_id_of_dataset_code (key : GoString)
    (h : equalFold (str "dataset_code") key = true) : equalFold (str "id") key = false := by
  have e1 : str "dataset_code" = chr 'd' :: str "ataset_code" := by decide
  have e2 : str "id" = chr 'i' :: [chr 'd'] := by decide
  cases key with
  | nil => rw [e2]; rfl
  | cons c cs =>
    cases hx : equalFold (str "id") (c :: cs) with
    | false => rfl
    | true =>
      exfalso
      rw [e1] at h
      rw [e2] at hx
      have h1 := equalFold_head _ _ _ _ h
      have h2 := equalFold_head _ _ _ _ hx
      have d1 : foldByte (chr 'd') ≠ chr 's' := by decide
      have d2 : foldByte (chr 'd') ≠ chr 'k' := by decide
      have i1 : foldByte (chr 'i') ≠ chr 's' := by decide
      have i2 : foldByte (chr 'i') ≠ chr 'k' := by decide
      have di : foldByte (chr 'd') ≠ foldByte (chr 'i') := by decide
      rcases h1 with h1 | h1 | h1
      · rcases h2 with h2 | h2 | h2
        · exact di (h1.trans h2.symm)
        · exact i1 h2
        · exact i2 h2
      · exact d1 h1
      · exact d2 h1

theorem setField_dataset_code (floatOK : GoString → Bool) (d : Dataset) (key s : GoString)
    (h : equalFold (str "dataset_code") key = true) :
    (setField floatOK d key (.string s)).1.DatasetCode = s := by
  have hn : ¬ equalFold (str "id") key = true := by
    rw [not_id_of_dataset_code key h]; exact Bool.false_ne_true
  have hf : findTag datasetTags key 0 = some 1 := by
    unfold datasetTags
    rw [findTag, if_neg hn, findTag, if_pos h]
  unfold setField
  rw [hf]
  simp only [setFieldAt, decodeString]

/-- C14 fails as stated, on two bodies whose `dataset` object holds `"id": 1`
and `"dataset_code": "AAPL"`: with a further member `"premium": "yes"`,
`json.Unmarshal` returns the type error of a string stored into a `bool`, and
`getData` ends in `log.Fatal` instead of yielding a `Dataset`; with a further
member `"ID": 2`, which matches the same field, the `Dataset` has `ID = 2`. -/
theorem C14_counterexample :
    getDataDecode (fun _ => true)
      (.object [(str "dataset", .object [(str "id", .number (str "1")),
        (str "dataset_code", .string (str "AAPL")), (str "premium", .string (str "yes"))])]) =
      .error (.fatalJSON (.typeError (str "string") (str "bool"))) ∧
    ∃ d, getDataDecode (fun _ => true)
      (.object [(str "dataset", .object [(str "id", .number (str "1")),
        (str "dataset_code", .string (str "AAPL")), (str "ID", .number (str "2"))])]) = .ok d ∧
      d.ID = 2 :=
  ⟨rfl, _, rfl, rfl⟩

/-- C14 (amended): for every response body that scans to a JSON object in
which every top-level member matching `dataset` is an object or `null`, every
member of those objects has, for each `Dataset` field whose tag its key
matches, a value of that field's type (or `null`), the last of these members
to match `id` is the number `1` and the last to match `dataset_code` is the
string `AAPL`: the decoding step of `getData` returns a `Dataset` with
`ID = 1` and `DatasetCode = "AAPL"`, and every other field whose tag no member
matches is at its zero value. -/
theorem C14_decode_unwraps (floatOK : GoString → Bool) (tops a b a2 b2 : List (GoString × JSON))
    (k k2 : GoString)
    (htop : ∀ kv ∈ tops, topFits kv = true)
    (hfit : ∀ kv ∈ datasetMembers tops, memberFits floatOK kv = true)
    (hid : datasetMembers tops = a ++ (k, .number (str "1")) :: b)
    (hk : equalFold (str "id") k = true)
    (hb : ∀ kv ∈ b, equalFold (str "id") kv.1 = false)
    (hdc : datasetMembers tops = a2 ++ (k2, .string (str "AAPL")) :: b2)
    (hk2 : equalFold (str "dataset_code") k2 = true)
    (hb2 : ∀ kv ∈ b2, equalFold (str "dataset_code") kv.1 = false) :
    ∃ d, getDataDecode floatOK (.object tops) = .ok d ∧
      d.ID = 1 ∧ d.DatasetCode = str "AAPL" ∧
      ((∀ kv ∈ datasetMembers tops, equalFold (str "database_code") kv.1 = false) → d.DatabaseCode = []) ∧
      ((∀ kv ∈ datasetMembers tops, equalFold (str "name") kv.1 = false) → d.Name = []) ∧
      ((∀ kv ∈ datasetMembers tops, equalFold (str "description") kv.1 = false) → d.Description = []) ∧
      ((∀ kv ∈ datasetMembers tops, equalFold (str "refreshed_at") kv.1 = false) → d.RefreshedAt = []) ∧
      ((∀ kv ∈ datasetMembers tops, equalFold (str "newest_available_date") kv.1 = false) → d.NewestAvailable = []) ∧
      ((∀ kv ∈ datasetMembers tops, equalFold (str "oldest_available_date") kv.1 = false) → d.OldestAvailableDate = []) ∧
      ((∀ kv ∈ datasetMembers tops, equalFold (str "column_names") kv.1 = false) → d.ColumnNames = none) ∧
      ((∀ kv ∈ datasetMembers tops, equalFold (str "frequency") kv.1 = false) → d.Frequency = []) ∧
      ((∀ kv ∈ datasetMembers tops, equalFold (str "type") kv.1 = false) → d.Type_ = []) ∧
      ((∀ kv ∈ datasetMembers tops, equalFold (str "premium") kv.1 = false) → d.Premium = false) ∧
      ((∀ kv ∈ datasetMembers tops, equalFold (str "limit") kv.1 = false) → d.Limit = []) ∧
      ((∀ kv ∈ datasetMembers tops, equalFold (str "transform") kv.1 = false) → d.Transform = []) ∧
      ((∀ kv ∈ datasetMembers tops, equalFold (str "column_index") kv.1 = false) → d.ColumnIndex = []) ∧
      ((∀ kv ∈ datasetMembers tops, equalFold (str "start_date") kv.1 = false) → d.StartDate = []) ∧
      ((∀ kv ∈ datasetMembers tops, equalFold (str "end_date") kv.1 = false) → d.EndDate = []) ∧
      ((∀ kv ∈ datasetMembers tops, equalFold (str "data") kv.1 = false) → d.Data = none) ∧
      ((∀ kv ∈ datasetMembers tops, equalFold (str "collapse") kv.1 = false) → d.Collapse = []) ∧
      ((∀ kv ∈ datasetMembers tops, equalFold (str "order") kv.1 = false) → d.Order = []) ∧
      ((∀ kv ∈ datasetMembers tops, equalFold (str "database_id") kv.1 = false) → d.DatabaseID = 0) := by
  refine ⟨_, getDataDecode_flat floatOK tops htop hfit, ?_, ?_,
    (fun h => (fold_frame floatOK (fun d => d.DatabaseCode) 2 _ rfl
      (setFieldAt_frame_DatabaseCode floatOK) _ h _).trans rfl),
    (fun h => (fold_frame floatOK (fun d => d.Name) 3 _ rfl
      (setFieldAt_frame_Name floatOK) _ h _).trans rfl),
    (fun h => (fold_frame floatOK (fun d => d.Description) 4 _ rfl
      (setFieldAt_frame_Description floatOK) _ h _).trans rfl),
    (fun h => (fold_frame floatOK (fun d => d.RefreshedAt) 5 _ rfl
      (setFieldAt_frame_RefreshedAt floatOK) _ h _).trans rfl),
    (fun h => (fold_frame floatOK (fun d => d.NewestAvailable) 6 _ rfl
      (setFieldAt_frame_NewestAvailable floatOK) _ h _).trans rfl),
    (fun h => (fold_frame floatOK (fun d => d.OldestAvailableDate) 7 _ rfl
      (setFieldAt_frame_OldestAvailableDate floatOK) _ h _).trans rfl),
    (fun h => (fold_frame floatOK (fun d => d.ColumnNames) 8 _ rfl
      (setFieldAt_frame_ColumnNames floatOK) _ h _).trans rfl),
    (fun h => (fold_frame floatOK (fun d => d.Frequency) 9 _ rfl
      (setFieldAt_frame_Frequency floatOK) _ h _).trans rfl),
    (fun h => (fold_frame floatOK (fun d => d.Type_) 10 _ rfl
      (setFieldAt_frame_Type_ floatOK) _ h _).trans rfl),
    (fun h => (fold_frame floatOK (fun d => d.Premium) 11 _ rfl
      (setFieldAt_frame_Premium floatOK) _ h _).trans rfl),
    (fun h => (fold_frame floatOK (fun d => d.Limit) 12 _ rfl
      (setFieldAt_frame_Limit floatOK) _ h _).trans rfl),
    (fun h => (fold_frame floatOK (fun d => d.Transform) 13 _ rfl
      (setFieldAt_frame_Transform floatOK) _ h _).trans rfl),
    (fun h => (fold_frame floatOK (fun d => d.ColumnIndex) 14 _ rfl
      (setFieldAt_frame_ColumnIndex floatOK) _ h _).trans rfl),
    (fun h => (fold_frame floatOK (fun d => d.StartDate) 15 _ rfl
      (setFieldAt_frame_StartDate floatOK) _ h _).trans rfl),
    (fun h => (fold_frame floatOK (fun d => d.EndDate) 16 _ rfl
      (setFieldAt_frame_EndDate floatOK) _ h _).trans rfl),
    (fun h => (fold_frame floatOK (fun d => d.Data) 17 _ rfl
      (setFieldAt_frame_Data floatOK) _ h _).trans rfl),
    (fun h => (fold_frame floatOK (fun d => d.Collapse) 18 _ rfl
      (setFieldAt_frame_Collapse floatOK) _ h _).trans rfl),
    (fun h => (fold_frame floatOK (fun d => d.Order) 19 _ rfl
      (setFieldAt_frame_Order floatOK) _ h _).trans rfl),
    (fun h => (fold_frame floatOK (fun d => d.DatabaseID) 20 _ rfl
      (setFieldAt_frame_DatabaseID floatOK) _ h _).trans rfl)⟩
  · rw [hid]
    exact fold_last floatOK (fun d => d.ID) 0 _ tag_id (setFieldAt_frame_ID floatOK) 1 a b k _
      (fun d => setField_id floatOK d k (str "1") 1 hk (by decide)) hb _
  · rw [hdc]
    exact fold_last floatOK (fun d => d.DatasetCode) 1 _ tag_dataset_code
      (setFieldAt_frame_DatasetCode floatOK) (str "AAPL") a2 b2 k2 _
      (fun d => setField_dataset_code floatOK d k2 (str "AAPL") hk2) hb2 _

/-- Witness for C14 (amended): a body with the top-level members `meta` (null)
and `dataset`, the latter holding `ID` = 1, `dataset_code` = AAPL, `name` =
Apple, `column_names` = [null, Date] and an unknown member `extra`; it
decodes with `ID = 1`, `DatasetCode = "AAPL"` and, no member matching
`premium` or `data`, with `Premium = false` and `Data = nil`. -/
theorem C14_decode_unwraps_witness :
    ∃ d, getDataDecode (fun _ => true)
        (.object [(str "meta", .null), (str "dataset", .object
          [(str "ID", .number (str "1")), (str "dataset_code", .string (str "AAPL")),
            (str "name", .string (str "Apple")),
            (str "column_names", .array [.null, .string (str "Date")]),
            (str "extra", .array [.number (str "1.5")])])]) = .ok d ∧
      d.ID = 1 ∧ d.DatasetCode = str "AAPL" ∧ d.Premium = false ∧ d.Data = none := by
  obtain ⟨d, h1, h2, h3, _, _, _, _, _, _, _, _, _, h12, _, _, _, _, _, h18, _⟩ :=
    C14_decode_unwraps (fun _ => true)
      [(str "meta", .null), (str "dataset", .object
        [(str "ID", .number (str "1")), (str "dataset_code", .string (str "AAPL")),
          (str "name", .string (str "Apple")),
          (str "column_names", .array [.null, .string (str "Date")]),
          (str "extra", .array [.number (str "1.5")])])]
      []
      [(str "dataset_code", .string (str "AAPL")), (str "name", .string (str "Apple")),
        (str "column_names", .array [.null, .string (str "Date")]),
        (str "extra", .array [.number (str "1.5")])]
      [(str "ID", .number (str "1"))]
      [(str "name", .string (str "Apple")),
        (str "column_names", .array [.null, .string (str "Date")]),
        (str "extra", .array [.number (str "1.5")])]
      (str "ID") (str "dataset_code")
      (by
        intro kv hkv
        simp only [List.mem_cons, List.mem_singleton, List.not_mem_nil, or_false] at hkv
        rcases hkv with rfl | rfl <;> decide)
      (by
        intro kv hkv
        have hkv2 : kv ∈ [(str "ID", JSON.number (str "1")),
            (str "dataset_code", JSON.string (str "AAPL")), (str "name", JSON.string (str "Apple")),
            (str "column_names", JSON.array [JSON.null, JSON.string (str "Date")]),
            (str "extra", JSON.array [JSON.number (str "1.5")])] := hkv
        simp only [List.mem_cons, List.mem_singleton, List.not_mem_nil, or_false] at hkv2
        rcases hkv2 with rfl | rfl | rfl | rfl | rfl <;> decide)
      rfl (by decide)
      (by
        intro kv hkv
        simp only [List.mem_cons, List.mem_singleton, List.not_mem_nil, or_false] at hkv
        rcases hkv with rfl | rfl | rfl | rfl <;> decide)
      rfl (by decide)
      (by
        intro kv hkv
        simp only [List.mem_cons, List.mem_singleton, List.not_mem_nil, or_false] at hkv
        rcases hkv with rfl | rfl | rfl <;> decide)
  have hms : ∀ tag : GoString,
      (∀ kv ∈ [(str "ID", JSON.number (str "1")),
        (str "dataset_code", JSON.string (str "AAPL")), (str "name", JSON.string (str "Apple")),
        (str "column_names", JSON.array [JSON.null, JSON.string (str "Date")]),
        (str "extra", JSON.array [JSON.number (str "1.5")])], equalFold tag kv.1 = false) →
      ∀ kv ∈ datasetMembers [(str "meta", JSON.null), (str "dataset", JSON.object
        [(str "ID", JSON.number (str "1")), (str "dataset_code", JSON.string (str "AAPL")),
          (str "name", JSON.string (str "Apple")),
          (str "column_names", JSON.array [JSON.null, JSON.string (str "Date")]),
          (str "extra", JSON.array [JSON.number (str "1.5")])])], equalFold tag kv.1 = false :=
    fun _ h => h
  exact ⟨d, h1, h2, h3, h12 (hms _ (by
      intro kv hkv
      simp only [List.mem_cons, List.mem_singleton, List.not_mem_nil, or_false] at hkv
      rcases hkv with rfl | rfl | rfl | rfl | rfl <;> decide)),
    h18 (hms _ (by
      intro kv hkv
      simp only [List.mem_cons, List.mem_singleton, List.not_mem_nil, or_false] at hkv
      rcases hkv with rfl | rfl | rfl | rfl | rfl <;> decide))⟩

end Quandl
